import Mathlib

/-!
# Monitor 6502: shallow embedding of `libs/monitor/monitor.c`

Machine integers are natural numbers reduced explicitly (`% 256` for
`uint8_t`, `% 65536` for `uint16_t` and for `int`/`unsigned`, which are 16 bits
wide on the 6502 target).  A C string is the list of its characters; reading
at or past the end of the list reads the terminating NUL.  A `const char *`
into a string is the suffix of the list that starts at the pointed character.
Functions that only print return the characters they send to the UART.
-/

namespace Monitor

/-! ## Session state and collaborators -/

/-- Session state: target memory, the static `last_addr`, the characters sent to
the UART so far, the characters still to arrive on the UART, and the static line
buffer with its cursor. -/
structure Mon (M : Type) where
  mem : M
  last_addr : Nat
  out : List Char
  inp : List Char
  input_buffer : List Char
  input_pos : Nat

/-- Collaborators of the monitor: the raw byte read and write behind
`mon_read_byte` / `mon_write_byte`, and the code reached by `code()` in
`mon_execute` (`none` when that code never returns). -/
structure Host (M : Type) where
  read : M → Nat → Nat
  write : M → Nat → Nat → M
  call : Nat → Mon M → Option (Mon M)

/-- Modelled from the spec: `monitor.h` is missing; `MON_OK` and `MON_EXIT` are
its two result codes, distinct from one another (section 4.4, command Q). -/
inductive MonResult where
  | MON_OK
  | MON_EXIT
  deriving DecidableEq, Repr

/-- Appends characters to the UART output. -/
def emit {M : Type} (st : Mon M) (cs : List Char) : Mon M :=
  { st with out := st.out ++ cs }

/-! ## Printing utilities -/

def hex_chars : List Char := "0123456789ABCDEF".toList

def mon_newline : List Char := ['\r', '\n']

def mon_print_hex8 (val : Nat) : List Char :=
  [hex_chars.getD ((val >>> 4) &&& 0x0F) '\x00', hex_chars.getD (val &&& 0x0F) '\x00']

def mon_print_hex16 (val : Nat) : List Char :=
  mon_print_hex8 ((val >>> 8) % 256) ++ mon_print_hex8 ((val &&& 0xFF) % 256)

def mon_print_space : List Char := [' ']

def mon_prompt : List Char := mon_newline ++ ['>']

def mon_error (msg : String) : List Char := "ERR: ".toList ++ msg.toList ++ mon_newline

def mon_ok : List Char := "OK".toList ++ mon_newline

/-! ## Conversion functions -/

def hex_char_to_val (c : Char) : Nat :=
  if '0'.toNat ≤ c.toNat ∧ c.toNat ≤ '9'.toNat then c.toNat - '0'.toNat
  else if 'A'.toNat ≤ c.toNat ∧ c.toNat ≤ 'F'.toNat then c.toNat - 'A'.toNat + 10
  else if 'a'.toNat ≤ c.toNat ∧ c.toNat ≤ 'f'.toNat then c.toNat - 'a'.toNat + 10
  else 0xFF

def is_hex_char (c : Char) : Bool :=
  ('0'.toNat ≤ c.toNat && c.toNat ≤ '9'.toNat) ||
  ('A'.toNat ≤ c.toNat && c.toNat ≤ 'F'.toNat) ||
  ('a'.toNat ≤ c.toNat && c.toNat ≤ 'f'.toNat)

/-- Character `str[i]` of a C string. -/
def strAt (str : List Char) (i : Nat) : Char := str.getD i '\x00'

/-- Loop of `mon_hex_to_u8` from index `i`; the first argument bounds the
remaining iterations (`i` only grows and the loop stops at `i = 2`). -/
def mon_hex_to_u8_loop (str : List Char) : Nat → Nat → Nat → Nat
  | 0, _, result => result
  | fuel + 1, i, result =>
    if i < 2 ∧ strAt str i ≠ '\x00' then
      if !is_hex_char (strAt str i) then result
      else mon_hex_to_u8_loop str fuel (i + 1)
        (((result <<< 4) ||| hex_char_to_val (strAt str i)) % 256)
    else result

def mon_hex_to_u8 (str : List Char) : Nat := mon_hex_to_u8_loop str 2 0 0

/-- Loop of `mon_hex_to_u16` from index `i`; the loop stops at `i = 4`. -/
def mon_hex_to_u16_loop (str : List Char) : Nat → Nat → Nat → Nat
  | 0, _, result => result
  | fuel + 1, i, result =>
    if i < 4 ∧ strAt str i ≠ '\x00' then
      if !is_hex_char (strAt str i) then result
      else mon_hex_to_u16_loop str fuel (i + 1)
        (((result <<< 4) ||| hex_char_to_val (strAt str i)) % 65536)
    else result

def mon_hex_to_u16 (str : List Char) : Nat := mon_hex_to_u16_loop str 4 0 0

/-- First loop of `parse_hex_token`: `while (*str == ' ') str++`. -/
def skip_spaces : List Char → List Char
  | [] => []
  | c :: rest => if c = ' ' then skip_spaces rest else c :: rest

/-- Second loop of `parse_hex_token`: accumulates hex digits into the 16-bit
`*value` and returns it with the advanced pointer. -/
def parse_hex_digits : Nat → List Char → Nat × List Char
  | value, [] => (value, [])
  | value, c :: rest =>
    if is_hex_char c then
      parse_hex_digits (((value <<< 4) ||| hex_char_to_val c) % 65536) rest
    else (value, c :: rest)

/-- Returns `(*value, returned pointer)`. -/
def parse_hex_token (str : List Char) : Nat × List Char :=
  parse_hex_digits 0 (skip_spaces str)

/-! ## Memory functions -/

def mon_read_byte {M : Type} (host : Host M) (mem : M) (addr : Nat) : Nat :=
  host.read mem (addr % 65536) % 256

def mon_write_byte {M : Type} (host : Host M) (mem : M) (addr value : Nat) : M :=
  host.write mem (addr % 65536) (value % 256)

/-- First inner loop of `mon_dump` (`for (j = 0; j < 16 && (i + j) < len; j++)`):
fills `data` and prints the hex fields.  Returns `(j, data, printed)`; the first
argument bounds the remaining iterations (`j` stops at 16). -/
def mon_dump_hex_loop {M : Type} (host : Host M) (mem : M) (row_addr i len : Nat) :
    Nat → Nat → List Nat → List Char → Nat × List Nat × List Char
  | 0, j, data, out => (j, data, out)
  | fuel + 1, j, data, out =>
    if j < 16 ∧ (i + j) % 65536 < len then
      let d := mon_read_byte host mem (row_addr + j)
      mon_dump_hex_loop host mem row_addr i len fuel (j + 1) (data.set j d)
        (out ++ mon_print_hex8 d ++ mon_print_space)
    else (j, data, out)

/-- Padding loop of `mon_dump`: `while (j < 16) { uart_puts("   "); j++; }`. -/
def mon_dump_pad_loop : Nat → Nat → List Char → List Char
  | 0, _, out => out
  | fuel + 1, j, out =>
    if j < 16 then mon_dump_pad_loop fuel (j + 1) (out ++ "   ".toList) else out

/-- ASCII loop of `mon_dump` (`for (j = 0; j < 16 && (i + j) < len; j++)`). -/
def mon_dump_ascii_loop (data : List Nat) (i len : Nat) : Nat → Nat → List Char → List Char
  | 0, _, out => out
  | fuel + 1, j, out =>
    if j < 16 ∧ (i + j) % 65536 < len then
      mon_dump_ascii_loop data i len fuel (j + 1)
        (out ++ [if data.getD j 0 ≥ 0x20 ∧ data.getD j 0 < 0x7F
                 then Char.ofNat (data.getD j 0) else '.'])
    else out

/-- Body of the outer loop of `mon_dump` for one `i`: returns the updated `data`
array and the characters of the row. -/
def mon_dump_row {M : Type} (host : Host M) (mem : M) (addr len i : Nat) (data : List Nat) :
    List Nat × List Char :=
  let row_addr := (addr + i) % 65536
  let out := mon_print_hex16 row_addr ++ ": ".toList
  let r := mon_dump_hex_loop host mem row_addr i len 16 0 data out
  let out := mon_dump_pad_loop 16 r.1 r.2.2
  let out := out ++ ['|']
  let out := mon_dump_ascii_loop r.2.1 i len 16 0 out
  (r.2.1, out ++ ['|'] ++ mon_newline)

/-- Outer loop of `mon_dump` (`for (i = 0; i < len; i += 16)`, `i` a `uint16_t`).
`i` takes at most 4096 values, so a run that has not left the loop when the
fuel is spent never leaves it: `none`. -/
def mon_dump_loop {M : Type} (host : Host M) (mem : M) (addr len : Nat) :
    Nat → Nat → List Nat → List Char → Option (List Char)
  | 0, _, _, _ => none
  | fuel + 1, i, data, out =>
    if i < len then
      let r := mon_dump_row host mem addr len i data
      mon_dump_loop host mem addr len fuel ((i + 16) % 65536) r.1 (out ++ r.2)
    else some out

def mon_dump {M : Type} (host : Host M) (st : Mon M) (addr len : Nat) : Option (Mon M) :=
  match mon_dump_loop host st.mem addr len 4097 0 (List.replicate 16 0) [] with
  | none => none
  | some printed => some { emit st printed with last_addr := (addr + len) % 65536 }

/-- Loop of `mon_fill` (`for (i = 0; i < len; i++)`) at index `i`, with
`n = len - i` iterations left. -/
def mon_fill_loop {M : Type} (host : Host M) (addr value : Nat) : Nat → Nat → M → M
  | 0, _, mem => mem
  | n + 1, i, mem =>
    mon_fill_loop host addr value n (i + 1) (mon_write_byte host mem (addr + i) value)

def mon_fill {M : Type} (host : Host M) (st : Mon M) (addr len value : Nat) : Mon M :=
  { st with mem := mon_fill_loop host addr value len 0 st.mem }

/-! ## Code execution -/

def mon_execute {M : Type} (host : Host M) (st : Mon M) (addr : Nat) : Option (Mon M) :=
  match host.call addr
      (emit st ("Ejecutando en $".toList ++ mon_print_hex16 addr ++ "...".toList ++ mon_newline)) with
  | none => none
  | some st1 =>
    some (emit st1 (mon_newline ++ "Retorno de $".toList ++ mon_print_hex16 addr ++ mon_newline))

/-! ## Load mode -/

/-- Locals of `mon_load_mode` together with the memory and the printed text. -/
structure LoadState (M : Type) where
  addr : Nat
  byte_val : Nat
  nibble_count : Nat
  bytes_loaded : Nat
  mem : M
  out : List Char

/-- Loop `while (1)` of `mon_load_mode` over the characters `uart_getc` delivers.
Returns the state at the `break` and the characters not yet consumed; `none`
when the input ends before a `.` (the loop waits for ever). -/
def mon_load_loop {M : Type} (host : Host M) : List Char → LoadState M →
    Option (LoadState M × List Char)
  | [], _ => none
  | c :: rest, s =>
    if c = '.' then some (s, rest)
    else if c = '\r' ∨ c = '\n' then
      mon_load_loop host rest { s with out := s.out ++ mon_newline ++ [':'] }
    else if c = ' ' then
      mon_load_loop host rest { s with out := s.out ++ [' '] }
    else if is_hex_char c then
      let byte_val := ((s.byte_val <<< 4) ||| hex_char_to_val c) % 256
      let nibble_count := (s.nibble_count + 1) % 256
      if nibble_count = 2 then
        mon_load_loop host rest
          { addr := (s.addr + 1) % 65536
            byte_val := 0
            nibble_count := 0
            bytes_loaded := (s.bytes_loaded + 1) % 65536
            mem := mon_write_byte host s.mem s.addr byte_val
            out := s.out ++ [c] }
      else
        mon_load_loop host rest
          { s with byte_val := byte_val, nibble_count := nibble_count, out := s.out ++ [c] }
    else mon_load_loop host rest s

def mon_load_mode {M : Type} (host : Host M) (st : Mon M) (addr : Nat) : Option (Mon M) :=
  let out := st.out ++ "Modo carga en $".toList ++ mon_print_hex16 addr ++
    " (terminar con '.')".toList ++ mon_newline ++ [':']
  match mon_load_loop host st.inp
      { addr := addr, byte_val := 0, nibble_count := 0, bytes_loaded := 0,
        mem := st.mem, out := out } with
  | none => none
  | some (s, rest) =>
    some { st with
      mem := s.mem
      inp := rest
      out := s.out ++ mon_newline ++ "Cargados ".toList ++ mon_print_hex16 s.bytes_loaded ++
        " bytes".toList ++ mon_newline
      last_addr := s.addr }

/-! ## Basic disassembler -/

def get_mnemonic (opcode : Nat) : String :=
  match opcode with
  | 0x00 => "BRK"
  | 0x20 => "JSR"
  | 0x40 => "RTI"
  | 0x60 => "RTS"
  | 0x4C => "JMP"
  | 0x6C => "JMP()"
  | 0xA9 => "LDA#"
  | 0xA5 => "LDAzp"
  | 0xAD => "LDAab"
  | 0xA2 => "LDX#"
  | 0xA0 => "LDY#"
  | 0x85 => "STAzp"
  | 0x8D => "STAab"
  | 0x86 => "STXzp"
  | 0x84 => "STYzp"
  | 0xE8 => "INX"
  | 0xC8 => "INY"
  | 0xCA => "DEX"
  | 0x88 => "DEY"
  | 0x18 => "CLC"
  | 0x38 => "SEC"
  | 0xD8 => "CLD"
  | 0xF8 => "SED"
  | 0x58 => "CLI"
  | 0x78 => "SEI"
  | 0xEA => "NOP"
  | 0xAA => "TAX"
  | 0xA8 => "TAY"
  | 0x8A => "TXA"
  | 0x98 => "TYA"
  | 0x9A => "TXS"
  | 0xBA => "TSX"
  | 0x48 => "PHA"
  | 0x68 => "PLA"
  | 0x08 => "PHP"
  | 0x28 => "PLP"
  | 0x69 => "ADC#"
  | 0xE9 => "SBC#"
  | 0xC9 => "CMP#"
  | 0xE0 => "CPX#"
  | 0xC0 => "CPY#"
  | 0x29 => "AND#"
  | 0x09 => "ORA#"
  | 0x49 => "EOR#"
  | 0xD0 => "BNE"
  | 0xF0 => "BEQ"
  | 0x10 => "BPL"
  | 0x30 => "BMI"
  | 0x90 => "BCC"
  | 0xB0 => "BCS"
  | 0x50 => "BVC"
  | 0x70 => "BVS"
  | _ => "???"

def get_instruction_len (opcode : Nat) : Nat :=
  if opcode = 0x00 ∨ opcode = 0x40 ∨ opcode = 0x60 ∨
     opcode = 0xE8 ∨ opcode = 0xC8 ∨ opcode = 0xCA ∨
     opcode = 0x88 ∨ opcode = 0x18 ∨ opcode = 0x38 ∨
     opcode = 0xD8 ∨ opcode = 0xF8 ∨ opcode = 0x58 ∨
     opcode = 0x78 ∨ opcode = 0xEA ∨ opcode = 0xAA ∨
     opcode = 0xA8 ∨ opcode = 0x8A ∨ opcode = 0x98 ∨
     opcode = 0x9A ∨ opcode = 0xBA ∨ opcode = 0x48 ∨
     opcode = 0x68 ∨ opcode = 0x08 ∨ opcode = 0x28 then 1
  else if (opcode &&& 0x0F) = 0x09 ∨
     (opcode &&& 0x0F) = 0x05 ∨
     (opcode &&& 0x0F) = 0x06 ∨
     (opcode &&& 0x1F) = 0x10 ∨
     opcode = 0xA2 ∨ opcode = 0xA0 ∨
     opcode = 0xE0 ∨ opcode = 0xC0 then 2
  else if opcode = 0x20 ∨ opcode = 0x4C ∨ opcode = 0x6C ∨
     (opcode &&& 0x0F) = 0x0D ∨
     (opcode &&& 0x0F) = 0x0E then 3
  else 2

/-- Loop `for (j = 0; j < len; j++) bytes[j] = mon_read_byte(addr + j)` at index
`j`, with `n = len - j` iterations left. -/
def mon_disassemble_read {M : Type} (host : Host M) (mem : M) (addr : Nat) :
    Nat → Nat → List Nat → List Nat
  | 0, _, bytes => bytes
  | n + 1, j, bytes =>
    mon_disassemble_read host mem addr n (j + 1) (bytes.set j (mon_read_byte host mem (addr + j)))

/-- Loop `for (j = 0; j < 3; j++)` printing the raw bytes, at index `j` with
`n = 3 - j` iterations left. -/
def mon_disassemble_hex (bytes : List Nat) (len : Nat) : Nat → Nat → List Char
  | 0, _ => []
  | n + 1, j =>
    (if j < len then mon_print_hex8 (bytes.getD j 0) else "  ".toList) ++ mon_print_space ++
      mon_disassemble_hex bytes len n (j + 1)

/-- Body of the loop of `mon_disassemble` for the instruction at `addr`: returns
the `bytes` array, the printed line and the length of the instruction. -/
def mon_disassemble_line {M : Type} (host : Host M) (mem : M) (addr : Nat) (bytes : List Nat) :
    List Nat × List Char × Nat :=
  let opcode := mon_read_byte host mem addr
  let len := get_instruction_len opcode
  let bytes := mon_disassemble_read host mem addr len 0 bytes
  let out := mon_print_hex16 addr ++ "  ".toList ++ mon_disassemble_hex bytes len 3 0 ++
    (get_mnemonic opcode).toList
  let out :=
    if len = 2 then out ++ " $".toList ++ mon_print_hex8 (bytes.getD 1 0)
    else if len = 3 then
      out ++ " $".toList ++ mon_print_hex8 (bytes.getD 2 0) ++ mon_print_hex8 (bytes.getD 1 0)
    else out
  (bytes, out ++ mon_newline, len)

/-- Loop `for (i = 0; i < lines; i++)` of `mon_disassemble` with `n = lines - i`
iterations left.  Returns the final `addr` and the printed text. -/
def mon_disassemble_loop {M : Type} (host : Host M) (mem : M) :
    Nat → Nat → List Nat → List Char → Nat × List Char
  | 0, addr, _, out => (addr, out)
  | n + 1, addr, bytes, out =>
    let r := mon_disassemble_line host mem addr bytes
    mon_disassemble_loop host mem n ((addr + r.2.2) % 65536) r.1 (out ++ r.2.1)

def mon_disassemble {M : Type} (host : Host M) (st : Mon M) (addr lines : Nat) : Mon M :=
  let r := mon_disassemble_loop host st.mem lines addr [0, 0, 0] []
  { emit st r.2 with last_addr := r.1 }

/-! ## RAM analysis -/

def RAM_START : Nat := 0x0100
def RAM_END : Nat := 0x3DFF
def ZP_START : Nat := 0x0002
def ZP_END : Nat := 0x00FF
def STACK_START : Nat := 0x3E00
def STACK_END : Nat := 0x3FFF

/-- First loop of `mon_print_dec`: `while (val > 0) { buf[i++] = '0' + val % 10;
val /= 10; }`; returns `buf[0..i)`.  The first argument bounds the remaining
iterations (`val` shrinks at every step). -/
def mon_print_dec_digits : Nat → Nat → List Char → List Char
  | 0, _, buf => buf
  | fuel + 1, val, buf =>
    if val > 0 then
      mon_print_dec_digits fuel (val / 10) (buf ++ [Char.ofNat ('0'.toNat + val % 10)])
    else buf

/-- Prints a decimal number; the second loop sends `buf` last cell first. -/
def mon_print_dec (val : Nat) : List Char :=
  if val = 0 then ['0'] else (mon_print_dec_digits val val []).reverse

def mon_info : List Char :=
  mon_newline ++ "=== MAPA DE MEMORIA ===".toList ++ mon_newline ++ mon_newline ++
  "Zero Page:  $0002-$00FF (".toList ++ mon_print_dec (ZP_END - ZP_START + 1) ++
  " bytes)".toList ++ mon_newline ++
  "RAM:        $0100-$3DFF (".toList ++ mon_print_dec (RAM_END - RAM_START + 1) ++
  " bytes)".toList ++ mon_newline ++
  "Stack:      $3E00-$3FFF (".toList ++ mon_print_dec (STACK_END - STACK_START + 1) ++
  " bytes)".toList ++ mon_newline ++
  "ROM:        $8000-$9FFF (~8 KB)".toList ++ mon_newline ++
  "I/O:        $C000-$C0FF".toList ++ mon_newline ++ mon_newline ++
  "RAM libre para programas:".toList ++ mon_newline ++
  "  $0200-$3DFF (".toList ++ mon_print_dec (0x3DFF - 0x0200 + 1) ++
  " bytes)".toList ++ mon_newline

/-- Locals of `mon_scan` that the loop updates, and the text printed so far. -/
structure ScanState where
  free_00 : Nat
  free_ff : Nat
  used : Nat
  block_start : Nat
  in_free_block : Bool
  blocks_shown : Nat
  out : List Char

/-- One free-block line of the scan report. -/
def mon_scan_block (first last size : Nat) : List Char :=
  "  Libre: $".toList ++ mon_print_hex16 first ++ "-$".toList ++ mon_print_hex16 last ++
  " (".toList ++ mon_print_dec size ++ " bytes)".toList ++ mon_newline

/-- Body of the loop of `mon_scan` for the byte `val` read at `addr`. -/
def mon_scan_step (val addr : Nat) (s : ScanState) : ScanState :=
  if val = 0x00 then
    { s with
      free_00 := (s.free_00 + 1) % 65536
      in_free_block := true
      block_start := if !s.in_free_block then addr else s.block_start }
  else if val = 0xFF then
    { s with
      free_ff := (s.free_ff + 1) % 65536
      in_free_block := true
      block_start := if !s.in_free_block then addr else s.block_start }
  else
    let s1 := { s with used := (s.used + 1) % 65536 }
    let s2 :=
      if s1.in_free_block ∧ (addr + 65536 - s1.block_start) % 65536 ≥ 16 then
        if s1.blocks_shown < 8 then
          { s1 with
            out := s1.out ++ mon_scan_block s1.block_start ((addr + 65535) % 65536)
              ((addr + 65536 - s1.block_start) % 65536)
            blocks_shown := (s1.blocks_shown + 1) % 256 }
        else s1
      else s1
    { s2 with in_free_block := false }

/-- Loop `for (addr = start; addr <= end; addr++)` of `mon_scan`, with its `break`
at `addr == 0xFFFF`.  `addr` grows at every step and stops at `0xFFFF` at the
latest, so 65536 units of fuel are never spent; `none` stands for spent fuel. -/
def mon_scan_loop {M : Type} (host : Host M) (mem : M) (last : Nat) :
    Nat → Nat → ScanState → Option ScanState
  | 0, _, _ => none
  | fuel + 1, addr, s =>
    if addr ≤ last then
      let s1 := mon_scan_step (mon_read_byte host mem addr) addr s
      if addr = 0xFFFF then some s1
      else mon_scan_loop host mem last fuel ((addr + 1) % 65536) s1
    else some s

/-- Text printed by `mon_scan` after its loop, from the loop's final state. -/
def mon_scan_report (start last : Nat) (s : ScanState) : List Char :=
  let out :=
    if s.in_free_block ∧ (last + 65536 - s.block_start + 1) % 65536 ≥ 16 ∧ s.blocks_shown < 8 then
      s.out ++ mon_scan_block s.block_start last ((last + 65536 - s.block_start + 1) % 65536)
    else s.out
  out ++ mon_newline ++ "Resultados:".toList ++ mon_newline ++
  "  Bytes $00: ".toList ++ mon_print_dec s.free_00 ++ mon_newline ++
  "  Bytes $FF: ".toList ++ mon_print_dec s.free_ff ++ mon_newline ++
  "  Bytes usados: ".toList ++ mon_print_dec s.used ++ mon_newline ++
  "  Total libre: ".toList ++ mon_print_dec ((s.free_00 + s.free_ff) % 65536) ++
  " / ".toList ++ mon_print_dec ((last + 65536 - start + 1) % 65536) ++ mon_newline

/-- Initial locals of `mon_scan`, after the heading is printed. -/
def mon_scan_init (start last : Nat) : ScanState :=
  { free_00 := 0, free_ff := 0, used := 0, block_start := 0, in_free_block := false,
    blocks_shown := 0,
    out := "Escaneando $".toList ++ mon_print_hex16 start ++ "-$".toList ++
      mon_print_hex16 last ++ "...".toList ++ mon_newline }

/-- Characters printed by `mon_scan(start, end)`. -/
def mon_scan {M : Type} (host : Host M) (mem : M) (start last : Nat) : Option (List Char) :=
  match mon_scan_loop host mem last 65536 start (mon_scan_init start last) with
  | none => none
  | some s => some (mon_scan_report start last s)

/-- Locals of `mon_test_ram` that the loop updates, the memory and the text
printed so far. -/
structure TestState (M : Type) where
  mem : M
  errors : Nat
  ok : Nat
  out : List Char

/-- One mismatch line of the RAM test. -/
def mon_test_mismatch (addr test_val read_val : Nat) : List Char :=
  "  $".toList ++ mon_print_hex16 addr ++ " W:".toList ++ mon_print_hex8 test_val ++
  " R:".toList ++ mon_print_hex8 read_val ++ mon_newline

/-- Body of the loop of `mon_test_ram` for index `i`. -/
def mon_test_ram_step {M : Type} (host : Host M) (start i : Nat) (s : TestState M) :
    TestState M :=
  let addr := (start + i) % 65536
  let original := mon_read_byte host s.mem addr
  let mem1 := mon_write_byte host s.mem addr 0x55
  let read_val := mon_read_byte host mem1 addr
  let s1 : TestState M :=
    if read_val ≠ 0x55 then
      let errors := (s.errors + 1) % 65536
      { mem := mem1, errors := errors, ok := s.ok,
        out := if errors ≤ 5 then s.out ++ mon_test_mismatch addr 0x55 read_val else s.out }
    else
      let mem2 := mon_write_byte host mem1 addr 0xAA
      let read_val := mon_read_byte host mem2 addr
      if read_val ≠ 0xAA then
        let errors := (s.errors + 1) % 65536
        { mem := mem2, errors := errors, ok := s.ok,
          out := if errors ≤ 5 then s.out ++ mon_test_mismatch addr 0xAA read_val else s.out }
      else
        { mem := mem2, errors := s.errors, ok := (s.ok + 1) % 65536, out := s.out }
  { s1 with mem := mon_write_byte host s1.mem addr original }

/-- Loop `for (i = 0; i < len; i++)` of `mon_test_ram` at index `i`, with
`n = len - i` iterations left. -/
def mon_test_ram_loop {M : Type} (host : Host M) (start : Nat) :
    Nat → Nat → TestState M → TestState M
  | 0, _, s => s
  | n + 1, i, s => mon_test_ram_loop host start n (i + 1) (mon_test_ram_step host start i s)

/-- State of `mon_test_ram` when its loop ends. -/
def mon_test_ram_run {M : Type} (host : Host M) (mem : M) (start len : Nat) : TestState M :=
  mon_test_ram_loop host start len 0
    { mem := mem, errors := 0, ok := 0,
      out := "Test RAM $".toList ++ mon_print_hex16 start ++ "-$".toList ++
        mon_print_hex16 ((start + len + 65535) % 65536) ++ mon_newline }

/-- Returns the memory after the test and the characters printed. -/
def mon_test_ram {M : Type} (host : Host M) (mem : M) (start len : Nat) : M × List Char :=
  let s := mon_test_ram_run host mem start len
  (s.mem,
   s.out ++ mon_newline ++
   (if s.errors = 0 then "OK: ".toList ++ mon_print_dec s.ok ++ " bytes".toList
    else "FAIL: ".toList ++ mon_print_dec s.errors ++ "/".toList ++ mon_print_dec len) ++
   mon_newline)

/-- Loop `for (i = 0; i < 64; i++)` of `mon_memmap` at index `i`, with
`n = 64 - i` iterations left; returns `used_count`. -/
def mon_memmap_count {M : Type} (host : Host M) (mem : M) (page : Nat) : Nat → Nat → Nat → Nat
  | 0, _, used_count => used_count
  | n + 1, i, used_count =>
    let addr := ((page <<< 8) ||| (i <<< 2)) % 65536
    mon_memmap_count host mem page n (i + 1)
      (if mon_read_byte host mem addr ≠ 0x00 ∧ mon_read_byte host mem addr ≠ 0xFF
       then (used_count + 1) % 256 else used_count)

/-- Body of the page loop of `mon_memmap`. -/
def mon_memmap_page {M : Type} (host : Host M) (mem : M) (page : Nat) : List Char :=
  (if (page &&& 0x0F) = 0x01 then "$".toList ++ mon_print_hex8 (page % 256) ++ ": ".toList
   else []) ++
  (let used_count := mon_memmap_count host mem page 64 0 0
   [if used_count = 0 then '.' else if used_count ≥ 60 then '#' else 'X']) ++
  (if (page &&& 0x0F) = 0x00 ∨ page = 0x3D then mon_newline else [])

/-- Loop `for (page = 0x01; page <= 0x3D; page++)` of `mon_memmap` at `page`, with
`n = 0x3E - page` iterations left. -/
def mon_memmap_loop {M : Type} (host : Host M) (mem : M) : Nat → Nat → List Char
  | 0, _ => []
  | n + 1, page => mon_memmap_page host mem page ++ mon_memmap_loop host mem n (page + 1)

def mon_memmap {M : Type} (host : Host M) (mem : M) : List Char :=
  "Mapa de RAM (. = libre, # = usada, X = mixta)".toList ++ mon_newline ++
  "Cada caracter = 256 bytes (1 pagina)".toList ++ mon_newline ++ mon_newline ++
  "     0123456789ABCDEF".toList ++ mon_newline ++
  mon_memmap_loop host mem 0x3D 0x01 ++
  mon_newline ++ "ZP=$02-$FF  Stack=$3E-$3F".toList ++ mon_newline

/-! ## Help -/

def mon_help : List Char :=
  mon_newline ++ "=== MONITOR 6502 ===".toList ++ mon_newline ++
  "Todo en HEX (addr=4dig)".toList ++ mon_newline ++
  "--- BASICOS ---".toList ++ mon_newline ++
  "R addr      | Leer byte".toList ++ mon_newline ++
  "W addr val  | Escribir byte".toList ++ mon_newline ++
  "D addr len  | Dump memoria".toList ++ mon_newline ++
  "L addr      | Cargar hex (fin=.)".toList ++ mon_newline ++
  "G addr      | Ejecutar codigo".toList ++ mon_newline ++
  "F addr ln v | Fill memoria".toList ++ mon_newline ++
  "M addr [n]  | Desensamblar".toList ++ mon_newline ++
  "--- MEMORIA ---".toList ++ mon_newline ++
  "I           | Info mapa mem".toList ++ mon_newline ++
  "S addr len  | Scan mem libre".toList ++ mon_newline ++
  "T addr len  | Test RAM".toList ++ mon_newline ++
  "V           | Vista RAM".toList ++ mon_newline ++
  "--- OTROS ---".toList ++ mon_newline ++
  "H/?         | Ayuda".toList ++ mon_newline ++
  "Q           | Salir".toList ++ mon_newline ++
  "Ej: D 8000 40  F 0200 100 EA".toList ++ mon_newline ++
  "RAM libre: $0200-$3DFF".toList ++ mon_newline

/-! ## Command processing -/

/-- The `switch (command)` of `monitor_process_cmd`; `ptr` is `cmd + 1`.  `none`
when the handler never returns. -/
def monitor_switch {M : Type} (host : Host M) (st : Mon M) (command : Char) (ptr : List Char) :
    Option (Mon M × MonResult) :=
  match command with
  | 'R' =>
    let r := parse_hex_token ptr
    let addr := if r.1 = 0 ∧ r.2 = ptr then st.last_addr else r.1
    some ({ emit st (['$'] ++ mon_print_hex16 addr ++ " = $".toList ++
              mon_print_hex8 (mon_read_byte host st.mem addr) ++ mon_newline) with
            last_addr := (addr + 1) % 65536 }, MonResult.MON_OK)
  | 'W' =>
    let r := parse_hex_token ptr
    let addr := r.1
    let r := parse_hex_token r.2
    let val := r.1
    some ({ emit st (['$'] ++ mon_print_hex16 addr ++ " <- $".toList ++
              mon_print_hex8 (val % 256) ++ mon_newline) with
            mem := mon_write_byte host st.mem addr (val % 256)
            last_addr := (addr + 1) % 65536 }, MonResult.MON_OK)
  | 'D' =>
    let r := parse_hex_token ptr
    let addr := r.1
    let r := parse_hex_token r.2
    let len := if r.1 = 0 then 64 else r.1
    (mon_dump host st addr len).map (fun st1 => (st1, MonResult.MON_OK))
  | 'L' =>
    let r := parse_hex_token ptr
    let addr := if r.1 = 0 then st.last_addr else r.1
    (mon_load_mode host st addr).map (fun st1 => (st1, MonResult.MON_OK))
  | 'G' =>
    let r := parse_hex_token ptr
    (mon_execute host st r.1).map (fun st1 => (st1, MonResult.MON_OK))
  | 'F' =>
    let r := parse_hex_token ptr
    let addr := r.1
    let r := parse_hex_token r.2
    let len := r.1
    let r := parse_hex_token r.2
    let val := r.1
    some (emit (mon_fill host st addr len (val % 256))
            ("Filled $".toList ++ mon_print_hex16 addr ++ "-$".toList ++
             mon_print_hex16 ((addr + len + 65535) % 65536) ++ " con $".toList ++
             mon_print_hex8 (val % 256) ++ mon_newline), MonResult.MON_OK)
  | 'M' =>
    let r := parse_hex_token ptr
    let addr := if r.1 = 0 then st.last_addr else r.1
    let r := parse_hex_token r.2
    let len := if r.1 = 0 then 16 else r.1
    some (mon_disassemble host st addr (len % 256), MonResult.MON_OK)
  | 'I' => some (emit st mon_info, MonResult.MON_OK)
  | 'S' =>
    let r := parse_hex_token ptr
    let addr := r.1
    let r := parse_hex_token r.2
    let len := r.1
    let addr := if addr = 0 then 0x0200 else addr
    let len := if len = 0 then 0x3BFF else len
    let len := if (addr + len) % 65536 > 0x3DFF then (0x3DFF + 65536 - addr + 1) % 65536 else len
    (mon_scan host st.mem addr ((addr + len + 65535) % 65536)).map
      (fun printed => (emit st printed, MonResult.MON_OK))
  | 'T' =>
    let r := parse_hex_token ptr
    let addr := r.1
    let r := parse_hex_token r.2
    let len := r.1
    let addr := if addr = 0 then 0x0200 else addr
    let len := if len = 0 then 0x100 else len
    let t := mon_test_ram host st.mem addr len
    some ({ emit st t.2 with mem := t.1 }, MonResult.MON_OK)
  | 'V' => some (emit st (mon_memmap host st.mem), MonResult.MON_OK)
  | 'Q' => some (emit st ("Saliendo del monitor...".toList ++ mon_newline), MonResult.MON_EXIT)
  | 'H' => some (emit st mon_help, MonResult.MON_OK)
  | '?' => some (emit st mon_help, MonResult.MON_OK)
  | _ => some (emit st (mon_error "Comando desconocido. H=ayuda"), MonResult.MON_OK)

/-- Dispatches one command line; `none` when the handler never returns. -/
def monitor_process_cmd {M : Type} (host : Host M) (st : Mon M) (cmd : List Char) :
    Option (Mon M × MonResult) :=
  match skip_spaces cmd with
  | [] => some (st, MonResult.MON_OK)
  | c :: ptr =>
    if c = '\x00' then some (st, MonResult.MON_OK)
    else
      let command :=
        if 'a'.toNat ≤ c.toNat ∧ c.toNat ≤ 'z'.toNat then Char.ofNat (c.toNat - 32) else c
      monitor_switch host st command ptr

/-! ## Line input -/

/-- Loop `while (1)` of `mon_read_line` over the characters `uart_getc` delivers,
for a buffer of `size` characters (`MON_BUFFER_SIZE`, from the missing
`monitor.h`).  Returns the buffer, `input_pos`, the printed text and the
characters not yet consumed; `none` when the input ends before the line does. -/
def mon_read_line_loop (size : Nat) : List Char → List Char → Nat → List Char →
    Option (List Char × Nat × List Char × List Char)
  | [], _, _, _ => none
  | c :: rest, buf, pos, out =>
    if c = '\r' ∨ c = '\n' then some (buf.set pos '\x00', pos, out ++ mon_newline, rest)
    else if c.toNat = 0x08 ∨ c.toNat = 0x7F then
      if pos > 0 then
        mon_read_line_loop size rest buf (pos - 1) (out ++ [Char.ofNat 0x08, ' ', Char.ofNat 0x08])
      else mon_read_line_loop size rest buf pos out
    else if c.toNat = 0x1B then
      some (buf.set 0 '\x00', 0, out ++ " [ESC]".toList ++ mon_newline, rest)
    else if pos < size - 1 ∧ c.toNat ≥ 0x20 ∧ c.toNat < 0x7F then
      mon_read_line_loop size rest (buf.set pos c) ((pos + 1) % 256) (out ++ [c])
    else mon_read_line_loop size rest buf pos out

def mon_read_line {M : Type} (size : Nat) (st : Mon M) : Option (Mon M) :=
  match mon_read_line_loop size st.inp st.input_buffer 0 st.out with
  | none => none
  | some (buf, pos, out, rest) =>
    some { st with input_buffer := buf, input_pos := pos, out := out, inp := rest }

/-! ## Main functions -/

def monitor_init {M : Type} (st : Mon M) : Mon M :=
  { st with input_pos := 0, last_addr := 0x0200 }

/-- Loop `while (1)` of `monitor_run`; the first argument bounds the number of
command lines processed, `none` when it is spent or a step never returns. -/
def monitor_run_loop {M : Type} (host : Host M) (size : Nat) : Nat → Mon M → Option (Mon M)
  | 0, _ => none
  | fuel + 1, st =>
    match mon_read_line size (emit st mon_prompt) with
    | none => none
    | some st1 =>
      match monitor_process_cmd host st1 st1.input_buffer with
      | none => none
      | some (st2, result) =>
        if result = MonResult.MON_EXIT then some st2 else monitor_run_loop host size fuel st2

def monitor_run {M : Type} (host : Host M) (size fuel : Nat) (st : Mon M) : Option (Mon M) :=
  monitor_run_loop host size fuel
    (emit st (mon_newline ++ "================================".toList ++ mon_newline ++
      "  MONITOR 6502 v1.0".toList ++ mon_newline ++
      "  Tang Nano 9K @ 3.375 MHz".toList ++ mon_newline ++
      "================================".toList ++ mon_newline ++
      "Escribe H para ayuda".toList))

/-! ## Memories -/

/-- Memory contents: the byte stored at each address. -/
abbrev Mem := Nat → Nat

/-- Memory in which every address stores what is written to it; called code
never returns. -/
def ram : Host Mem where
  read := fun m a => m a
  write := fun m a v => fun x => if x = a then v else m x
  call := fun _ _ => none

/-- Memory in which address `s` is stuck at 0x00 (writes to `s` are ignored and
reads of `s` return 0x00) and every other address stores what is written. -/
def stuck (s : Nat) : Host Mem where
  read := fun m a => if a = s then 0 else m a
  write := fun m a v => if a = s then m else fun x => if x = a then v else m x
  call := fun _ _ => none

/-- Session state at start-up over memory `m`, with `inp` still to be typed and a
line buffer of `size` characters. -/
def boot (size : Nat) (m : Mem) (inp : List Char) : Mon Mem :=
  { mem := m, last_addr := 0x0200, out := [], inp := inp,
    input_buffer := List.replicate size '\x00', input_pos := 0 }

/-! ## Specification-side definitions -/

/-- Base-16 value of a list of hex digits, most significant first. -/
def hexValue (digits : List Char) : Nat :=
  digits.foldl (fun acc c => acc * 16 + hex_char_to_val c) 0

/-- Text `s` with its leading space characters removed. -/
def afterSpaces (s : List Char) : List Char := s.dropWhile (fun c => c = ' ')

/-- Longest run of hex digits at the start of `t`. -/
def hexRun (t : List Char) : List Char := t.takeWhile is_hex_char

/-- Address `a_k` of the `k`-th instruction of a disassembly that starts at `a`:
`a_0 = a` and `a_(k+1) = a_k + get_instruction_len(mem[a_k])` modulo 2^16. -/
def disasmAddr {M : Type} (host : Host M) (mem : M) (a : Nat) : Nat → Nat
  | 0 => a
  | k + 1 =>
    (disasmAddr host mem a k +
      get_instruction_len (mon_read_byte host mem (disasmAddr host mem a k))) % 65536

/-- Operand text of the instruction at `a`: nothing for length 1, ` $XX` (byte at
`a + 1`) for length 2, ` $HHLL` (byte at `a + 2`, then byte at `a + 1`) for
length 3. -/
def disasmOperand {M : Type} (host : Host M) (mem : M) (a : Nat) : List Char :=
  if get_instruction_len (mon_read_byte host mem a) = 2 then
    " $".toList ++ mon_print_hex8 (mon_read_byte host mem (a + 1))
  else if get_instruction_len (mon_read_byte host mem a) = 3 then
    " $".toList ++ mon_print_hex8 (mon_read_byte host mem (a + 2)) ++
      mon_print_hex8 (mon_read_byte host mem (a + 1))
  else []

/-- Three raw-byte columns of the instruction at `a`: two hex digits and a space
for each byte of the instruction, three spaces for each missing byte. -/
def disasmRaw {M : Type} (host : Host M) (mem : M) (a : Nat) : List Char :=
  (List.range 3).flatMap (fun j =>
    if j < get_instruction_len (mon_read_byte host mem a)
    then mon_print_hex8 (mon_read_byte host mem (a + j)) ++ [' ']
    else "   ".toList)

/-- Line printed for the instruction at `a`: address, raw bytes, mnemonic,
operand, CR LF. -/
def disasmLine {M : Type} (host : Host M) (mem : M) (a : Nat) : List Char :=
  mon_print_hex16 a ++ "  ".toList ++ disasmRaw host mem a ++
  (get_mnemonic (mon_read_byte host mem a)).toList ++ disasmOperand host mem a ++ ['\r', '\n']

/-- Text of `n` disassembled lines starting at `a`. -/
def disasmText {M : Type} (host : Host M) (mem : M) (a n : Nat) : List Char :=
  (List.range n).flatMap (fun k => disasmLine host mem (disasmAddr host mem a k))

/-- Number of lines in a text: its LF characters. -/
def lineCount (text : List Char) : Nat := text.count '\n'

/-- Memory holding the bytes `EA A9 05 4C 00 80` at 0x0200 and zero elsewhere. -/
def exampleProgram : Mem := fun a =>
  if a = 0x200 then 0xEA else if a = 0x201 then 0xA9 else if a = 0x202 then 0x05
  else if a = 0x203 then 0x4C else if a = 0x204 then 0x00 else if a = 0x205 then 0x80 else 0

/-- State of the RAM test on `stuck s` before index `i`, when `i0` is the index of
the stuck address: memory holds its former bytes, and the stuck address has been
reported once if it was passed. -/
def TestInv (m : Mem) (s i0 i : Nat) (hdr : List Char) (t : TestState Mem) : Prop :=
  (∀ x, t.mem x = m x ∨ t.mem x = m x % 256) ∧
  t.errors = (if i0 < i then 1 else 0) ∧
  t.ok = i - (if i0 < i then 1 else 0) ∧
  t.out = hdr ++ (if i0 < i then mon_test_mismatch s 0x55 0 else [])

/-- Gutter character of a dumped byte: the byte itself when it is in 0x20..0x7E,
a dot otherwise. -/
def gutterChar (b : Nat) : Char := if 0x20 ≤ b ∧ b ≤ 0x7E then Char.ofNat b else '.'

/-- Number of bytes in row `k` of a dump of `len` bytes. -/
def dumpRowBytes (len k : Nat) : Nat := min 16 (len - 16 * k)

/-- Row `k` of a dump of `len` bytes from `a`: the four-digit address `a + 16k`
modulo 2^16 and `: `, one field of two hex digits and a space for each byte of the
row, three spaces for each missing byte, then the gutter between two bars, and
CR LF. -/
def dumpRow {M : Type} (host : Host M) (mem : M) (a len k : Nat) : List Char :=
  mon_print_hex16 ((a + 16 * k) % 65536) ++ ": ".toList ++
  (List.range (dumpRowBytes len k)).flatMap
    (fun j => mon_print_hex8 (mon_read_byte host mem (a + 16 * k + j)) ++ [' ']) ++
  (List.replicate (16 - dumpRowBytes len k) "   ".toList).flatten ++
  ['|'] ++
  (List.range (dumpRowBytes len k)).map
    (fun j => gutterChar (mon_read_byte host mem (a + 16 * k + j))) ++
  ['|', '\r', '\n']

/-- Text of a dump of `len` bytes from `a`: its `ceil(len / 16)` rows. -/
def dumpText {M : Type} (host : Host M) (mem : M) (a len : Nat) : List Char :=
  (List.range ((len + 15) / 16)).flatMap (fun k => dumpRow host mem a len k)

/-- First character of a command line that is not a space; NUL when there is
none. -/
def firstNonSpace (cmd : List Char) : Char := (afterSpaces cmd).headD '\x00'

/-- State after the R command has read address `a`: the line `$AAAA = $VV` is
printed and Last Address is `a + 1` modulo 2^16. -/
def readReport {M : Type} (host : Host M) (st : Mon M) (a : Nat) : Mon M :=
  { emit st (['$'] ++ mon_print_hex16 a ++ " = $".toList ++
      mon_print_hex8 (mon_read_byte host st.mem a) ++ ['\r', '\n']) with
    last_addr := (a + 1) % 65536 }

/-- The two arguments the S case of `monitor_process_cmd` passes to `mon_scan` for
the parsed values `addr` and `len`: the defaults, the clamp, and
`addr + len - 1`. -/
def scanArgs (addr len : Nat) : Nat × Nat :=
  let addr := if addr = 0 then 0x0200 else addr
  let len := if len = 0 then 0x3BFF else len
  let len := if (addr + len) % 65536 > 0x3DFF then (0x3DFF + 65536 - addr + 1) % 65536 else len
  (addr, (addr + len + 65535) % 65536)

/-- A memory in which every address stores what is written to it: after a write
of byte `v` at address `a`, `a` reads `v` and every other address reads as
before. -/
def StoresWrites {M : Type} (host : Host M) : Prop :=
  ∀ m a v x, a < 65536 → v < 256 →
    host.read (host.write m a v) x = if x = a then v else host.read m x

/-- Hex digits among the characters `cs`, in order. -/
def hexDigitsOf (cs : List Char) : List Char := cs.filter is_hex_char

/-- Bytes made of consecutive pairs of hex digits, the first digit of a pair being
the high nibble; a trailing unpaired digit gives no byte. -/
def pairBytes : List Char → List Nat
  | h1 :: h2 :: rest => (16 * hex_char_to_val h1 + hex_char_to_val h2) :: pairBytes rest
  | _ => []

/-- Memory after the bytes `bs` are written in order, byte `i` at address `a + i`
(modulo 2^16, as `mon_write_byte` takes its address). -/
def writeBytes {M : Type} (host : Host M) (mem : M) (a : Nat) : List Nat → M
  | [] => mem
  | b :: rest => writeBytes host (mon_write_byte host mem a b) (a + 1) rest

/-- Characters load mode echoes for the typed characters `cs`: CR LF and a colon
for an Enter, the character itself for a space or a hex digit, nothing else. -/
def loadEcho (cs : List Char) : List Char :=
  cs.flatMap (fun c =>
    if c = '\r' ∨ c = '\n' then ['\r', '\n', ':']
    else if c = ' ' then [' ']
    else if is_hex_char c then [c]
    else [])

/-- The nibble state of load mode when `p` is the hex digit still waiting for its
partner, if any. -/
def LoadPending {M : Type} (s : LoadState M) (p : Option Char) : Prop :=
  match p with
  | none => s.nibble_count = 0 ∧ s.byte_val = 0
  | some h => is_hex_char h = true ∧ s.nibble_count = 1 ∧ s.byte_val = hex_char_to_val h

/-- A free byte: its value is 0x00 or 0xFF. -/
def isFreeByte (v : Nat) : Bool := decide (v = 0x00 ∨ v = 0xFF)

/-- The byte at address `a` is free. -/
def freeAt {M : Type} (host : Host M) (mem : M) (a : Nat) : Bool :=
  isFreeByte (mon_read_byte host mem a)

/-- Address `a` starts a maximal run of free bytes inside a range that starts at
`start`: its byte is free and it is the first of the range or follows a used
byte. -/
def isRunStart {M : Type} (host : Host M) (mem : M) (start a : Nat) : Bool :=
  freeAt host mem a && (decide (a = start) || !freeAt host mem (a - 1))

/-- Number of consecutive free bytes from address `a` on, up to address `last`. -/
def freeRunLen {M : Type} (host : Host M) (mem : M) (last a : Nat) : Nat :=
  ((List.range' a (last + 1 - a)).takeWhile (freeAt host mem)).length

/-- The maximal run of free bytes that starts at `a`, as (first, last) address. -/
def runFrom {M : Type} (host : Host M) (mem : M) (last a : Nat) : Nat × Nat :=
  (a, a + freeRunLen host mem last a - 1)

/-- The maximal runs of consecutive free bytes inside `[start, last]`, in ascending
address order, each as (first, last) address. -/
def maxFreeRuns {M : Type} (host : Host M) (mem : M) (start last : Nat) : List (Nat × Nat) :=
  ((List.range' start (last + 1 - start)).filter (isRunStart host mem start)).map
    (runFrom host mem last)

/-- A run of at least 16 bytes. -/
def isBigRun (r : Nat × Nat) : Bool := decide (16 ≤ r.2 - r.1 + 1)

/-- The runs the scan is to report: the first 8 of the maximal free runs of at
least 16 bytes. -/
def reportedRuns {M : Type} (host : Host M) (mem : M) (start last : Nat) : List (Nat × Nat) :=
  ((maxFreeRuns host mem start last).filter isBigRun).take 8

/-- Report line of a run: first address, last address and length. -/
def runLine (r : Nat × Nat) : List Char := mon_scan_block r.1 r.2 (r.2 - r.1 + 1)

/-- The free-block lines of the scan once the loop has ended in state `s`: those
printed in the loop and the one for the block still open at `last`. -/
def scanBlocksOut (last : Nat) (s : ScanState) : List Char :=
  if s.in_free_block ∧ (last + 65536 - s.block_start + 1) % 65536 ≥ 16 ∧ s.blocks_shown < 8 then
    s.out ++ mon_scan_block s.block_start last ((last + 65536 - s.block_start + 1) % 65536)
  else s.out

/-- The totals the scan prints after the free-block lines. -/
def scanSummary (start last : Nat) (s : ScanState) : List Char :=
  mon_newline ++ "Resultados:".toList ++ mon_newline ++
  "  Bytes $00: ".toList ++ mon_print_dec s.free_00 ++ mon_newline ++
  "  Bytes $FF: ".toList ++ mon_print_dec s.free_ff ++ mon_newline ++
  "  Bytes usados: ".toList ++ mon_print_dec s.used ++ mon_newline ++
  "  Total libre: ".toList ++ mon_print_dec ((s.free_00 + s.free_ff) % 65536) ++
  " / ".toList ++ mon_print_dec ((last + 65536 - start + 1) % 65536) ++ mon_newline

/-- The maximal free runs still to come when the scan is at address `a` with `n`
addresses left: the run of the open block, if there is one, which goes on to the
end of the free bytes from `a`, and the runs that start at `a` or later. -/
def pendingRuns {M : Type} (host : Host M) (mem : M) (start last : Nat) (blk : Option Nat)
    (a n : Nat) : List (Nat × Nat) :=
  (match blk with
   | none => []
   | some p => [(p, a + freeRunLen host mem last a - 1)]) ++
  ((List.range' a n).filter (isRunStart host mem start)).map (runFrom host mem last)

/-- Memory with free runs of 16, 14, 32 and 32 bytes in 0x0200..0x0260, separated
by single used bytes. -/
def exampleRuns : Mem := fun a =>
  if a < 0x210 then 0 else if a = 0x210 then 1 else if a < 0x21F then 0xFF
  else if a = 0x21F then 7 else if a < 0x240 then 0 else if a = 0x240 then 9 else 0

/-- Command letter of a line: its first character that is not a space, folded to
uppercase. -/
def commandLetter (cmd : List Char) : Char :=
  if 'a'.toNat ≤ (firstNonSpace cmd).toNat ∧ (firstNonSpace cmd).toNat ≤ 'z'.toNat
  then Char.ofNat ((firstNonSpace cmd).toNat - 32) else firstNonSpace cmd

/-- The 24 mnemonics of the implied instructions, in the order of the
specification. -/
def impliedMnemonics : List String :=
  ["BRK", "RTI", "RTS", "INX", "INY", "DEX", "DEY", "CLC", "SEC", "CLD", "SED", "CLI",
   "SEI", "NOP", "TAX", "TAY", "TXA", "TYA", "TXS", "TSX", "PHA", "PLA", "PHP", "PLP"]

/-- The 8 mnemonics of the branches, in the order of the specification. -/
def branchMnemonics : List String :=
  ["BNE", "BEQ", "BPL", "BMI", "BCC", "BCS", "BVC", "BVS"]

/-- The mnemonic `m` ends in the text `s`. -/
def endsIn (m s : String) : Bool := s.toList.isSuffixOf m.toList

/-- Mnemonics for which the specification states length 1. -/
def isImpliedName (m : String) : Bool := decide (m ∈ impliedMnemonics)

/-- Mnemonics for which the specification states length 2: those ending in `#` or
`zp`, and the branches. -/
def isShortOperandName (m : String) : Bool :=
  endsIn m "#" || endsIn m "zp" || decide (m ∈ branchMnemonics)

/-- Mnemonics for which the specification states length 3: `JSR`, `JMP`, `JMP()`
and those ending in `ab`. -/
def isLongOperandName (m : String) : Bool :=
  decide (m = "JSR") || decide (m = "JMP") || decide (m = "JMP()") || endsIn m "ab"

/-- Condition of the first `if` of `get_instruction_len`: the list of the
instructions of 1 byte. -/
def lenOneRule (opcode : Nat) : Bool :=
  decide (opcode = 0x00 ∨ opcode = 0x40 ∨ opcode = 0x60 ∨
     opcode = 0xE8 ∨ opcode = 0xC8 ∨ opcode = 0xCA ∨
     opcode = 0x88 ∨ opcode = 0x18 ∨ opcode = 0x38 ∨
     opcode = 0xD8 ∨ opcode = 0xF8 ∨ opcode = 0x58 ∨
     opcode = 0x78 ∨ opcode = 0xEA ∨ opcode = 0xAA ∨
     opcode = 0xA8 ∨ opcode = 0x8A ∨ opcode = 0x98 ∨
     opcode = 0x9A ∨ opcode = 0xBA ∨ opcode = 0x48 ∨
     opcode = 0x68 ∨ opcode = 0x08 ∨ opcode = 0x28)

/-- Condition of the second `if` of `get_instruction_len`: the patterns of the
instructions of 2 bytes. -/
def lenTwoRule (opcode : Nat) : Bool :=
  decide ((opcode &&& 0x0F) = 0x09 ∨
     (opcode &&& 0x0F) = 0x05 ∨
     (opcode &&& 0x0F) = 0x06 ∨
     (opcode &&& 0x1F) = 0x10 ∨
     opcode = 0xA2 ∨ opcode = 0xA0 ∨
     opcode = 0xE0 ∨ opcode = 0xC0)

/-- Condition of the third `if` of `get_instruction_len`: the patterns of the
instructions of 3 bytes. -/
def lenThreeRule (opcode : Nat) : Bool :=
  decide (opcode = 0x20 ∨ opcode = 0x4C ∨ opcode = 0x6C ∨
     (opcode &&& 0x0F) = 0x0D ∨
     (opcode &&& 0x0F) = 0x0E)

/-- Classifier that tries the rules `(condition, length)` in the order of the
list `rules` and falls back to the default length 2 of `get_instruction_len`. -/
def classifyIn (rules : List ((Nat → Bool) × Nat)) (opcode : Nat) : Nat :=
  match rules.find? (fun r => r.1 opcode) with
  | some r => r.2
  | none => 2

/-- The six orders in which the three rules of `get_instruction_len` can be
tried. -/
def ruleOrders : List (List ((Nat → Bool) × Nat)) :=
  [[(lenOneRule, 1), (lenTwoRule, 2), (lenThreeRule, 3)],
   [(lenOneRule, 1), (lenThreeRule, 3), (lenTwoRule, 2)],
   [(lenTwoRule, 2), (lenOneRule, 1), (lenThreeRule, 3)],
   [(lenTwoRule, 2), (lenThreeRule, 3), (lenOneRule, 1)],
   [(lenThreeRule, 3), (lenOneRule, 1), (lenTwoRule, 2)],
   [(lenThreeRule, 3), (lenTwoRule, 2), (lenOneRule, 1)]]

/-- The opcode bytes that have a mnemonic of their own. -/
def namedOpcodes : List Nat :=
  (List.range 256).filter (fun b => decide (get_mnemonic b ≠ "???"))

/-- Store `bytes[j] = value` into an array whose cells are `none` until they are
written: `none` when `j` is outside the array. -/
def checked_store (bytes : List (Option Nat)) (j value : Nat) : Option (List (Option Nat)) :=
  if j < bytes.length then some (bytes.set j (some value)) else none

/-- Load `bytes[j]`: `none` when `j` is outside the array or the cell has not been
written. -/
def checked_load (bytes : List (Option Nat)) (j : Nat) : Option Nat :=
  bytes.getD j none

/-- Loop `for (j = 0; j < len; j++) bytes[j] = mon_read_byte(addr + j)` of
`mon_disassemble` with checked stores, at index `j` with `n = len - j`
iterations left. -/
def mon_disassemble_read_checked {M : Type} (host : Host M) (mem : M) (addr : Nat) :
    Nat → Nat → List (Option Nat) → Option (List (Option Nat))
  | 0, _, bytes => some bytes
  | n + 1, j, bytes =>
    match checked_store bytes j (mon_read_byte host mem (addr + j)) with
    | some bytes => mon_disassemble_read_checked host mem addr n (j + 1) bytes
    | none => none

/-- Loop `for (j = 0; j < 3; j++)` of `mon_disassemble` printing the raw bytes,
with checked loads, at index `j` with `n = 3 - j` iterations left. -/
def mon_disassemble_hex_checked (bytes : List (Option Nat)) (len : Nat) :
    Nat → Nat → Option (List Char)
  | 0, _ => some []
  | n + 1, j =>
    match (if j < len then (checked_load bytes j).map mon_print_hex8 else some "  ".toList),
        mon_disassemble_hex_checked bytes len n (j + 1) with
    | some field, some rest => some (field ++ mon_print_space ++ rest)
    | _, _ => none

/-- Body of the loop of `mon_disassemble` for the instruction at `addr`, with
checked accesses to `bytes[3]`; the three cells count as not written when the
iteration starts.  Returns the printed line and the length of the instruction,
or `none` when an access is outside the array or loads a cell that the iteration
has not written. -/
def mon_disassemble_line_checked {M : Type} (host : Host M) (mem : M) (addr : Nat) :
    Option (List Char × Nat) :=
  let opcode := mon_read_byte host mem addr
  let len := get_instruction_len opcode
  match mon_disassemble_read_checked host mem addr len 0 [none, none, none] with
  | none => none
  | some bytes =>
    match mon_disassemble_hex_checked bytes len 3 0 with
    | none => none
    | some hex =>
      let out := mon_print_hex16 addr ++ "  ".toList ++ hex ++ (get_mnemonic opcode).toList
      let out :=
        if len = 2 then
          match checked_load bytes 1 with
          | some lo => some (out ++ " $".toList ++ mon_print_hex8 lo)
          | none => none
        else if len = 3 then
          match checked_load bytes 2, checked_load bytes 1 with
          | some hi, some lo => some (out ++ " $".toList ++ mon_print_hex8 hi ++ mon_print_hex8 lo)
          | _, _ => none
        else some out
      match out with
      | some out => some (out ++ mon_newline, len)
      | none => none

/-- Loop `for (i = 0; i < lines; i++)` of `mon_disassemble` over the checked body,
with `n = lines - i` iterations left. -/
def mon_disassemble_loop_checked {M : Type} (host : Host M) (mem : M) :
    Nat → Nat → List Char → Option (Nat × List Char)
  | 0, addr, out => some (addr, out)
  | n + 1, addr, out =>
    match mon_disassemble_line_checked host mem addr with
    | some r => mon_disassemble_loop_checked host mem n ((addr + r.2) % 65536) (out ++ r.1)
    | none => none

/-- What `mon_disassemble` does when every access to `bytes[3]` is checked. -/
def mon_disassemble_checked {M : Type} (host : Host M) (st : Mon M) (addr lines : Nat) :
    Option (Mon M) :=
  match mon_disassemble_loop_checked host st.mem lines addr [] with
  | some r => some { emit st r.2 with last_addr := r.1 }
  | none => none

/-- Number `u(p)` of the indices `i` in 0..63 such that the byte at address
`256 * p + 4 * i` is neither 0x00 nor 0xFF. -/
def pageUsed {M : Type} (host : Host M) (mem : M) (p : Nat) : Nat :=
  ((List.range 64).filter (fun i =>
    decide (mon_read_byte host mem (256 * p + 4 * i) ≠ 0x00 ∧
      mon_read_byte host mem (256 * p + 4 * i) ≠ 0xFF))).length

/-- Symbol of a page with `u` sampled bytes in use. -/
def pageSymbol (u : Nat) : Char :=
  if u = 0 then '.' else if u ≥ 60 then '#' else 'X'

/-- Symbols of the `n` pages from `first` on. -/
def memmapSymbols {M : Type} (host : Host M) (mem : M) (first n : Nat) : List Char :=
  (List.range' first n).map (fun p => pageSymbol (pageUsed host mem p))

/-- Row of the map: the label of its first page, one symbol for each of its `n`
pages, CR LF. -/
def memmapRow {M : Type} (host : Host M) (mem : M) (first n : Nat) : List Char :=
  "$".toList ++ mon_print_hex8 first ++ ": ".toList ++ memmapSymbols host mem first n ++
    ['\r', '\n']

/-- Text of the map: heading, rows of 16, 16, 16 and 13 pages, footer. -/
def memmapText {M : Type} (host : Host M) (mem : M) : List Char :=
  "Mapa de RAM (. = libre, # = usada, X = mixta)\r\n".toList ++
  "Cada caracter = 256 bytes (1 pagina)\r\n\r\n".toList ++
  "     0123456789ABCDEF\r\n".toList ++
  memmapRow host mem 0x01 16 ++ memmapRow host mem 0x11 16 ++
  memmapRow host mem 0x21 16 ++ memmapRow host mem 0x31 13 ++
  "\r\nZP=$02-$FF  Stack=$3E-$3F\r\n".toList

/-- Memory equal to `exampleProgram` except for one byte at 0x4000, above the
mapped range. -/
def exampleAbove : Mem := fun a => if a = 0x4000 then 0x55 else exampleProgram a

/-- Backspace keys of the line editor: 0x08 and 0x7F. -/
def isBackspace (c : Char) : Bool := decide (c.toNat = 0x08 ∨ c.toNat = 0x7F)

/-- Printable ASCII: 0x20..0x7E. -/
def isPrintable (c : Char) : Bool := decide (0x20 ≤ c.toNat ∧ c.toNat ≤ 0x7E)

/-- Keys that end a line: Enter (CR or LF) and Escape (0x1B). -/
def isLineEnd (c : Char) : Bool := decide (c = '\r' ∨ c = '\n' ∨ c.toNat = 0x1B)

/-- Line held by an editor of capacity `N` after key `c`, when it held `line`: a
backspace removes the last character if there is one, a printable character is
appended while fewer than `N - 1` are held, any other key is ignored. -/
def lineStep (N : Nat) (line : List Char) (c : Char) : List Char :=
  if isBackspace c then line.dropLast
  else if isPrintable c ∧ line.length < N - 1 then line ++ [c]
  else line

/-- Line held after the keys `typed`, starting from the empty line. -/
def typedLine (N : Nat) (typed : List Char) : List Char := typed.foldl (lineStep N) []

/-- The C string stored in a buffer: its characters before the first NUL. -/
def cString (buf : List Char) : List Char := buf.takeWhile (fun x => decide (x ≠ '\x00'))

/-! # Theorems -/

/-! ## Hex codec -/

theorem shl4_or (x d : Nat) (h : d < 16) : (x <<< 4) ||| d = x * 16 + d := by
  have h2 := Nat.mul_add_lt_is_or (i := 4) (b := d) (by simpa using h) x
  rw [Nat.shiftLeft_eq, Nat.mul_comm x, ← h2]

theorem and_0F (x : Nat) : x &&& 0x0F = x % 16 := by
  have h := Nat.and_pow_two_sub_one_eq_mod x 4
  simpa using h

theorem and_FF (x : Nat) : x &&& 0xFF = x % 256 := by
  have h := Nat.and_pow_two_sub_one_eq_mod x 8
  simpa using h

theorem hex_char_to_val_lt (c : Char) (h : is_hex_char c = true) : hex_char_to_val c < 16 := by
  simp only [is_hex_char, Bool.or_eq_true, Bool.and_eq_true, decide_eq_true_eq] at h
  have e0 : '0'.toNat = 48 := rfl
  have e9 : '9'.toNat = 57 := rfl
  have eA : 'A'.toNat = 65 := rfl
  have eF : 'F'.toNat = 70 := rfl
  have ea : 'a'.toNat = 97 := rfl
  have ef : 'f'.toNat = 102 := rfl
  unfold hex_char_to_val
  rw [e0, e9, eA, eF, ea, ef] at h ⊢
  split_ifs <;> omega

theorem is_hex_char_mem (c : Char) (h : is_hex_char c = true) :
    c ∈ "0123456789ABCDEFabcdef".toList := by
  have hc : c = Char.ofNat c.toNat := (Char.ofNat_toNat c).symm
  simp only [is_hex_char, Bool.or_eq_true, Bool.and_eq_true, decide_eq_true_eq] at h
  have e0 : '0'.toNat = 48 := rfl
  have e9 : '9'.toNat = 57 := rfl
  have eA : 'A'.toNat = 65 := rfl
  have eF : 'F'.toNat = 70 := rfl
  have ea : 'a'.toNat = 97 := rfl
  have ef : 'f'.toNat = 102 := rfl
  rw [e0, e9, eA, eF, ea, ef] at h
  generalize c.toNat = n at h hc
  subst hc
  have : n = 48 ∨ n = 49 ∨ n = 50 ∨ n = 51 ∨ n = 52 ∨ n = 53 ∨ n = 54 ∨ n = 55 ∨ n = 56 ∨
      n = 57 ∨ n = 65 ∨ n = 66 ∨ n = 67 ∨ n = 68 ∨ n = 69 ∨ n = 70 ∨ n = 97 ∨ n = 98 ∨
      n = 99 ∨ n = 100 ∨ n = 101 ∨ n = 102 := by omega
  rcases this with h|h|h|h|h|h|h|h|h|h|h|h|h|h|h|h|h|h|h|h|h|h <;> subst h <;> decide

theorem hex_pair_upper : ∀ c1 ∈ "0123456789ABCDEFabcdef".toList,
    ∀ c2 ∈ "0123456789ABCDEFabcdef".toList,
    mon_print_hex8 (mon_hex_to_u8 [c1, c2]) = [c1.toUpper, c2.toUpper] := by decide

/-- The digit character of a nibble is a hex character of that value. -/
theorem hex_digit_spec : ∀ n, n < 16 →
    is_hex_char (hex_chars.getD n '\x00') = true ∧
    hex_char_to_val (hex_chars.getD n '\x00') = n := by decide

theorem mon_print_hex8_eq (v : Nat) :
    mon_print_hex8 v = [hex_chars.getD (v / 16 % 16) '\x00', hex_chars.getD (v % 16) '\x00'] := by
  simp only [mon_print_hex8, and_0F, Nat.shiftRight_eq_div_pow]

theorem parse_hex_digits_cons (value : Nat) (c : Char) (rest : List Char)
    (h : is_hex_char c = true) :
    parse_hex_digits value (c :: rest) =
      parse_hex_digits ((value * 16 + hex_char_to_val c) % 65536) rest := by
  simp only [parse_hex_digits, h, if_true, shl4_or _ _ (hex_char_to_val_lt c h)]

theorem parse_hex_digits_stop (value : Nat) (c : Char) (rest : List Char)
    (h : is_hex_char c = false) :
    parse_hex_digits value (c :: rest) = (value, c :: rest) := by
  simp [parse_hex_digits, h]

/-- Parsing the two digits printed for a byte shifts the byte into the value. -/
theorem parse_hex_digits_hex8 (value v : Nat) (rest : List Char) :
    parse_hex_digits value (mon_print_hex8 v ++ rest) =
      parse_hex_digits ((value * 256 + v % 256) % 65536) rest := by
  have h1 := hex_digit_spec (v / 16 % 16) (by omega)
  have h2 := hex_digit_spec (v % 16) (by omega)
  rw [mon_print_hex8_eq]
  simp only [List.cons_append, List.nil_append]
  rw [parse_hex_digits_cons _ _ _ h1.1, parse_hex_digits_cons _ _ _ h2.1, h1.2, h2.2]
  congr 1
  omega

/-- Parsing the four digits printed for an address gives the address back. -/
theorem parse_hex_digits_hex16 (a : Nat) (rest : List Char) (ha : a < 65536) :
    parse_hex_digits 0 (mon_print_hex16 a ++ rest) = parse_hex_digits a rest := by
  unfold mon_print_hex16
  rw [List.append_assoc, parse_hex_digits_hex8, parse_hex_digits_hex8, and_FF,
    Nat.shiftRight_eq_div_pow]
  congr 1
  norm_num
  omega


/-! ## Claims on the hex codec -/

set_option maxRecDepth 100000 in
/-- C6: for every byte value `v` in 0..255, the two characters `mon_print_hex8(v)`
emits, read as a string by `mon_hex_to_u8`, give back `v`. -/
theorem hex8_print_then_parse : ∀ v, v < 256 → mon_hex_to_u8 (mon_print_hex8 v) = v := by
  decide

/-- Witness of `hex8_print_then_parse` at the byte 0x7F. -/
theorem hex8_print_then_parse_witness :
    0x7F < 256 ∧ mon_hex_to_u8 (mon_print_hex8 0x7F) = 0x7F :=
  ⟨by decide, hex8_print_then_parse 0x7F (by decide)⟩

/-- C7: for every string of exactly two hex digits `c1 c2`,
`mon_print_hex8(mon_hex_to_u8(s))` emits `s` with its letters in uppercase. -/
theorem hex8_parse_then_print (c1 c2 : Char) (h1 : is_hex_char c1 = true)
    (h2 : is_hex_char c2 = true) :
    mon_print_hex8 (mon_hex_to_u8 [c1, c2]) = [c1.toUpper, c2.toUpper] :=
  hex_pair_upper c1 (is_hex_char_mem c1 h1) c2 (is_hex_char_mem c2 h2)

/-- Witness of `hex8_parse_then_print` on the string `7f`. -/
theorem hex8_parse_then_print_witness :
    is_hex_char '7' = true ∧ is_hex_char 'f' = true ∧
    mon_print_hex8 (mon_hex_to_u8 ['7', 'f']) = ['7', 'F'] :=
  ⟨by decide, by decide, hex8_parse_then_print '7' 'f' (by decide) (by decide)⟩

/-! ## Token scanner -/

theorem skip_spaces_eq (s : List Char) : skip_spaces s = afterSpaces s := by
  induction s with
  | nil => rfl
  | cons c rest ih =>
    by_cases h : c = ' '
    · simp [skip_spaces, afterSpaces, List.dropWhile, h] 
      simpa [afterSpaces] using ih
    · simp [skip_spaces, afterSpaces, List.dropWhile, h]

/-- The digit loop of `parse_hex_token` consumes the whole run of hex digits. -/
theorem parse_hex_digits_eq (t : List Char) : ∀ value,
    parse_hex_digits value t =
      ((hexRun t).foldl (fun acc c => (acc * 16 + hex_char_to_val c) % 65536) value,
       t.dropWhile is_hex_char) := by
  induction t with
  | nil => intro value; rfl
  | cons c rest ih =>
    intro value
    by_cases h : is_hex_char c = true
    · rw [parse_hex_digits_cons _ _ _ h, ih]
      simp [hexRun, List.takeWhile, List.dropWhile, h]
    · have h2 : is_hex_char c = false := by simpa using h
      rw [parse_hex_digits_stop _ _ _ h2]
      simp [hexRun, List.takeWhile, List.dropWhile, h2]

theorem foldl_mod_hex (l : List Char) : ∀ a,
    l.foldl (fun acc c => (acc * 16 + hex_char_to_val c) % 65536) (a % 65536) =
      (l.foldl (fun acc c => acc * 16 + hex_char_to_val c) a) % 65536 := by
  induction l with
  | nil => intro a; rfl
  | cons c rest ih =>
    intro a
    simp only [List.foldl_cons]
    rw [← ih]
    congr 1
    omega

/-- The indexed loop of `mon_hex_to_u16` is the digit loop on the first four
characters. -/
theorem mon_hex_to_u16_loop_eq (str : List Char) : ∀ fuel i acc, i + fuel = 4 →
    mon_hex_to_u16_loop str fuel i acc = (parse_hex_digits acc ((str.drop i).take fuel)).1 := by
  intro fuel
  induction fuel with
  | zero => intro i acc _; simp [mon_hex_to_u16_loop, parse_hex_digits]
  | succ n ih =>
    intro i acc hi
    have hi4 : i < 4 := by omega
    cases hd : str.drop i with
    | nil =>
      have hlen : str.length ≤ i := by simpa using hd
      have : strAt str i = '\x00' := by
        simp [strAt, List.getD, List.getElem?_eq_none hlen]
      simp [mon_hex_to_u16_loop, this, parse_hex_digits]
    | cons c t =>
      have hlt : i < str.length := by
        by_contra hcon
        have : str.drop i = [] := by simp; omega
        rw [this] at hd; cases hd
      have hc : strAt str i = c := by
        have hdd := List.drop_eq_getElem_cons hlt
        rw [hd] at hdd
        injection hdd with h1 h2
        simp [strAt, List.getD, List.getElem?_eq_getElem hlt, h1]
      have ht : str.drop (i + 1) = t := by
        have hdd := List.drop_eq_getElem_cons hlt
        rw [hd] at hdd
        injection hdd with h1 h2
        exact h2.symm
      rw [mon_hex_to_u16_loop, hc]
      by_cases hx : is_hex_char c = true
      · have hnul : c ≠ '\x00' := by
          intro h0; subst h0; revert hx; decide
        simp only [hi4, hnul, hx, true_and, ne_eq, not_false_eq_true, if_true, Bool.not_true,
          Bool.false_eq_true, if_false, List.take_succ_cons]
        rw [ih (i + 1) _ (by omega), ht, parse_hex_digits]
        simp [hx]
      · have hx2 : is_hex_char c = false := by simpa using hx
        simp [hx2, parse_hex_digits_stop]

theorem takeWhile_take {α : Type} (p : α → Bool) (l : List α) : ∀ n,
    (l.takeWhile p).length ≤ n → (l.take n).takeWhile p = l.takeWhile p := by
  induction l with
  | nil => intro n _; simp
  | cons a rest ih =>
    intro n hn
    by_cases h : p a = true
    · cases n with
      | zero => simp [List.takeWhile, h] at hn
      | succ m =>
        simp only [List.take_succ_cons, List.takeWhile_cons, h, if_true]
        rw [ih m]
        simpa [List.takeWhile, h] using hn
    · cases n with
      | zero => simp [List.takeWhile, h]
      | succ m => simp [List.takeWhile, h]

theorem hexValue_lt (l : List Char) (hl : ∀ c ∈ l, is_hex_char c = true) : ∀ a,
    l.foldl (fun acc c => acc * 16 + hex_char_to_val c) a < (a + 1) * 16 ^ l.length := by
  induction l with
  | nil => intro a; simp
  | cons c rest ih =>
    intro a
    have hc := hex_char_to_val_lt c (hl c (List.mem_cons_self _ _))
    have := ih (fun x hx => hl x (List.mem_cons_of_mem _ hx)) (a * 16 + hex_char_to_val c)
    simp only [List.foldl_cons, List.length_cons]
    calc _ < (a * 16 + hex_char_to_val c + 1) * 16 ^ rest.length := this
      _ ≤ ((a + 1) * 16) * 16 ^ rest.length := Nat.mul_le_mul_right _ (by omega)
      _ = (a + 1) * 16 ^ (rest.length + 1) := by ring

theorem dropWhile_eq_drop {α : Type} (p : α → Bool) (l : List α) :
    l.dropWhile p = l.drop (l.takeWhile p).length := by
  induction l with
  | nil => rfl
  | cons a rest ih =>
    by_cases h : p a = true
    · simp [List.dropWhile, List.takeWhile, h, ih]
    · simp [List.dropWhile, List.takeWhile, h]

theorem hexRun_all_hex (t : List Char) : ∀ c ∈ hexRun t, is_hex_char c = true := by
  intro c hc
  exact (List.mem_takeWhile_imp hc)

/-- C9 (amended): for every string `s`, `parse_hex_token` skips the leading spaces
of `s`, then consumes the whole run of hex digits that follows, however long,
returns the cursor immediately after the last consumed digit, and yields the
base-16 value of the consumed digits modulo 2^16; when the run has at most four
digits this is the value `mon_hex_to_u16` gives on `s` without its leading
spaces. -/
theorem parse_hex_token_spec (s : List Char) :
    parse_hex_token s =
      (hexValue (hexRun (afterSpaces s)) % 65536,
       s.drop ((s.takeWhile (fun c => c = ' ')).length + (hexRun (afterSpaces s)).length)) ∧
    ((hexRun (afterSpaces s)).length ≤ 4 →
      (parse_hex_token s).1 = mon_hex_to_u16 (afterSpaces s)) := by
  have hmain : parse_hex_token s =
      (hexValue (hexRun (afterSpaces s)) % 65536,
       s.drop ((s.takeWhile (fun c => c = ' ')).length + (hexRun (afterSpaces s)).length)) := by
    unfold parse_hex_token
    rw [skip_spaces_eq, parse_hex_digits_eq]
    have h0 := foldl_mod_hex (hexRun (afterSpaces s)) 0
    simp only [Nat.zero_mod] at h0
    rw [h0, dropWhile_eq_drop is_hex_char]
    unfold afterSpaces hexValue hexRun
    rw [dropWhile_eq_drop (fun c => decide (c = ' ')) s, List.drop_drop]
  refine ⟨hmain, ?_⟩
  intro hlen
  rw [hmain]
  unfold mon_hex_to_u16
  rw [mon_hex_to_u16_loop_eq _ 4 0 0 rfl, List.drop_zero, parse_hex_digits_eq]
  have hrun : hexRun ((afterSpaces s).take 4) = hexRun (afterSpaces s) :=
    takeWhile_take is_hex_char _ 4 hlen
  rw [hrun]
  have h0 := foldl_mod_hex (hexRun (afterSpaces s)) 0
  simp only [Nat.zero_mod] at h0
  rw [h0]
  rfl

/-- Witness of `parse_hex_token_spec`: a token of three digits after two spaces. -/
theorem parse_hex_token_spec_witness :
    (hexRun (afterSpaces "  1a2 7F".toList)).length ≤ 4 ∧
    (parse_hex_token "  1a2 7F".toList).1 = mon_hex_to_u16 (afterSpaces "  1a2 7F".toList) :=
  ⟨by decide, (parse_hex_token_spec "  1a2 7F".toList).2 (by decide)⟩

/-- C9 as stated fails: on the five digits `12345` the scanner consumes all five
and yields 0x2345, while `mon_hex_to_u16` stops after four and yields 0x1234. -/
theorem parse_hex_token_five_digits :
    parse_hex_token "12345".toList = (0x2345, []) ∧
    mon_hex_to_u16 (afterSpaces "12345".toList) = 0x1234 ∧
    (parse_hex_token "12345".toList).1 ≠ mon_hex_to_u16 (afterSpaces "12345".toList) := by
  decide

/-! ## Disassembler -/

theorem get_instruction_len_cases (b : Nat) :
    get_instruction_len b = 1 ∨ get_instruction_len b = 2 ∨ get_instruction_len b = 3 := by
  unfold get_instruction_len
  split_ifs <;> simp

theorem mon_disassemble_read_length {M : Type} (host : Host M) (mem : M) (addr : Nat) :
    ∀ n j bytes, (mon_disassemble_read host mem addr n j bytes).length = bytes.length := by
  intro n
  induction n with
  | zero => intro j bytes; rfl
  | succ n ih => intro j bytes; simp [mon_disassemble_read, ih]

theorem mon_disassemble_line_length {M : Type} (host : Host M) (mem : M) (addr : Nat)
    (bytes : List Nat) : (mon_disassemble_line host mem addr bytes).1.length = bytes.length := by
  simp [mon_disassemble_line, mon_disassemble_read_length]

/-- The body of the disassembly loop prints the line of the instruction at
`addr` and yields its length, whatever the instruction buffer held before. -/
theorem mon_disassemble_line_eq {M : Type} (host : Host M) (mem : M) (addr : Nat)
    (bytes : List Nat) (hb : bytes.length = 3) :
    (mon_disassemble_line host mem addr bytes).2 =
      (disasmLine host mem addr, get_instruction_len (mon_read_byte host mem addr)) := by
  obtain ⟨x, y, z, rfl⟩ : ∃ x y z, bytes = [x, y, z] := by
    match bytes, hb with
    | [x, y, z], _ => exact ⟨x, y, z, rfl⟩
  rcases get_instruction_len_cases (mon_read_byte host mem addr) with h | h | h
  · simp [mon_disassemble_line, disasmLine, disasmRaw, disasmOperand, h, mon_disassemble_read,
      mon_disassemble_hex, List.range, List.range.loop, mon_print_space, mon_newline]
  · simp [mon_disassemble_line, disasmLine, disasmRaw, disasmOperand, h, mon_disassemble_read,
      mon_disassemble_hex, List.range, List.range.loop, mon_print_space, mon_newline]
  · simp [mon_disassemble_line, disasmLine, disasmRaw, disasmOperand, h, mon_disassemble_read,
      mon_disassemble_hex, List.range, List.range.loop, mon_print_space, mon_newline]

theorem disasmAddr_shift {M : Type} (host : Host M) (mem : M) (a : Nat) : ∀ k,
    disasmAddr host mem a (k + 1) =
      disasmAddr host mem ((a + get_instruction_len (mon_read_byte host mem a)) % 65536) k := by
  intro k
  induction k with
  | zero => rfl
  | succ k ih =>
    rw [disasmAddr, ih]
    rfl

theorem disasmText_succ {M : Type} (host : Host M) (mem : M) (a n : Nat) :
    disasmText host mem a (n + 1) =
      disasmLine host mem a ++
        disasmText host mem ((a + get_instruction_len (mon_read_byte host mem a)) % 65536) n := by
  unfold disasmText
  rw [List.range_succ_eq_map, List.flatMap_cons, List.flatMap_map]
  congr 1
  apply List.flatMap_congr
  intro k _
  simp only [Function.comp, disasmAddr_shift]

/-- The disassembly loop prints the lines of the instructions at `a_0 .. a_(n-1)`
and ends at `a_n`. -/
theorem mon_disassemble_loop_eq {M : Type} (host : Host M) (mem : M) : ∀ n addr bytes out,
    bytes.length = 3 →
    mon_disassemble_loop host mem n addr bytes out =
      (disasmAddr host mem addr n, out ++ disasmText host mem addr n) := by
  intro n
  induction n with
  | zero => intro addr bytes out _; simp [mon_disassemble_loop, disasmAddr, disasmText]
  | succ n ih =>
    intro addr bytes out hb
    have hl := mon_disassemble_line_eq host mem addr bytes hb
    have hlen := mon_disassemble_line_length host mem addr bytes
    rw [mon_disassemble_loop]
    rw [ih _ _ _ (by rw [hlen, hb])]
    have h1 : (mon_disassemble_line host mem addr bytes).2.1 = disasmLine host mem addr := by
      rw [hl]
    have h2 : (mon_disassemble_line host mem addr bytes).2.2 =
        get_instruction_len (mon_read_byte host mem addr) := by rw [hl]
    rw [h1, h2, disasmAddr_shift, disasmText_succ, List.append_assoc]

/-- Text printed by `mon_disassemble`, after what was printed before. -/
theorem mon_disassemble_out {M : Type} (host : Host M) (st : Mon M) (a n : Nat) :
    (mon_disassemble host st a n).out = st.out ++ disasmText host st.mem a n := by
  unfold mon_disassemble
  simp only [mon_disassemble_loop_eq host st.mem n a [0, 0, 0] [] rfl, emit, List.nil_append]

/-- C1: for every memory content, start address `a` and line count `n`, the text
`mon_disassemble` prints is the sequence of lines for the addresses `a_0 .. a_(n-1)`
with `a_0 = a` and `a_(k+1) = a_k + get_instruction_len(mem[a_k])` modulo 2^16, each
line showing address, raw bytes, `get_mnemonic(mem[a_k])` and then no operand
(length 1), ` $XX` (length 2) or ` $HHLL` (length 3); Last Address ends equal to
`a_n`, and memory is left as it was. -/
theorem mon_disassemble_spec {M : Type} (host : Host M) (st : Mon M) (a n : Nat) :
    (mon_disassemble host st a n).out = st.out ++ disasmText host st.mem a n ∧
    (mon_disassemble host st a n).last_addr = disasmAddr host st.mem a n ∧
    (mon_disassemble host st a n).mem = st.mem := by
  unfold mon_disassemble
  simp only [mon_disassemble_loop_eq host st.mem n a [0, 0, 0] [] rfl, emit, List.nil_append,
    and_self]

/-- Witness of `mon_disassemble_spec`: the bytes `EA A9 05 4C 00 80` at 0x0200 with
three lines give `NOP`, `LDA# $05`, `JMP $8000` and Last Address 0x0206. -/
theorem mon_disassemble_spec_witness :
    (mon_disassemble ram (boot 64 exampleProgram []) 0x200 3).out =
      ("0200  EA       NOP\r\n" ++ "0201  A9 05    LDA# $05\r\n" ++
       "0203  4C 00 80 JMP $8000\r\n").toList ∧
    (mon_disassemble ram (boot 64 exampleProgram []) 0x200 3).last_addr = 0x206 :=
  ⟨(mon_disassemble_spec ram (boot 64 exampleProgram []) 0x200 3).1.trans (by decide),
   (mon_disassemble_spec ram (boot 64 exampleProgram []) 0x200 3).2.1.trans (by decide)⟩

/-! ## Command dispatcher -/

theorem process_cmd_M {M : Type} (host : Host M) (st : Mon M) (ptr : List Char) :
    monitor_process_cmd host st ('M' :: ptr) =
      some (mon_disassemble host st
        (if (parse_hex_token ptr).1 = 0 then st.last_addr else (parse_hex_token ptr).1)
        ((if (parse_hex_token (parse_hex_token ptr).2).1 = 0 then 16
          else (parse_hex_token (parse_hex_token ptr).2).1) % 256), MonResult.MON_OK) := rfl

theorem process_cmd_W {M : Type} (host : Host M) (st : Mon M) (ptr : List Char) :
    monitor_process_cmd host st ('W' :: ptr) =
      some ({ emit st (['$'] ++ mon_print_hex16 (parse_hex_token ptr).1 ++ " <- $".toList ++
                mon_print_hex8 ((parse_hex_token (parse_hex_token ptr).2).1 % 256) ++
                mon_newline) with
              mem := mon_write_byte host st.mem (parse_hex_token ptr).1
                ((parse_hex_token (parse_hex_token ptr).2).1 % 256)
              last_addr := ((parse_hex_token ptr).1 + 1) % 65536 }, MonResult.MON_OK) := rfl

theorem process_cmd_R {M : Type} (host : Host M) (st : Mon M) (ptr : List Char) :
    monitor_process_cmd host st ('R' :: ptr) =
      some ({ emit st (['$'] ++
                mon_print_hex16 (if (parse_hex_token ptr).1 = 0 ∧ (parse_hex_token ptr).2 = ptr
                  then st.last_addr else (parse_hex_token ptr).1) ++ " = $".toList ++
                mon_print_hex8 (mon_read_byte host st.mem
                  (if (parse_hex_token ptr).1 = 0 ∧ (parse_hex_token ptr).2 = ptr
                   then st.last_addr else (parse_hex_token ptr).1)) ++ mon_newline) with
              last_addr := ((if (parse_hex_token ptr).1 = 0 ∧ (parse_hex_token ptr).2 = ptr
                  then st.last_addr else (parse_hex_token ptr).1) + 1) % 65536 },
            MonResult.MON_OK) := rfl

theorem process_cmd_D {M : Type} (host : Host M) (st : Mon M) (ptr : List Char) :
    monitor_process_cmd host st ('D' :: ptr) =
      (mon_dump host st (parse_hex_token ptr).1
        (if (parse_hex_token (parse_hex_token ptr).2).1 = 0 then 64
         else (parse_hex_token (parse_hex_token ptr).2).1)).map
        (fun st1 => (st1, MonResult.MON_OK)) := rfl
theorem hex_pair_value : ∀ c1 ∈ "0123456789ABCDEFabcdef".toList,
    ∀ c2 ∈ "0123456789ABCDEFabcdef".toList,
    mon_print_hex8 (hex_char_to_val c1 * 16 + hex_char_to_val c2) = [c1.toUpper, c2.toUpper] := by
  decide

theorem skip_spaces_hex (c : Char) (rest : List Char) (h : is_hex_char c = true) :
    skip_spaces (c :: rest) = c :: rest := by
  have hne : c ≠ ' ' := by
    intro h0; subst h0; revert h; decide
  simp [skip_spaces, hne]

/-- A token of four hex digits after one space parses to its base-16 value. -/
theorem parse_hex_token_four (c1 c2 c3 c4 : Char) (rest : List Char)
    (h1 : is_hex_char c1 = true) (h2 : is_hex_char c2 = true) (h3 : is_hex_char c3 = true)
    (h4 : is_hex_char c4 = true) (hrest : ∀ x, parse_hex_digits x rest = (x, rest)) :
    parse_hex_token (' ' :: c1 :: c2 :: c3 :: c4 :: rest) =
      ((hex_char_to_val c1 * 16 + hex_char_to_val c2) * 256 +
        (hex_char_to_val c3 * 16 + hex_char_to_val c4), rest) := by
  have l1 := hex_char_to_val_lt c1 h1
  have l2 := hex_char_to_val_lt c2 h2
  have l3 := hex_char_to_val_lt c3 h3
  have l4 := hex_char_to_val_lt c4 h4
  have hs : skip_spaces (' ' :: c1 :: c2 :: c3 :: c4 :: rest) = c1 :: c2 :: c3 :: c4 :: rest := by
    rw [skip_spaces, if_pos rfl, skip_spaces_hex c1 _ h1]
  unfold parse_hex_token
  rw [hs, parse_hex_digits_cons _ _ _ h1, parse_hex_digits_cons _ _ _ h2,
    parse_hex_digits_cons _ _ _ h3, parse_hex_digits_cons _ _ _ h4, hrest]
  congr 1
  omega

/-- A token of two hex digits after one space parses to its base-16 value. -/
theorem parse_hex_token_two (d1 d2 : Char) (rest : List Char)
    (h1 : is_hex_char d1 = true) (h2 : is_hex_char d2 = true)
    (hrest : ∀ x, parse_hex_digits x rest = (x, rest)) :
    parse_hex_token (' ' :: d1 :: d2 :: rest) =
      (hex_char_to_val d1 * 16 + hex_char_to_val d2, rest) := by
  have l1 := hex_char_to_val_lt d1 h1
  have l2 := hex_char_to_val_lt d2 h2
  have hs : skip_spaces (' ' :: d1 :: d2 :: rest) = d1 :: d2 :: rest := by
    rw [skip_spaces, if_pos rfl, skip_spaces_hex d1 _ h1]
  unfold parse_hex_token
  rw [hs, parse_hex_digits_cons _ _ _ h1, parse_hex_digits_cons _ _ _ h2, hrest]
  congr 1
  omega

theorem mon_print_hex16_pairs (hi lo : Nat) (hhi : hi < 256) (hlo : lo < 256) :
    mon_print_hex16 (hi * 256 + lo) = mon_print_hex8 hi ++ mon_print_hex8 lo := by
  unfold mon_print_hex16
  rw [and_FF, Nat.shiftRight_eq_div_pow]
  have e1 : (hi * 256 + lo) / 2 ^ 8 % 256 = hi := by norm_num; omega
  have e2 : (hi * 256 + lo) % 256 % 256 = lo := by omega
  rw [e1, e2]

/-- C4: on a memory that stores writes, dispatching `W AAAA VV` (four and two hex
digits) and then `R AAAA` makes the R command print exactly `$AAAA = $VV` and
CR LF, with the digits in uppercase; after the W command the address of value
`AAAA` reads as the byte of value `VV`. -/
theorem write_then_read {M : Type} (host : Host M)
    (hstore : ∀ m a v, a < 65536 → v < 256 → host.read (host.write m a v) a = v)
    (st : Mon M) (c1 c2 c3 c4 d1 d2 : Char)
    (h1 : is_hex_char c1 = true) (h2 : is_hex_char c2 = true) (h3 : is_hex_char c3 = true)
    (h4 : is_hex_char c4 = true) (g1 : is_hex_char d1 = true) (g2 : is_hex_char d2 = true) :
    ∃ st1 st2,
      monitor_process_cmd host st ['W', ' ', c1, c2, c3, c4, ' ', d1, d2] =
        some (st1, MonResult.MON_OK) ∧
      monitor_process_cmd host st1 ['R', ' ', c1, c2, c3, c4] = some (st2, MonResult.MON_OK) ∧
      st2.out = st1.out ++
        ['$', c1.toUpper, c2.toUpper, c3.toUpper, c4.toUpper, ' ', '=', ' ', '$',
         d1.toUpper, d2.toUpper, '\r', '\n'] ∧
      mon_read_byte host st1.mem (hexValue [c1, c2, c3, c4]) = hexValue [d1, d2] := by
  have l1 := hex_char_to_val_lt c1 h1
  have l2 := hex_char_to_val_lt c2 h2
  have l3 := hex_char_to_val_lt c3 h3
  have l4 := hex_char_to_val_lt c4 h4
  have k1 := hex_char_to_val_lt d1 g1
  have k2 := hex_char_to_val_lt d2 g2
  have hsp : ∀ x (t : List Char), parse_hex_digits x (' ' :: t) = (x, ' ' :: t) :=
    fun x t => parse_hex_digits_stop x ' ' t (by decide)
  have hnil : ∀ x, parse_hex_digits x [] = (x, []) := fun x => rfl
  have pa := parse_hex_token_four c1 c2 c3 c4 [' ', d1, d2] h1 h2 h3 h4 (fun x => hsp x _)
  have pv := parse_hex_token_two d1 d2 [] g1 g2 hnil
  have pr := parse_hex_token_four c1 c2 c3 c4 [] h1 h2 h3 h4 hnil
  have hval4 : hexValue [c1, c2, c3, c4] =
      (hex_char_to_val c1 * 16 + hex_char_to_val c2) * 256 +
        (hex_char_to_val c3 * 16 + hex_char_to_val c4) := by
    simp only [hexValue, List.foldl_cons, List.foldl_nil]
    omega
  have hval2 : hexValue [d1, d2] = hex_char_to_val d1 * 16 + hex_char_to_val d2 := by
    simp only [hexValue, List.foldl_cons, List.foldl_nil]
    omega
  refine ⟨_, _, process_cmd_W host st _, process_cmd_R host _ _, ?_, ?_⟩
  rotate_left
  · simp only [pa, pv, hval4, hval2]
    unfold mon_read_byte mon_write_byte
    rw [hstore _ _ _ (Nat.mod_lt _ (by norm_num)) (Nat.mod_lt _ (by norm_num))]
    omega
  simp only [pa, pv, pr, emit]
  have hcond : ¬ ((hex_char_to_val c1 * 16 + hex_char_to_val c2) * 256 +
      (hex_char_to_val c3 * 16 + hex_char_to_val c4) = 0 ∧
      ([] : List Char) = [' ', c1, c2, c3, c4]) := by simp
  rw [if_neg hcond]
  have hread : mon_read_byte host
      (mon_write_byte host st.mem
        ((hex_char_to_val c1 * 16 + hex_char_to_val c2) * 256 +
          (hex_char_to_val c3 * 16 + hex_char_to_val c4))
        ((hex_char_to_val d1 * 16 + hex_char_to_val d2) % 256))
      ((hex_char_to_val c1 * 16 + hex_char_to_val c2) * 256 +
          (hex_char_to_val c3 * 16 + hex_char_to_val c4)) =
      hex_char_to_val d1 * 16 + hex_char_to_val d2 := by
    unfold mon_read_byte mon_write_byte
    rw [hstore _ _ _ (Nat.mod_lt _ (by norm_num)) (Nat.mod_lt _ (by norm_num))]
    omega
  rw [hread, mon_print_hex16_pairs _ _ (by omega) (by omega),
    hex_pair_value c1 (is_hex_char_mem c1 h1) c2 (is_hex_char_mem c2 h2),
    hex_pair_value c3 (is_hex_char_mem c3 h3) c4 (is_hex_char_mem c4 h4),
    hex_pair_value d1 (is_hex_char_mem d1 g1) d2 (is_hex_char_mem d2 g2)]
  simp [mon_newline]

/-- Witness of `write_then_read`: `W 0300 7F` then `R 0300` prints `$0300 = $7F`. -/
theorem write_then_read_witness :
    ∃ st1 st2,
      monitor_process_cmd ram (boot 64 (fun _ => 0) []) "W 0300 7F".toList =
        some (st1, MonResult.MON_OK) ∧
      monitor_process_cmd ram st1 "R 0300".toList = some (st2, MonResult.MON_OK) ∧
      st2.out = st1.out ++ "$0300 = $7F\r\n".toList ∧
      mon_read_byte ram st1.mem 0x0300 = 0x7F :=
  write_then_read ram (fun m a v _ _ => by simp [ram]) (boot 64 (fun _ => 0) [])
    '0' '3' '0' '0' '7' 'F' (by decide) (by decide) (by decide) (by decide) (by decide)
    (by decide)
theorem lineCount_append (x y : List Char) : lineCount (x ++ y) = lineCount x + lineCount y := by
  simp [lineCount, List.count_append]

theorem lineCount_cons (c : Char) (x : List Char) :
    lineCount (c :: x) = lineCount x + (if c = '\n' then 1 else 0) := by
  simp [lineCount, List.count_cons]

theorem lineCount_hex8 (v : Nat) : lineCount (mon_print_hex8 v) = 0 := by
  have h : ∀ n, n < 16 → hex_chars.getD n '\x00' ≠ '\n' := by decide
  have h1 := h (v / 16 % 16) (by omega)
  have h2 := h (v % 16) (by omega)
  rw [mon_print_hex8_eq, lineCount_cons, lineCount_cons, if_neg h1, if_neg h2]
  rfl

theorem lineCount_hex16 (v : Nat) : lineCount (mon_print_hex16 v) = 0 := by
  simp [mon_print_hex16, lineCount_append, lineCount_hex8]

theorem lineCount_mnemonic (b : Nat) : lineCount (get_mnemonic b).toList = 0 := by
  unfold get_mnemonic
  split <;> decide

theorem lineCount_disasmLine {M : Type} (host : Host M) (mem : M) (a : Nat) :
    lineCount (disasmLine host mem a) = 1 := by
  have hnil : lineCount [] = 0 := rfl
  have hraw : lineCount (disasmRaw host mem a) = 0 := by
    simp only [disasmRaw, List.range, List.range.loop, List.flatMap_cons, List.flatMap_nil,
      lineCount_append, List.append_nil]
    split_ifs <;> simp [lineCount_append, lineCount_hex8, lineCount_cons, hnil]
  have hop : lineCount (disasmOperand host mem a) = 0 := by
    unfold disasmOperand
    split_ifs <;> simp [lineCount_append, lineCount_hex8, lineCount_cons, hnil]
  simp only [disasmLine, lineCount_append, lineCount_hex16, hraw, lineCount_mnemonic, hop,
    lineCount_cons, hnil]
  decide

/-- A disassembly of `n` instructions prints exactly `n` lines. -/
theorem lineCount_disasmText {M : Type} (host : Host M) (mem : M) : ∀ n a,
    lineCount (disasmText host mem a n) = n := by
  intro n
  induction n with
  | zero => intro a; simp [disasmText, lineCount]
  | succ n ih =>
    intro a
    rw [disasmText_succ, lineCount_append, lineCount_disasmLine, ih]
    omega

/-- C8: for every session state, with Last Address X, the bare line `M` gives the
output and the final Last Address of disassembling 16 instructions from X, and
its first line is for address X; in particular after `M 0200 4`, which leaves the
state of disassembling 4 instructions from 0x0200, the next `M` starts at the
Last Address that command left. -/
theorem bare_M_continues {M : Type} (host : Host M) (st : Mon M) :
    monitor_process_cmd host st ['M'] =
      some (mon_disassemble host st st.last_addr 16, MonResult.MON_OK) ∧
    (∃ rest, (mon_disassemble host st st.last_addr 16).out =
      st.out ++ (mon_print_hex16 st.last_addr ++ rest)) ∧
    (monitor_process_cmd host st "M 0200 4".toList).bind
        (fun r => monitor_process_cmd host r.1 ['M']) =
      some (mon_disassemble host (mon_disassemble host st 0x0200 4)
        (mon_disassemble host st 0x0200 4).last_addr 16, MonResult.MON_OK) := by
  refine ⟨rfl, ?_, rfl⟩
  rw [mon_disassemble_out host st st.last_addr 16]
  unfold disasmText
  rw [List.range_succ_eq_map, List.flatMap_cons]
  simp only [disasmAddr, disasmLine, List.append_assoc]
  exact ⟨_, rfl⟩

/-- C10 (amended): dispatching `M addr c`, with `c` the value of the count token,
disassembles exactly `c mod 256` instructions when `c` is not zero (so exactly `c`
for `c` in 1..0xFF), and exactly 16 when the count is zero or omitted; that many
lines are printed. -/
theorem M_count {M : Type} (host : Host M) (st : Mon M) (ptr : List Char) :
    ∃ text,
      monitor_process_cmd host st ('M' :: ptr) =
        some (mon_disassemble host st
          (if (parse_hex_token ptr).1 = 0 then st.last_addr else (parse_hex_token ptr).1)
          (if (parse_hex_token (parse_hex_token ptr).2).1 = 0 then 16
           else (parse_hex_token (parse_hex_token ptr).2).1 % 256), MonResult.MON_OK) ∧
      (monitor_process_cmd host st ('M' :: ptr)).map (fun r => r.1.out) =
        some (st.out ++ text) ∧
      lineCount text =
        (if (parse_hex_token (parse_hex_token ptr).2).1 = 0 then 16
         else (parse_hex_token (parse_hex_token ptr).2).1 % 256) := by
  have hn : ((if (parse_hex_token (parse_hex_token ptr).2).1 = 0 then 16
        else (parse_hex_token (parse_hex_token ptr).2).1) % 256) =
      (if (parse_hex_token (parse_hex_token ptr).2).1 = 0 then 16
        else (parse_hex_token (parse_hex_token ptr).2).1 % 256) := by
    split_ifs <;> rfl
  refine ⟨disasmText host st.mem
      (if (parse_hex_token ptr).1 = 0 then st.last_addr else (parse_hex_token ptr).1)
      (if (parse_hex_token (parse_hex_token ptr).2).1 = 0 then 16
       else (parse_hex_token (parse_hex_token ptr).2).1 % 256), ?_, ?_,
    lineCount_disasmText host st.mem _ _⟩
  · rw [process_cmd_M, hn]
  · rw [process_cmd_M, hn, Option.map_some', mon_disassemble_out host st _ _]

/-- C10 as stated fails: the count token `100` has value 256, yet `M 0200 100`
prints no line at all. -/
theorem M_count_256 :
    (parse_hex_token (parse_hex_token " 0200 100".toList).2).1 = 256 ∧
    (monitor_process_cmd ram (boot 64 (fun _ => 0) []) "M 0200 100".toList).map
      (fun r => lineCount r.1.out) = some 0 := by
  decide

/-! ## Decimal printing -/

theorem dec_digit_char : ∀ d, d < 10 → Char.ofNat ('0'.toNat + d) = Nat.digitChar d := by
  decide

theorem mon_print_dec_digits_eq : ∀ n, 0 < n → ∀ f1 f2 buf, n ≤ f1 → n < f2 →
    (mon_print_dec_digits f1 n buf).reverse = Nat.toDigitsCore 10 f2 n buf.reverse := by
  intro n
  induction n using Nat.strong_induction_on with
  | _ n ih =>
    intro hn f1 f2 buf h1 h2
    obtain ⟨g1, rfl⟩ : ∃ g, f1 = g + 1 := ⟨f1 - 1, by omega⟩
    obtain ⟨g2, rfl⟩ : ∃ g, f2 = g + 1 := ⟨f2 - 1, by omega⟩
    rw [mon_print_dec_digits, if_pos hn, Nat.toDigitsCore, dec_digit_char _ (Nat.mod_lt _ (by norm_num))]
    by_cases h0 : n / 10 = 0
    · simp only [h0, if_true]
      cases g1 with
      | zero => simp [mon_print_dec_digits]
      | succ g => simp [mon_print_dec_digits]
    · simp only [h0, if_false]
      rw [ih (n / 10) (by omega) (by omega) g1 g2 _ (by omega) (by omega)]
      simp

/-- The RAM reports print their numbers in decimal. -/
theorem mon_print_dec_eq (n : Nat) : mon_print_dec n = (Nat.repr n).toList := by
  unfold mon_print_dec
  by_cases h : n = 0
  · subst h; rfl
  · rw [if_neg h, mon_print_dec_digits_eq n (by omega) n (n + 1) [] (le_refl _) (by omega)]
    rfl

/-! ## Free-space scan -/

/-- The scan loop visits the addresses `addr .. last` in order, once each, and
returns: it is the fold of the loop body over that range. -/
theorem mon_scan_loop_eq {M : Type} (host : Host M) (mem : M) (last : Nat) (hlast : last < 65536) :
    ∀ n fuel addr s, last + 1 - addr = n → addr ≤ last + 1 → addr < 65536 → n < fuel →
    mon_scan_loop host mem last fuel addr s =
      some ((List.range' addr n).foldl
        (fun t a => mon_scan_step (mon_read_byte host mem a) a t) s) := by
  intro n
  induction n with
  | zero =>
    intro fuel addr s hn hle _ hf
    obtain ⟨f, rfl⟩ : ∃ f, fuel = f + 1 := ⟨fuel - 1, by omega⟩
    have hgt : ¬ addr ≤ last := by omega
    simp [mon_scan_loop, hgt]
  | succ n ih =>
    intro fuel addr s hn hle ha hf
    obtain ⟨f, rfl⟩ : ∃ f, fuel = f + 1 := ⟨fuel - 1, by omega⟩
    have hin : addr ≤ last := by omega
    rw [mon_scan_loop, if_pos hin]
    by_cases hff : addr = 0xFFFF
    · have hn0 : n = 0 := by omega
      subst hn0
      simp [hff]
    · have hmod : (addr + 1) % 65536 = addr + 1 := Nat.mod_eq_of_lt (by omega)
      simp only [hff, if_false, hmod]
      rw [ih f (addr + 1) _ (by omega) (by omega) (by omega) (by omega)]
      simp [List.range']

theorem mon_scan_step_zero (addr : Nat) (s : ScanState) :
    mon_scan_step 0 addr s =
      { s with
        free_00 := (s.free_00 + 1) % 65536
        in_free_block := true
        block_start := if !s.in_free_block then addr else s.block_start } := by
  simp [mon_scan_step]

/-- Inside a free block, `n` further zero bytes only add `n` to the zero count. -/
theorem scan_fold_zero {M : Type} (host : Host M) (mem : M) :
    ∀ n addr (s : ScanState), s.in_free_block = true → s.free_00 < 65536 →
    (∀ a, addr ≤ a → a < addr + n → mon_read_byte host mem a = 0) →
    (List.range' addr n).foldl (fun t a => mon_scan_step (mon_read_byte host mem a) a t) s =
      { s with free_00 := (s.free_00 + n) % 65536 } := by
  intro n
  induction n with
  | zero =>
    intro addr s _ hf _
    obtain ⟨f0, ff, u, bs, ifb, shown, out⟩ := s
    simp only at hf
    simp [List.range', Nat.mod_eq_of_lt hf]
  | succ n ih =>
    intro addr s hs hf hz
    have h0 := hz addr (le_refl _) (by omega)
    obtain ⟨f0, ff, u, bs, ifb, shown, out⟩ := s
    simp only at hs hf
    subst hs
    simp only [List.range', List.foldl_cons, h0, mon_scan_step_zero, Bool.not_true,
      Bool.false_eq_true, if_false]
    rw [ih (addr + 1) ⟨(f0 + 1) % 65536, ff, u, bs, true, shown, out⟩ rfl
      (Nat.mod_lt _ (by norm_num)) (fun a h1 h2 => hz a (by omega) (by omega))]
    simp only [ScanState.mk.injEq, and_true]
    omega

/-- C2: for every range `[start, last]` with `start <= last`, at least 16 and at
most 65535 bytes, all reading 0x00, `mon_scan` returns and reports exactly one
free run, from `start` to `last` with length `last - start + 1`; the counts it
prints are `last - start + 1` zero bytes, 0 bytes 0xFF and 0 used bytes, and
these are the values of its counters when the loop ends. -/
theorem mon_scan_all_zero {M : Type} (host : Host M) (mem : M) (start last : Nat)
    (hlast : last < 65536) (hle : start ≤ last) (h16 : 16 ≤ last - start + 1)
    (hmax : last - start + 1 ≤ 65535)
    (hzero : ∀ a, start ≤ a → a ≤ last → mon_read_byte host mem a = 0) :
    (∃ s, mon_scan_loop host mem last 65536 start (mon_scan_init start last) = some s ∧
      s.free_00 = last - start + 1 ∧ s.free_ff = 0 ∧ s.used = 0 ∧ s.blocks_shown = 0) ∧
    mon_scan host mem start last = some (
      "Escaneando $".toList ++ mon_print_hex16 start ++ "-$".toList ++ mon_print_hex16 last ++
      "...\r\n".toList ++
      "  Libre: $".toList ++ mon_print_hex16 start ++ "-$".toList ++ mon_print_hex16 last ++
      " (".toList ++ mon_print_dec (last - start + 1) ++ " bytes)\r\n".toList ++
      "\r\nResultados:\r\n".toList ++
      "  Bytes $00: ".toList ++ mon_print_dec (last - start + 1) ++ "\r\n".toList ++
      "  Bytes $FF: ".toList ++ mon_print_dec 0 ++ "\r\n".toList ++
      "  Bytes usados: ".toList ++ mon_print_dec 0 ++ "\r\n".toList ++
      "  Total libre: ".toList ++ mon_print_dec (last - start + 1) ++ " / ".toList ++
      mon_print_dec (last - start + 1) ++ "\r\n".toList) := by
  have hloop := mon_scan_loop_eq host mem last hlast (last + 1 - start) 65536 start
    (mon_scan_init start last) rfl (by omega) (by omega) (by omega)
  obtain ⟨n, hn⟩ : ∃ n, last + 1 - start = n + 1 := ⟨last - start, by omega⟩
  have h0 := hzero start (le_refl _) hle
  have hfold := scan_fold_zero host mem n (start + 1)
    (mon_scan_step 0 start (mon_scan_init start last)) (by simp [mon_scan_step_zero])
    (by simp [mon_scan_step_zero, mon_scan_init])
    (fun a h1 h2 => hzero a (by omega) (by omega))
  rw [hn, List.range', List.foldl_cons, h0, hfold] at hloop
  have e1 : (0 + 1) % 65536 = 1 := rfl
  have e2 : (1 + n) % 65536 = last - start + 1 := by
    rw [Nat.mod_eq_of_lt (by omega)]; omega
  have e3 : (last + 65536 - start + 1) % 65536 = last - start + 1 := by omega
  have e4 : (last - start + 1 + 0) % 65536 = last - start + 1 := by omega
  refine ⟨⟨_, hloop, ?_⟩, ?_⟩
  · simp only [mon_scan_step_zero, mon_scan_init, e1, e2, and_self]
  · unfold mon_scan
    rw [hloop]
    simp only [mon_scan_report, mon_scan_step_zero, mon_scan_init, e1, e2, e3, e4,
      Bool.not_false, if_true, true_and]
    have hc : (last - start + 1 ≥ 16 ∧ 0 < 8) := ⟨h16, by norm_num⟩
    rw [if_pos hc]
    simp [mon_scan_block, mon_newline, List.append_assoc]

/-- Witness of `mon_scan_all_zero`: the range 0x0200..0x020F of a memory of
zeros, 16 bytes. -/
theorem mon_scan_all_zero_witness :
    (∃ s, mon_scan_loop ram (fun _ => 0) 0x020F 65536 0x0200 (mon_scan_init 0x0200 0x020F) =
        some s ∧
      s.free_00 = 16 ∧ s.free_ff = 0 ∧ s.used = 0 ∧ s.blocks_shown = 0) ∧
    mon_scan ram (fun _ => 0) 0x0200 0x020F = some (
      "Escaneando $0200-$020F...\r\n".toList ++
      "  Libre: $0200-$020F (16 bytes)\r\n".toList ++
      "\r\nResultados:\r\n".toList ++
      "  Bytes $00: 16\r\n".toList ++
      "  Bytes $FF: 0\r\n".toList ++
      "  Bytes usados: 0\r\n".toList ++
      "  Total libre: 16 / 16\r\n".toList) :=
  mon_scan_all_zero ram (fun _ => 0) 0x0200 0x020F (by decide) (by decide) (by decide)
    (by decide) (fun _ _ _ => rfl)

/-! ## RAM test -/

theorem stuck_read (s : Nat) (m : Mem) (a : Nat) :
    mon_read_byte (stuck s) m a = (if a % 65536 = s then 0 else m (a % 65536)) % 256 := rfl

theorem stuck_write (s : Nat) (m : Mem) (a v : Nat) :
    mon_write_byte (stuck s) m a v =
      if a % 65536 = s then m else fun x => if x = a % 65536 then v % 256 else m x := rfl

/-- Step of the RAM test on the stuck address: one more error, memory untouched. -/
theorem test_step_at_stuck (s : Nat) (start i : Nat) (t : TestState Mem)
    (hs : (start + i) % 65536 = s) :
    mon_test_ram_step (stuck s) start i t =
      { mem := t.mem, errors := (t.errors + 1) % 65536, ok := t.ok,
        out := if (t.errors + 1) % 65536 ≤ 5
          then t.out ++ mon_test_mismatch s 0x55 0 else t.out } := by
  subst hs
  simp only [mon_test_ram_step, stuck_read, stuck_write, Nat.mod_mod, if_true, Nat.zero_mod]
  simp

/-- Step of the RAM test on any other address: one more good byte, and the cell
holds its former byte again. -/
theorem test_step_elsewhere (s : Nat) (start i : Nat) (t : TestState Mem)
    (hs : (start + i) % 65536 ≠ s) :
    mon_test_ram_step (stuck s) start i t =
      { mem := fun x => if x = (start + i) % 65536 then t.mem ((start + i) % 65536) % 256
                        else t.mem x,
        errors := t.errors, ok := (t.ok + 1) % 65536, out := t.out } := by
  simp only [mon_test_ram_step, stuck_read, stuck_write, Nat.mod_mod]
  generalize (start + i) % 65536 = a at hs
  simp only [if_neg hs, if_true]
  simp only [Nat.reduceMod, ne_eq, not_true_eq_false, if_false, TestState.mk.injEq, and_true]
  funext x
  split_ifs <;> rfl

theorem test_step_inv (m : Mem) (s start len i0 i : Nat) (hdr : List Char) (t : TestState Mem)
    (hlen : len < 65536) (hi0 : i0 < len) (hs : (start + i0) % 65536 = s) (hi : i < len)
    (hinv : TestInv m s i0 i hdr t) :
    TestInv m s i0 (i + 1) hdr (mon_test_ram_step (stuck s) start i t) := by
  obtain ⟨hm, he, hok, hout⟩ := hinv
  by_cases hii : i = i0
  · subst hii
    rw [test_step_at_stuck s start i t hs]
    simp only [lt_irrefl, if_false] at he hok hout
    refine ⟨hm, ?_, ?_, ?_⟩
    · simp [he]
    · simp [hok]
    · simp [he, hout]
  · have hne : (start + i) % 65536 ≠ s := by
      rw [← hs]
      omega
    rw [test_step_elsewhere s start i t hne]
    refine ⟨?_, ?_, ?_, ?_⟩
    · intro x
      simp only
      by_cases hx : x = (start + i) % 65536
      · rw [if_pos hx]
        rcases hm x with h | h
        · right; rw [← hx, h]
        · right; rw [← hx, h, Nat.mod_mod]
      · rw [if_neg hx]; exact hm x
    · simp only [he]
      by_cases h1 : i0 < i
      · simp [h1, Nat.lt_succ_of_lt h1]
      · have : ¬ i0 < i + 1 := by omega
        simp [h1, this]
    · simp only [hok]
      by_cases h1 : i0 < i
      · have h2 : i0 < i + 1 := by omega
        simp only [h1, h2, if_true]
        omega
      · have h2 : ¬ i0 < i + 1 := by omega
        simp only [h1, h2, if_false]
        omega
    · simp only [hout]
      by_cases h1 : i0 < i
      · simp [h1, Nat.lt_succ_of_lt h1]
      · have : ¬ i0 < i + 1 := by omega
        simp [h1, this]

theorem test_loop_inv (m : Mem) (s start len i0 : Nat) (hdr : List Char)
    (hlen : len < 65536) (hi0 : i0 < len) (hs : (start + i0) % 65536 = s) :
    ∀ n i t, i + n = len → TestInv m s i0 i hdr t →
    TestInv m s i0 len hdr (mon_test_ram_loop (stuck s) start n i t) := by
  intro n
  induction n with
  | zero =>
    intro i t hi hinv
    have : i = len := by omega
    subst this
    exact hinv
  | succ n ih =>
    intro i t hi hinv
    rw [mon_test_ram_loop]
    exact ih (i + 1) _ (by omega)
      (test_step_inv m s start len i0 i hdr t hlen hi0 hs (by omega) hinv)

/-- C3: for every `start`, `len` and address `s` inside `[start, start+len)`, on a
memory where `s` is stuck at 0x00 and every other address stores what is written,
`mon_test_ram` counts exactly one error, prints a single mismatch line, which
names `s` with written value 0x55 and read value 0x00, reports `FAIL: 1/len`, and
leaves every address with the byte it held before the test. -/
theorem mon_test_ram_stuck (m : Mem) (s start len i0 : Nat)
    (hlen : len < 65536) (hi0 : i0 < len) (hs : (start + i0) % 65536 = s) :
    (mon_test_ram_run (stuck s) m start len).errors = 1 ∧
    (mon_test_ram_run (stuck s) m start len).ok = len - 1 ∧
    (mon_test_ram (stuck s) m start len).2 =
      "Test RAM $".toList ++ mon_print_hex16 start ++ "-$".toList ++
      mon_print_hex16 ((start + len + 65535) % 65536) ++ "\r\n".toList ++
      "  $".toList ++ mon_print_hex16 s ++ " W:".toList ++ mon_print_hex8 0x55 ++
      " R:".toList ++ mon_print_hex8 0x00 ++ "\r\n".toList ++
      "\r\n".toList ++ "FAIL: ".toList ++ mon_print_dec 1 ++ "/".toList ++ mon_print_dec len ++
      "\r\n".toList ∧
    (∀ a, mon_read_byte (stuck s) (mon_test_ram (stuck s) m start len).1 a =
      mon_read_byte (stuck s) m a) ∧
    (∀ a, a ≠ s → m a < 256 → (mon_test_ram (stuck s) m start len).1 a = m a) := by
  have hinv := test_loop_inv m s start len i0
    ("Test RAM $".toList ++ mon_print_hex16 start ++ "-$".toList ++
      mon_print_hex16 ((start + len + 65535) % 65536) ++ mon_newline)
    hlen hi0 hs len 0
    { mem := m, errors := 0, ok := 0,
      out := "Test RAM $".toList ++ mon_print_hex16 start ++ "-$".toList ++
        mon_print_hex16 ((start + len + 65535) % 65536) ++ mon_newline }
    (by omega) ⟨fun x => Or.inl rfl, by simp, by simp, by simp⟩
  obtain ⟨hm, he, hok, hout⟩ := hinv
  simp only [hi0, if_true] at he hok hout
  have hrun : mon_test_ram_run (stuck s) m start len =
      mon_test_ram_loop (stuck s) start len 0
        { mem := m, errors := 0, ok := 0,
          out := "Test RAM $".toList ++ mon_print_hex16 start ++ "-$".toList ++
            mon_print_hex16 ((start + len + 65535) % 65536) ++ mon_newline } := rfl
  refine ⟨by rw [hrun, he], by rw [hrun, hok], ?_, ?_, ?_⟩
  · simp only [mon_test_ram, hrun, he, hout]
    simp [mon_test_mismatch, mon_newline, List.append_assoc]
  · intro a
    simp only [mon_test_ram, hrun, stuck_read]
    by_cases ha : a % 65536 = s
    · simp [ha]
    · simp only [ha, if_false]
      rcases hm (a % 65536) with h | h
      · rw [h]
      · rw [h, Nat.mod_mod]
  · intro a _ hlt
    simp only [mon_test_ram, hrun]
    rcases hm a with h | h
    · exact h
    · rw [h, Nat.mod_eq_of_lt hlt]

/-- Witness of `mon_test_ram_stuck`: four bytes from 0x02FE with 0x0300 stuck. -/
theorem mon_test_ram_stuck_witness :
    (mon_test_ram_run (stuck 0x0300) exampleProgram 0x02FE 4).errors = 1 ∧
    (mon_test_ram_run (stuck 0x0300) exampleProgram 0x02FE 4).ok = 3 ∧
    (mon_test_ram (stuck 0x0300) exampleProgram 0x02FE 4).2 =
      ("Test RAM $02FE-$0301\r\n" ++ "  $0300 W:55 R:00\r\n" ++ "\r\n" ++
       "FAIL: 1/4\r\n").toList ∧
    (∀ a, mon_read_byte (stuck 0x0300) (mon_test_ram (stuck 0x0300) exampleProgram 0x02FE 4).1 a =
      mon_read_byte (stuck 0x0300) exampleProgram a) ∧
    (∀ a, a ≠ 0x0300 → exampleProgram a < 256 →
      (mon_test_ram (stuck 0x0300) exampleProgram 0x02FE 4).1 a = exampleProgram a) :=
  mon_test_ram_stuck exampleProgram 0x0300 0x02FE 4 2 (by decide) (by decide) (by decide)

/-! ## Memory dump -/

theorem mon_read_byte_congr {M : Type} (host : Host M) (mem : M) (x y : Nat)
    (h : x % 65536 = y % 65536) : mon_read_byte host mem x = mon_read_byte host mem y := by
  unfold mon_read_byte
  rw [h]

/-- Cells written by the hex loop of a dump row from index `j` for `d` bytes. -/
theorem dump_fill_getD {M : Type} (host : Host M) (mem : M) (row_addr : Nat) :
    ∀ d j (data : List Nat) t, j + d ≤ data.length → t < j + d →
    ((List.range' j d).foldl
      (fun dt u => dt.set u (mon_read_byte host mem (row_addr + u))) data).getD t 0 =
      if j ≤ t then mon_read_byte host mem (row_addr + t) else data.getD t 0 := by
  intro d
  induction d with
  | zero =>
    intro j data t _ ht
    have : ¬ j ≤ t := by omega
    simp [List.range', this]
  | succ d ih =>
    intro j data t hlen ht
    simp only [List.range', List.foldl_cons]
    rw [ih (j + 1) _ t (by simp; omega) (by omega)]
    by_cases h1 : j + 1 ≤ t
    · have h2 : j ≤ t := by omega
      simp [h1, h2]
    · by_cases h2 : j = t
      · subst h2
        have hj : j < data.length := by omega
        simp [List.getD, List.getElem?_set, hj]
      · have h3 : ¬ j ≤ t := by omega
        simp [h1, h3, List.getD, List.getElem?_set, h2]

theorem dump_fill_length {M : Type} (host : Host M) (mem : M) (row_addr : Nat) :
    ∀ d j (data : List Nat),
    ((List.range' j d).foldl
      (fun dt u => dt.set u (mon_read_byte host mem (row_addr + u))) data).length =
      data.length := by
  intro d
  induction d with
  | zero => intro j data; rfl
  | succ d ih => intro j data; simp [List.range', ih]

/-- The hex loop of a dump row runs over the bytes `j .. c - 1` of the row, where
`c` is the number of bytes of the row. -/
theorem mon_dump_hex_loop_eq {M : Type} (host : Host M) (mem : M) (row_addr i len c : Nat)
    (hc : c = min 16 (len - i)) (hi : i + 16 ≤ 65536) :
    ∀ d j fuel data out, c - j = d → j ≤ c → j + fuel = 16 →
    mon_dump_hex_loop host mem row_addr i len fuel j data out =
      (c,
       (List.range' j d).foldl
         (fun dt u => dt.set u (mon_read_byte host mem (row_addr + u))) data,
       out ++ (List.range' j d).flatMap
         (fun u => mon_print_hex8 (mon_read_byte host mem (row_addr + u)) ++ [' '])) := by
  intro d
  induction d with
  | zero =>
    intro j fuel data out hd hj hf
    have hjc : j = c := by omega
    cases fuel with
    | zero => simp [mon_dump_hex_loop, List.range', hjc]
    | succ f =>
      have hcond : ¬ (j < 16 ∧ (i + j) % 65536 < len) := by
        rw [Nat.mod_eq_of_lt (by omega)]
        omega
      rw [mon_dump_hex_loop, if_neg hcond]
      simp [List.range', hjc]
  | succ d ih =>
    intro j fuel data out hd hj hf
    have hj16 : j < 16 := by omega
    obtain ⟨f, rfl⟩ : ∃ f, fuel = f + 1 := ⟨fuel - 1, by omega⟩
    have hcond : j < 16 ∧ (i + j) % 65536 < len := by
      rw [Nat.mod_eq_of_lt (by omega)]
      omega
    rw [mon_dump_hex_loop, if_pos hcond]
    simp only []
    rw [ih (j + 1) f _ _ (by omega) (by omega) (by omega)]
    simp [List.range', mon_print_space, List.append_assoc]

theorem mon_dump_pad_loop_eq : ∀ d j fuel out, 16 - j = d → 16 ≤ j + fuel →
    mon_dump_pad_loop fuel j out = out ++ (List.replicate d "   ".toList).flatten := by
  intro d
  induction d with
  | zero =>
    intro j fuel out hd hf
    cases fuel with
    | zero => simp [mon_dump_pad_loop]
    | succ f =>
      have : ¬ j < 16 := by omega
      simp [mon_dump_pad_loop, this]
  | succ d ih =>
    intro j fuel out hd hf
    obtain ⟨f, rfl⟩ : ∃ f, fuel = f + 1 := ⟨fuel - 1, by omega⟩
    have hj : j < 16 := by omega
    rw [mon_dump_pad_loop, if_pos hj, ih (j + 1) f _ (by omega) (by omega)]
    simp [List.replicate, List.append_assoc]

theorem gutterChar_eq (b : Nat) :
    (if b ≥ 0x20 ∧ b < 0x7F then Char.ofNat b else '.') = gutterChar b := by
  unfold gutterChar
  by_cases h : b ≥ 0x20 ∧ b < 0x7F
  · have h2 : 0x20 ≤ b ∧ b ≤ 0x7E := by omega
    rw [if_pos h, if_pos h2]
  · have h2 : ¬ (0x20 ≤ b ∧ b ≤ 0x7E) := by omega
    rw [if_neg h, if_neg h2]

theorem mon_dump_ascii_loop_eq (data : List Nat) (i len c : Nat)
    (hc : c = min 16 (len - i)) (hi : i + 16 ≤ 65536) :
    ∀ d j fuel out, c - j = d → j ≤ c → j + fuel = 16 →
    mon_dump_ascii_loop data i len fuel j out =
      out ++ (List.range' j d).map (fun u => gutterChar (data.getD u 0)) := by
  intro d
  induction d with
  | zero =>
    intro j fuel out hd hj hf
    cases fuel with
    | zero => simp [mon_dump_ascii_loop, List.range']
    | succ f =>
      have hcond : ¬ (j < 16 ∧ (i + j) % 65536 < len) := by
        rw [Nat.mod_eq_of_lt (by omega)]
        omega
      rw [mon_dump_ascii_loop, if_neg hcond]
      simp [List.range']
  | succ d ih =>
    intro j fuel out hd hj hf
    obtain ⟨f, rfl⟩ : ∃ f, fuel = f + 1 := ⟨fuel - 1, by omega⟩
    have hcond : j < 16 ∧ (i + j) % 65536 < len := by
      rw [Nat.mod_eq_of_lt (by omega)]
      omega
    rw [mon_dump_ascii_loop, if_pos hcond, gutterChar_eq,
      ih (j + 1) f _ (by omega) (by omega) (by omega)]
    simp [List.range', List.append_assoc]

/-- The body of the dump loop for `i = 16k` prints row `k`. -/
theorem mon_dump_row_eq {M : Type} (host : Host M) (mem : M) (addr len k : Nat)
    (data : List Nat) (hdata : data.length = 16) (hk : 16 * k < len) (hlen : len ≤ 0xFFF0) :
    (mon_dump_row host mem addr len (16 * k) data).1.length = 16 ∧
    (mon_dump_row host mem addr len (16 * k) data).2 = dumpRow host mem addr len k := by
  have hc : dumpRowBytes len k = min 16 (len - 16 * k) := rfl
  have hi : 16 * k + 16 ≤ 65536 := by omega
  have hhex := mon_dump_hex_loop_eq host mem ((addr + 16 * k) % 65536) (16 * k) len
    (dumpRowBytes len k) hc hi (dumpRowBytes len k) 0 16 data
    (mon_print_hex16 ((addr + 16 * k) % 65536) ++ ": ".toList) (by omega) (by omega) (by omega)
  have hcle : dumpRowBytes len k ≤ 16 := by rw [hc]; omega
  unfold mon_dump_row
  simp only []
  rw [hhex]
  simp only []
  rw [mon_dump_pad_loop_eq (16 - dumpRowBytes len k) (dumpRowBytes len k) 16 _ rfl (by omega)]
  rw [mon_dump_ascii_loop_eq _ (16 * k) len (dumpRowBytes len k) hc hi (dumpRowBytes len k) 0 16 _
    (by omega) (by omega) (by omega)]
  refine ⟨by rw [dump_fill_length, hdata], ?_⟩
  have hmap : (List.range' 0 (dumpRowBytes len k)).map
      (fun u => gutterChar (((List.range' 0 (dumpRowBytes len k)).foldl
        (fun dt u => dt.set u (mon_read_byte host mem ((addr + 16 * k) % 65536 + u))) data).getD
          u 0)) =
      (List.range' 0 (dumpRowBytes len k)).map
        (fun j => gutterChar (mon_read_byte host mem (addr + 16 * k + j))) := by
    apply List.map_congr_left
    intro u hu
    have hu2 : u < dumpRowBytes len k := by
      have := List.mem_range'_1.mp hu
      omega
    rw [dump_fill_getD host mem _ (dumpRowBytes len k) 0 data u (by omega) (by omega)]
    simp only [Nat.zero_le, if_true]
    rw [mon_read_byte_congr host mem _ (addr + 16 * k + u) (by omega)]
  have hflat : (List.range' 0 (dumpRowBytes len k)).flatMap
      (fun u => mon_print_hex8 (mon_read_byte host mem ((addr + 16 * k) % 65536 + u)) ++ [' ']) =
      (List.range' 0 (dumpRowBytes len k)).flatMap
        (fun j => mon_print_hex8 (mon_read_byte host mem (addr + 16 * k + j)) ++ [' ']) := by
    apply List.flatMap_congr
    intro u _
    rw [mon_read_byte_congr host mem _ (addr + 16 * k + u) (by omega)]
  rw [hmap, hflat]
  unfold dumpRow
  rw [List.range_eq_range']
  simp [mon_newline, List.append_assoc]

/-- The dump loop at `i = 16k` prints the rows `k .. k + n - 1` and returns when
`n` rows are left. -/
theorem mon_dump_loop_eq {M : Type} (host : Host M) (mem : M) (addr len : Nat)
    (hlen : len ≤ 0xFFF0) :
    ∀ n k fuel data out, k + n = (len + 15) / 16 → n < fuel → data.length = 16 →
    mon_dump_loop host mem addr len fuel (16 * k) data out =
      some (out ++ (List.range' k n).flatMap (fun r => dumpRow host mem addr len r)) := by
  intro n
  induction n with
  | zero =>
    intro k fuel data out hk hf _
    obtain ⟨f, rfl⟩ : ∃ f, fuel = f + 1 := ⟨fuel - 1, by omega⟩
    have hcond : ¬ 16 * k < len := by omega
    rw [mon_dump_loop, if_neg hcond]
    simp [List.range']
  | succ n ih =>
    intro k fuel data out hk hf hdata
    obtain ⟨f, rfl⟩ : ∃ f, fuel = f + 1 := ⟨fuel - 1, by omega⟩
    have hcond : 16 * k < len := by omega
    have hrow := mon_dump_row_eq host mem addr len k data hdata hcond hlen
    have hnext : (16 * k + 16) % 65536 = 16 * (k + 1) := by omega
    rw [mon_dump_loop, if_pos hcond]
    simp only []
    rw [hnext, ih (k + 1) f _ _ (by omega) (by omega) hrow.1, hrow.2]
    simp [List.range', List.append_assoc]

theorem lineCount_flatMap_zero {α : Type} (f : α → List Char) (l : List α)
    (h : ∀ x ∈ l, lineCount (f x) = 0) : lineCount (l.flatMap f) = 0 := by
  induction l with
  | nil => rfl
  | cons x rest ih =>
    rw [List.flatMap_cons, lineCount_append, h x (List.mem_cons_self _ _),
      ih (fun y hy => h y (List.mem_cons_of_mem _ hy))]

theorem lineCount_flatMap_one {α : Type} (f : α → List Char) (l : List α)
    (h : ∀ x ∈ l, lineCount (f x) = 1) : lineCount (l.flatMap f) = l.length := by
  induction l with
  | nil => rfl
  | cons x rest ih =>
    rw [List.flatMap_cons, lineCount_append, h x (List.mem_cons_self _ _),
      ih (fun y hy => h y (List.mem_cons_of_mem _ hy)), List.length_cons]
    omega

theorem lineCount_map_zero {α : Type} (f : α → Char) (l : List α)
    (h : ∀ x ∈ l, f x ≠ '\n') : lineCount (l.map f) = 0 := by
  induction l with
  | nil => rfl
  | cons x rest ih =>
    rw [List.map_cons, lineCount_cons, if_neg (h x (List.mem_cons_self _ _)),
      ih (fun y hy => h y (List.mem_cons_of_mem _ hy))]

theorem lineCount_pad : ∀ n, lineCount (List.replicate n "   ".toList).flatten = 0 := by
  intro n
  induction n with
  | zero => rfl
  | succ n ih =>
    rw [List.replicate_succ, List.flatten_cons, lineCount_append, ih]
    decide

theorem gutterChar_ne_newline (b : Nat) : gutterChar b ≠ '\n' := by
  have h : ∀ n, n < 127 → gutterChar n ≠ '\n' := by decide
  by_cases hb : b < 127
  · exact h b hb
  · have : ¬ (0x20 ≤ b ∧ b ≤ 0x7E) := by omega
    simp only [gutterChar, this, if_false]
    decide

theorem lineCount_dumpRow {M : Type} (host : Host M) (mem : M) (a len k : Nat) :
    lineCount (dumpRow host mem a len k) = 1 := by
  have hfields : lineCount ((List.range (dumpRowBytes len k)).flatMap
      (fun j => mon_print_hex8 (mon_read_byte host mem (a + 16 * k + j)) ++ [' '])) = 0 :=
    lineCount_flatMap_zero _ _ (fun j _ => by
      rw [lineCount_append, lineCount_hex8]; decide)
  have hgut : lineCount ((List.range (dumpRowBytes len k)).map
      (fun j => gutterChar (mon_read_byte host mem (a + 16 * k + j)))) = 0 :=
    lineCount_map_zero _ _ (fun j _ => gutterChar_ne_newline _)
  have h1 : lineCount ": ".toList = 0 := by decide
  have h2 : lineCount ['|'] = 0 := by decide
  have h3 : lineCount ['|', '\r', '\n'] = 1 := by decide
  simp only [dumpRow, lineCount_append, lineCount_hex16, hfields, hgut, lineCount_pad, h1, h2, h3]

/-- C5: for every address `a` and every length `len` up to 0xFFF0, `mon_dump(a, len)`
returns after printing exactly `ceil(len / 16)` rows, row `k` being the address
`a + 16k` modulo 2^16, `: `, the 16 hex fields (three spaces for a missing byte),
and the gutter between bars with a dot for every byte outside 0x20..0x7E; Last
Address becomes `a + len` modulo 2^16. -/
theorem mon_dump_spec {M : Type} (host : Host M) (st : Mon M) (a len : Nat)
    (hlen : len ≤ 0xFFF0) :
    mon_dump host st a len =
      some { st with out := st.out ++ dumpText host st.mem a len,
                     last_addr := (a + len) % 65536 } ∧
    lineCount (dumpText host st.mem a len) = (len + 15) / 16 := by
  constructor
  · have h := mon_dump_loop_eq host st.mem a len hlen ((len + 15) / 16) 0 4097
      (List.replicate 16 0) [] (by omega) (by omega) (by simp)
    unfold mon_dump
    rw [Nat.mul_zero] at h
    rw [h]
    simp [emit, dumpText, List.range_eq_range']
  · unfold dumpText
    rw [lineCount_flatMap_one _ _ (fun k _ => lineCount_dumpRow host st.mem a len k),
      List.length_range]

/-- Witness of `mon_dump_spec`: `D 8000 20` dumps 32 bytes from 0x8000 in 2 rows. -/
theorem mon_dump_spec_witness :
    monitor_process_cmd ram (boot 64 exampleProgram []) "D 8000 20".toList =
      some ({ boot 64 exampleProgram [] with
                out := dumpText ram exampleProgram 0x8000 0x20,
                last_addr := 0x8020 }, MonResult.MON_OK) ∧
    lineCount (dumpText ram exampleProgram 0x8000 0x20) = 2 := by
  have h := mon_dump_spec ram (boot 64 exampleProgram []) 0x8000 0x20 (by decide)
  have hd : monitor_process_cmd ram (boot 64 exampleProgram []) "D 8000 20".toList =
      (mon_dump ram (boot 64 exampleProgram []) 0x8000 0x20).map
        (fun st1 => (st1, MonResult.MON_OK)) :=
    (process_cmd_D ram (boot 64 exampleProgram []) " 8000 20".toList).trans rfl
  refine ⟨?_, h.2⟩
  rw [hd, h.1]
  rfl

/-! ## Opcode table -/

set_option maxRecDepth 100000 in
/-- C13 (amended): every opcode byte has a mnemonic, a named one or the placeholder
`???`; for every opcode byte `b` whose mnemonic is `???`, `get_instruction_len(b)`
is 3 when the low nibble of `b` is 0xD or 0xE and 2 otherwise. -/
theorem unknown_opcode_len : ∀ b, b < 256 → get_mnemonic b = "???" →
    get_instruction_len b = (if b &&& 0x0F = 0x0D ∨ b &&& 0x0F = 0x0E then 3 else 2) := by
  decide

/-- Witness of `unknown_opcode_len`: opcode 0x02 is unknown and has length 2. -/
theorem unknown_opcode_len_witness :
    0x02 < 256 ∧ get_mnemonic 0x02 = "???" ∧ get_instruction_len 0x02 = 2 :=
  ⟨by decide, by decide, unknown_opcode_len 0x02 (by decide) (by decide)⟩

/-- C13 as stated fails: opcode 0x0D has the placeholder mnemonic and length 3. -/
theorem unknown_opcode_0D : get_mnemonic 0x0D = "???" ∧ get_instruction_len 0x0D = 3 := by
  decide
/-! ## Value of the fixed-width parsers -/

theorem take_takeWhile_length {α : Type} (p : α → Bool) (l : List α) :
    l.take (l.takeWhile p).length = l.takeWhile p := by
  induction l with
  | nil => rfl
  | cons a rest ih =>
    by_cases h : p a = true
    · simp [List.takeWhile, h, ih]
    · simp [List.takeWhile, h]

theorem takeWhile_take_comm {α : Type} (p : α → Bool) (l : List α) : ∀ n,
    (l.take n).takeWhile p = (l.takeWhile p).take n := by
  induction l with
  | nil => intro n; simp
  | cons a rest ih =>
    intro n
    cases n with
    | zero => simp
    | succ m =>
      by_cases h : p a = true
      · simp [List.takeWhile, h, ih m]
      · simp [List.takeWhile, h]

theorem foldl_mod_hex8 (l : List Char) : ∀ a,
    l.foldl (fun acc c => (acc * 16 + hex_char_to_val c) % 256) (a % 256) =
      (l.foldl (fun acc c => acc * 16 + hex_char_to_val c) a) % 256 := by
  induction l with
  | nil => intro a; rfl
  | cons c rest ih =>
    intro a
    simp only [List.foldl_cons]
    rw [← ih]
    congr 1
    omega

/-- The indexed loop of `mon_hex_to_u8` folds the hex digits among the characters
it may read. -/
theorem mon_hex_to_u8_loop_eq (str : List Char) : ∀ fuel i acc, i + fuel = 2 →
    mon_hex_to_u8_loop str fuel i acc =
      (hexRun ((str.drop i).take fuel)).foldl
        (fun acc c => (acc * 16 + hex_char_to_val c) % 256) acc := by
  intro fuel
  induction fuel with
  | zero => intro i acc _; simp [mon_hex_to_u8_loop, hexRun]
  | succ n ih =>
    intro i acc hi
    have hi2 : i < 2 := by omega
    cases hd : str.drop i with
    | nil =>
      have hlen : str.length ≤ i := by simpa using hd
      have : strAt str i = '\x00' := by
        simp [strAt, List.getD, List.getElem?_eq_none hlen]
      simp [mon_hex_to_u8_loop, this, hexRun]
    | cons c t =>
      have hlt : i < str.length := by
        by_contra hcon
        have : str.drop i = [] := by simp; omega
        rw [this] at hd; cases hd
      have hdd := List.drop_eq_getElem_cons hlt
      rw [hd] at hdd
      injection hdd with e1 e2
      have hc : strAt str i = c := by
        simp [strAt, List.getD, List.getElem?_eq_getElem hlt, e1]
      rw [mon_hex_to_u8_loop, hc]
      by_cases hx : is_hex_char c = true
      · have hnul : c ≠ '\x00' := by
          intro h0; subst h0; revert hx; decide
        simp only [hi2, hnul, hx, true_and, ne_eq, not_false_eq_true, if_true, Bool.not_true,
          Bool.false_eq_true, if_false, List.take_succ_cons]
        rw [ih (i + 1) _ (by omega), ← e2, shl4_or _ _ (hex_char_to_val_lt c hx)]
        simp [hexRun, List.takeWhile, hx]
      · have hx2 : is_hex_char c = false := by simpa using hx
        simp [hx2, hexRun, List.takeWhile]

theorem hexRun_take_all_hex (s : List Char) (n : Nat) :
    ∀ c ∈ (hexRun s).take n, is_hex_char c = true :=
  fun c hc => hexRun_all_hex s c (List.mem_of_mem_take hc)

/-- C15: for every string `s`, with `k` the length of its longest prefix of hex
digits, `mon_hex_to_u16(s)` is the base-16 value of the first `min(4, k)`
characters of `s` and `mon_hex_to_u8(s)` that of the first `min(2, k)`; nothing
after the cap or after the first character that is not a hex digit enters the
result. -/
theorem mon_hex_to_value (s : List Char) :
    mon_hex_to_u16 s = hexValue (s.take (min 4 (hexRun s).length)) ∧
    mon_hex_to_u8 s = hexValue (s.take (min 2 (hexRun s).length)) := by
  have hpre : ∀ n, s.take (min n (hexRun s).length) = (hexRun s).take n := by
    intro n
    have h := take_takeWhile_length is_hex_char s
    unfold hexRun
    rw [← List.take_take, h]
  constructor
  · rw [hpre 4]
    unfold mon_hex_to_u16
    rw [mon_hex_to_u16_loop_eq _ 4 0 0 rfl, List.drop_zero, parse_hex_digits_eq]
    have hrun : hexRun (s.take 4) = (hexRun s).take 4 := takeWhile_take_comm is_hex_char s 4
    have h0 := foldl_mod_hex ((hexRun s).take 4) 0
    simp only [Nat.zero_mod] at h0
    rw [hrun, h0]
    have hlt := hexValue_lt _ (hexRun_take_all_hex s 4) 0
    have hlen : ((hexRun s).take 4).length ≤ 4 := by simp
    have hpow : 16 ^ ((hexRun s).take 4).length ≤ 16 ^ 4 :=
      Nat.pow_le_pow_right (by norm_num) hlen
    unfold hexValue
    exact Nat.mod_eq_of_lt (by omega)
  · rw [hpre 2]
    unfold mon_hex_to_u8
    rw [mon_hex_to_u8_loop_eq _ 2 0 0 rfl, List.drop_zero]
    have hrun : hexRun (s.take 2) = (hexRun s).take 2 := takeWhile_take_comm is_hex_char s 2
    have h0 := foldl_mod_hex8 ((hexRun s).take 2) 0
    simp only [Nat.zero_mod] at h0
    rw [hrun, h0]
    have hlt := hexValue_lt _ (hexRun_take_all_hex s 2) 0
    have hlen : ((hexRun s).take 2).length ≤ 2 := by simp
    have hpow : 16 ^ ((hexRun s).take 2).length ≤ 16 ^ 2 :=
      Nat.pow_le_pow_right (by norm_num) hlen
    unfold hexValue
    exact Nat.mod_eq_of_lt (by omega)

/-! ## Session exit -/

/-- The `switch` returns `MON_EXIT` for the command `Q` and for no other. -/
theorem monitor_switch_exit {M : Type} (host : Host M) (st st1 : Mon M) (command : Char)
    (ptr : List Char) (res : MonResult)
    (h : monitor_switch host st command ptr = some (st1, res)) :
    res = MonResult.MON_EXIT ↔ command = 'Q' := by
  unfold monitor_switch at h
  split at h <;> first
    | (cases h; simp_all)
    | (rw [Option.map_eq_some'] at h; obtain ⟨a, _, h2⟩ := h; cases h2; simp)

/-- Folding a lowercase command letter to uppercase gives `Q` exactly for `Q` and
`q`. -/
theorem command_fold_Q (c : Char) :
    (if 'a'.toNat ≤ c.toNat ∧ c.toNat ≤ 'z'.toNat then Char.ofNat (c.toNat - 32) else c) = 'Q' ↔
      (c = 'Q' ∨ c = 'q') := by
  have hc : c = Char.ofNat c.toNat := (Char.ofNat_toNat c).symm
  have ea : 'a'.toNat = 97 := rfl
  have ez : 'z'.toNat = 122 := rfl
  rw [ea, ez]
  by_cases hl : 97 ≤ c.toNat ∧ c.toNat ≤ 122
  · rw [if_pos hl]
    have hne : c ≠ 'Q' := by
      intro h0; rw [h0] at hl; revert hl; decide
    generalize c.toNat = n at hl hc
    subst hc
    obtain ⟨h1, h2⟩ := hl
    interval_cases n <;> decide
  · rw [if_neg hl]
    have hne : c ≠ 'q' := by
      intro h0; rw [h0] at hl; revert hl; decide
    simp [hne]

/-- The dispatcher returns `MON_EXIT` exactly for the lines whose first character
that is not a space is `Q` or `q`. -/
theorem process_cmd_exit {M : Type} (host : Host M) (st st1 : Mon M) (cmd : List Char)
    (res : MonResult) (h : monitor_process_cmd host st cmd = some (st1, res)) :
    res = MonResult.MON_EXIT ↔ (firstNonSpace cmd = 'Q' ∨ firstNonSpace cmd = 'q') := by
  unfold monitor_process_cmd at h
  unfold firstNonSpace
  rw [skip_spaces_eq] at h
  cases hs : afterSpaces cmd with
  | nil =>
    rw [hs] at h
    cases h
    simp
  | cons c ptr =>
    rw [hs] at h
    simp only [List.headD_cons]
    by_cases h0 : c = '\x00'
    · simp only [h0, if_true] at h
      cases h
      subst h0
      simp
    · simp only [h0, if_false] at h
      rw [monitor_switch_exit host st st1 _ ptr res h, command_fold_Q]

/-- Whenever the loop of `monitor_run` is left, the line read last is a Q line
and the dispatcher returned `MON_EXIT` on it. -/
theorem run_loop_exit {M : Type} (host : Host M) (size : Nat) :
    ∀ (fuel : Nat) (st st2 : Mon M),
    monitor_run_loop host size fuel st = some st2 →
    ∃ st1 : Mon M,
      (firstNonSpace st1.input_buffer = 'Q' ∨ firstNonSpace st1.input_buffer = 'q') ∧
      monitor_process_cmd host st1 st1.input_buffer = some (st2, MonResult.MON_EXIT) := by
  intro fuel
  induction fuel with
  | zero => intro st st2 h; simp [monitor_run_loop] at h
  | succ n ih =>
    intro st st2 h
    rw [monitor_run_loop] at h
    cases hr : mon_read_line size (emit st mon_prompt) with
    | none => simp [hr] at h
    | some st1 =>
      simp only [hr] at h
      cases hp : monitor_process_cmd host st1 st1.input_buffer with
      | none => simp [hp] at h
      | some r =>
        obtain ⟨st3, res⟩ := r
        simp only [hp] at h
        by_cases he : res = MonResult.MON_EXIT
        · subst he
          simp only [if_true, Option.some.injEq] at h
          subst h
          exact ⟨st1, (process_cmd_exit host st1 st3 _ _ hp).mp rfl, hp⟩
        · simp only [he, if_false] at h
          exact ih st3 st2 h

/-- C17: for every command line whose handler returns, `monitor_process_cmd`
returns `MON_EXIT` if and only if the first character of the line that is not a
space is `Q` or `q`, and `MON_OK` for every other line; whenever `monitor_run`
leaves its loop, the line it read last is such a Q line. -/
theorem Q_is_the_only_exit {M : Type} (host : Host M) :
    (∀ (st st1 : Mon M) (cmd : List Char) (res : MonResult),
      monitor_process_cmd host st cmd = some (st1, res) →
      ((res = MonResult.MON_EXIT ↔ (firstNonSpace cmd = 'Q' ∨ firstNonSpace cmd = 'q')) ∧
       (res ≠ MonResult.MON_EXIT → res = MonResult.MON_OK))) ∧
    (∀ (size fuel : Nat) (st st2 : Mon M),
      monitor_run host size fuel st = some st2 →
      ∃ st1 : Mon M,
        (firstNonSpace st1.input_buffer = 'Q' ∨ firstNonSpace st1.input_buffer = 'q') ∧
        monitor_process_cmd host st1 st1.input_buffer = some (st2, MonResult.MON_EXIT)) := by
  constructor
  · intro st st1 cmd res h
    refine ⟨process_cmd_exit host st st1 cmd res h, ?_⟩
    intro hne
    cases res with
    | MON_OK => rfl
    | MON_EXIT => exact absurd rfl hne
  · intro size fuel st st2 h
    exact run_loop_exit host size fuel _ st2 h

/-- Witness of `Q_is_the_only_exit`: the line ` q` ends the session, and a session
fed `H`, Enter, `q`, Enter leaves the loop on the line `q`. -/
theorem Q_is_the_only_exit_witness :
    (monitor_process_cmd ram (boot 8 (fun _ => 0) []) " q".toList =
        some (emit (boot 8 (fun _ => 0) []) "Saliendo del monitor...\r\n".toList,
              MonResult.MON_EXIT) ∧
      (MonResult.MON_EXIT = MonResult.MON_EXIT ↔
        (firstNonSpace " q".toList = 'Q' ∨ firstNonSpace " q".toList = 'q'))) ∧
    ((monitor_run ram 8 5 (boot 8 (fun _ => 0) "H\rq\r".toList)).isSome = true ∧
      ∃ st1 : Mon Mem,
        (firstNonSpace st1.input_buffer = 'Q' ∨ firstNonSpace st1.input_buffer = 'q') ∧
        (monitor_process_cmd ram st1 st1.input_buffer).map (fun r => r.2) =
          some MonResult.MON_EXIT) := by
  have hq : monitor_process_cmd ram (boot 8 (fun _ => 0) []) " q".toList =
      some (emit (boot 8 (fun _ => 0) []) "Saliendo del monitor...\r\n".toList,
            MonResult.MON_EXIT) := rfl
  refine ⟨⟨hq, ((Q_is_the_only_exit ram).1 _ _ _ _ hq).1⟩, ?_⟩
  have hsome : (monitor_run ram 8 5 (boot 8 (fun _ => 0) "H\rq\r".toList)).isSome = true := by
    rfl
  refine ⟨hsome, ?_⟩
  obtain ⟨st2, h2⟩ := Option.isSome_iff_exists.mp hsome
  obtain ⟨st1, hq1, hp⟩ := (Q_is_the_only_exit ram).2 8 5 _ st2 h2
  exact ⟨st1, hq1, by rw [hp]; rfl⟩

/-! ## Address argument of the R command -/

theorem takeWhile_dropWhile_length {α : Type} (p : α → Bool) (l : List α) :
    (l.takeWhile p).length + (l.dropWhile p).length = l.length := by
  induction l with
  | nil => rfl
  | cons a rest ih =>
    by_cases h : p a = true
    · simp [List.takeWhile, List.dropWhile, h]; omega
    · simp [List.takeWhile, List.dropWhile, h]

theorem afterSpaces_length_le (s : List Char) : (afterSpaces s).length ≤ s.length := by
  have h := takeWhile_dropWhile_length (fun c => decide (c = ' ')) s
  unfold afterSpaces
  omega

/-- Value and cursor of the token scanner, from its two loops. -/
theorem parse_hex_token_eq (s : List Char) :
    parse_hex_token s =
      (hexValue (hexRun (afterSpaces s)) % 65536, (afterSpaces s).dropWhile is_hex_char) := by
  unfold parse_hex_token
  rw [skip_spaces_eq, parse_hex_digits_eq]
  have h0 := foldl_mod_hex (hexRun (afterSpaces s)) 0
  simp only [Nat.zero_mod] at h0
  rw [h0]
  rfl

/-- A token with at least one digit moves the cursor. -/
theorem parse_hex_token_moves (s : List Char) (h : hexRun (afterSpaces s) ≠ []) :
    (parse_hex_token s).2 ≠ s := by
  rw [parse_hex_token_eq]
  intro heq
  have h1 := takeWhile_dropWhile_length is_hex_char (afterSpaces s)
  have h2 := afterSpaces_length_le s
  have h3 : (hexRun (afterSpaces s)).length ≠ 0 := by
    intro h0
    exact h (List.length_eq_zero.mp h0)
  have h4 := congrArg List.length heq
  simp only at h4
  unfold hexRun at h3
  omega

/-- A scanner that consumed nothing found no digit. -/
theorem parse_hex_token_stays (ptr : List Char) (hp : (parse_hex_token ptr).2 = ptr) :
    hexRun (afterSpaces ptr) = [] := by
  by_contra h
  exact parse_hex_token_moves ptr h hp

/-- The scanner consumes nothing exactly when the text is empty or starts with a
character that is neither a space nor a hex digit. -/
theorem parse_hex_token_stays_iff (ptr : List Char) :
    (parse_hex_token ptr).2 = ptr ↔ ∀ c ∈ ptr.head?, c ≠ ' ' ∧ is_hex_char c = false := by
  cases ptr with
  | nil => simp [parse_hex_token, skip_spaces, parse_hex_digits]
  | cons c rest =>
    simp only [List.head?_cons, Option.mem_def, Option.some.injEq, forall_eq']
    constructor
    · intro hp
      have hrun := parse_hex_token_stays _ hp
      have hsp : c ≠ ' ' := by
        intro hc
        rw [parse_hex_token_eq] at hp
        have h1 := takeWhile_dropWhile_length is_hex_char (afterSpaces (c :: rest))
        have h2 : (afterSpaces (c :: rest)).length ≤ rest.length := by
          have h3 : afterSpaces (c :: rest) = afterSpaces rest := by
            simp [afterSpaces, List.dropWhile, hc]
          rw [h3]
          exact afterSpaces_length_le rest
        have h4 := congrArg List.length hp
        simp only [List.length_cons] at h4
        omega
      refine ⟨hsp, ?_⟩
      have h3 : afterSpaces (c :: rest) = c :: rest := by
        simp [afterSpaces, List.dropWhile, hsp]
      rw [h3] at hrun
      cases hx : is_hex_char c with
      | false => rfl
      | true => simp [hexRun, List.takeWhile, hx] at hrun
    · rintro ⟨hsp, hx⟩
      simp [parse_hex_token, skip_spaces, parse_hex_digits, hsp, hx]

/-- C12 (amended): the R command takes its address as omitted only when the
scanner consumed nothing after the command letter, that is when the rest of the
line is empty, as on the bare line `R`, or starts with a character that is
neither a space nor a hex digit: it then reads and prints the byte at Last
Address X and sets Last Address to `X + 1`.  On every other line the byte is read
at the value of the address token: an address token with at least one hex digit
is read at its own value, so `R 0` and `R 0000` read address 0x0000 and set Last
Address to 1, and when only spaces were consumed, as on `R ` followed by nothing
or by a character that is not a hex digit, the value is zero and address 0x0000
is read. -/
theorem R_address {M : Type} (host : Host M) (st : Mon M) :
    monitor_process_cmd host st ['R'] =
      some (readReport host st st.last_addr, MonResult.MON_OK) ∧
    (∀ ptr, (parse_hex_token ptr).2 = ptr →
      monitor_process_cmd host st ('R' :: ptr) =
        some (readReport host st st.last_addr, MonResult.MON_OK)) ∧
    (∀ ptr, hexRun (afterSpaces ptr) ≠ [] →
      monitor_process_cmd host st ('R' :: ptr) =
        some (readReport host st (hexValue (hexRun (afterSpaces ptr)) % 65536),
              MonResult.MON_OK)) ∧
    monitor_process_cmd host st "R 0".toList = some (readReport host st 0, MonResult.MON_OK) ∧
    monitor_process_cmd host st "R 0000".toList =
      some (readReport host st 0, MonResult.MON_OK) ∧
    (∀ ptr, monitor_process_cmd host st ('R' :: ptr) =
      some (readReport host st
        (if (parse_hex_token ptr).2 = ptr then st.last_addr
         else hexValue (hexRun (afterSpaces ptr)) % 65536), MonResult.MON_OK)) ∧
    (∀ ptr, (parse_hex_token ptr).2 = ptr ↔
      ∀ c ∈ ptr.head?, c ≠ ' ' ∧ is_hex_char c = false) ∧
    (∀ ptr, (parse_hex_token ptr).2 ≠ ptr → hexRun (afterSpaces ptr) = [] →
      monitor_process_cmd host st ('R' :: ptr) =
        some (readReport host st 0, MonResult.MON_OK)) ∧
    monitor_process_cmd host st "R ".toList = some (readReport host st 0, MonResult.MON_OK) ∧
    monitor_process_cmd host st "R x".toList = some (readReport host st 0, MonResult.MON_OK) := by
  have hstay : ∀ ptr, (parse_hex_token ptr).2 = ptr →
      monitor_process_cmd host st ('R' :: ptr) =
        some (readReport host st st.last_addr, MonResult.MON_OK) := by
    intro ptr hp
    have hv : (parse_hex_token ptr).1 = 0 := by
      rw [parse_hex_token_eq, parse_hex_token_stays ptr hp]
      rfl
    rw [process_cmd_R, if_pos ⟨hv, hp⟩]
    rfl
  have hmove : ∀ ptr, (parse_hex_token ptr).2 ≠ ptr →
      monitor_process_cmd host st ('R' :: ptr) =
        some (readReport host st (hexValue (hexRun (afterSpaces ptr)) % 65536),
              MonResult.MON_OK) := by
    intro ptr hne
    have hcond : ¬ ((parse_hex_token ptr).1 = 0 ∧ (parse_hex_token ptr).2 = ptr) :=
      fun h => hne h.2
    rw [process_cmd_R, if_neg hcond, parse_hex_token_eq]
    rfl
  refine ⟨rfl, hstay, ?_, rfl, rfl, ?_, parse_hex_token_stays_iff, ?_, rfl, rfl⟩
  · intro ptr hp
    exact hmove ptr (parse_hex_token_moves ptr hp)
  · intro ptr
    by_cases hp : (parse_hex_token ptr).2 = ptr
    · rw [if_pos hp]
      exact hstay ptr hp
    · rw [if_neg hp]
      exact hmove ptr hp
  · intro ptr hne hrun
    rw [hmove ptr hne, hrun]
    rfl

/-- Witness of `R_address`: `Rx` consumes nothing and reads Last Address, `R 3F`
reads address 0x003F, and `R x` consumes a space, finds no digit and reads
address 0x0000. -/
theorem R_address_witness :
    ((parse_hex_token "x".toList).2 = "x".toList ∧
      monitor_process_cmd ram (boot 8 exampleProgram []) "Rx".toList =
        some (readReport ram (boot 8 exampleProgram []) 0x0200, MonResult.MON_OK)) ∧
    (hexRun (afterSpaces " 3F".toList) ≠ [] ∧
      monitor_process_cmd ram (boot 8 exampleProgram []) "R 3F".toList =
        some (readReport ram (boot 8 exampleProgram []) 0x003F, MonResult.MON_OK)) ∧
    ((parse_hex_token " x".toList).2 ≠ " x".toList ∧ hexRun (afterSpaces " x".toList) = [] ∧
      monitor_process_cmd ram (boot 8 exampleProgram []) "R x".toList =
        some (readReport ram (boot 8 exampleProgram []) 0x0000, MonResult.MON_OK)) :=
  ⟨⟨by decide, (R_address ram (boot 8 exampleProgram [])).2.1 "x".toList (by decide)⟩,
   ⟨by decide, (R_address ram (boot 8 exampleProgram [])).2.2.1 " 3F".toList (by decide)⟩,
   ⟨by decide, by decide,
    (R_address ram (boot 8 exampleProgram [])).2.2.2.2.2.2.2.1 " x".toList (by decide)
      (by decide)⟩⟩

/-- C12 as stated fails: with Last Address 0x0200 holding 0xEA, the bare `R` prints
`$0200 = $EA` and leaves Last Address 0x0201, while `R 0` prints `$0000 = $00` and
leaves Last Address 1; so does `R ` followed by nothing or by a character that is
not a hex digit. -/
theorem R_zero_is_not_omitted :
    (monitor_process_cmd ram (boot 8 exampleProgram []) "R".toList).map
        (fun r => (r.1.out, r.1.last_addr)) = some ("$0200 = $EA\r\n".toList, 0x0201) ∧
    (monitor_process_cmd ram (boot 8 exampleProgram []) "R 0".toList).map
        (fun r => (r.1.out, r.1.last_addr)) = some ("$0000 = $00\r\n".toList, 1) ∧
    (monitor_process_cmd ram (boot 8 exampleProgram []) "R ".toList).map
        (fun r => (r.1.out, r.1.last_addr)) = some ("$0000 = $00\r\n".toList, 1) ∧
    (monitor_process_cmd ram (boot 8 exampleProgram []) "R x".toList).map
        (fun r => (r.1.out, r.1.last_addr)) = some ("$0000 = $00\r\n".toList, 1) := by
  decide

/-! ## Range of the S command -/

theorem process_cmd_S {M : Type} (host : Host M) (st : Mon M) (ptr : List Char) :
    monitor_process_cmd host st ('S' :: ptr) =
      (mon_scan host st.mem
        (scanArgs (parse_hex_token ptr).1 (parse_hex_token (parse_hex_token ptr).2).1).1
        (scanArgs (parse_hex_token ptr).1 (parse_hex_token (parse_hex_token ptr).2).1).2).map
        (fun printed => (emit st printed, MonResult.MON_OK)) := rfl

/-- Unless `addr + len` is exactly 2^16 after the defaults, the end address the S
command passes to the scan is at most 0x3DFF. -/
theorem scanArgs_bound (addr len : Nat) (ha : addr < 65536) (hl : len < 65536)
    (hsum : (if addr = 0 then 0x0200 else addr) + (if len = 0 then 0x3BFF else len) ≠ 65536) :
    (scanArgs addr len).2 ≤ 0x3DFF := by
  unfold scanArgs
  simp only []
  split_ifs at hsum ⊢ <;> omega

/-- When `addr + len` is exactly 2^16 after the defaults, the sum wraps to 0, the
clamp is skipped and the end address is 0xFFFF. -/
theorem scanArgs_overflow (addr len : Nat)
    (hsum : (if addr = 0 then 0x0200 else addr) + (if len = 0 then 0x3BFF else len) = 65536) :
    (scanArgs addr len).2 = 0xFFFF := by
  unfold scanArgs
  simp only []
  split_ifs at hsum ⊢ <;> omega

/-- C11 fails on the code: for `S 8000 8000` the 16-bit sum `addr + len` wraps to
0, the clamp is not applied, and the scan is called on 0x8000..0xFFFF, whose end
address is above 0x3DFF. -/
theorem S_clamp_misses_overflow {M : Type} (host : Host M) (st : Mon M) :
    (parse_hex_token " 8000 8000".toList).1 = 0x8000 ∧
    (parse_hex_token (parse_hex_token " 8000 8000".toList).2).1 = 0x8000 ∧
    scanArgs 0x8000 0x8000 = (0x8000, 0xFFFF) ∧
    monitor_process_cmd host st "S 8000 8000".toList =
      (mon_scan host st.mem 0x8000 0xFFFF).map
        (fun printed => (emit st printed, MonResult.MON_OK)) ∧
    ¬ (0xFFFF ≤ 0x3DFF) := by
  refine ⟨by decide, by decide, by decide, ?_, by decide⟩
  exact (process_cmd_S host st " 8000 8000".toList).trans rfl

/-! ## Termination of the handlers -/

/-- For a length above 0xFFF0 the 16-bit row index of `mon_dump` wraps before it
reaches the length: the loop is still running after any number of steps. -/
theorem mon_dump_loop_never_returns {M : Type} (host : Host M) (mem : M) (addr len : Nat)
    (hlen : 0xFFF0 < len) :
    ∀ fuel i data out, i % 16 = 0 → i < 65536 →
    mon_dump_loop host mem addr len fuel i data out = none := by
  intro fuel
  induction fuel with
  | zero => intro i data out _ _; rfl
  | succ n ih =>
    intro i data out h16 hi
    have hlt : i < len := by omega
    rw [mon_dump_loop, if_pos hlt]
    exact ih _ _ _ (by omega) (Nat.mod_lt _ (by norm_num))

/-- C14 fails on the code: the dump `D 0000 FFF1` never returns, because the
16-bit row index goes from 0xFFF0 back to 0 without reaching the length; this
holds for every memory and for any number of loop steps. -/
theorem dump_FFF1_never_returns {M : Type} (host : Host M) (st : Mon M) :
    (parse_hex_token (parse_hex_token " 0000 FFF1".toList).2).1 = 0xFFF1 ∧
    (∀ fuel, mon_dump_loop host st.mem 0 0xFFF1 fuel 0 (List.replicate 16 0) [] = none) ∧
    monitor_process_cmd host st "D 0000 FFF1".toList = none := by
  refine ⟨by decide, ?_, ?_⟩
  · intro fuel
    exact mon_dump_loop_never_returns host st.mem 0 0xFFF1 (by decide) fuel 0 _ _ rfl (by decide)
  · have h : monitor_process_cmd host st "D 0000 FFF1".toList =
        (mon_dump host st 0 0xFFF1).map (fun st1 => (st1, MonResult.MON_OK)) :=
      (process_cmd_D host st " 0000 FFF1".toList).trans rfl
    rw [h]
    unfold mon_dump
    rw [mon_dump_loop_never_returns host st.mem 0 0xFFF1 (by decide) 4097 0 _ _ rfl (by decide)]
    rfl

/-! ## RAM test on working memory -/

theorem mon_read_write {M : Type} (host : Host M) (hs : StoresWrites host) (m : M)
    (a v x : Nat) :
    mon_read_byte host (mon_write_byte host m a v) x =
      if x % 65536 = a % 65536 then v % 256 else mon_read_byte host m x := by
  unfold mon_read_byte mon_write_byte
  rw [hs m _ _ _ (Nat.mod_lt _ (by norm_num)) (Nat.mod_lt _ (by norm_num))]
  split_ifs
  · exact Nat.mod_mod _ _
  · rfl

theorem mon_read_byte_lt {M : Type} (host : Host M) (m : M) (a : Nat) :
    mon_read_byte host m a < 256 := Nat.mod_lt _ (by norm_num)

/-- On a memory that stores writes, one step of the RAM test passes both patterns,
counts one good byte and leaves every address reading as before. -/
theorem test_step_working {M : Type} (host : Host M) (hs : StoresWrites host)
    (start i : Nat) (t : TestState M) :
    (mon_test_ram_step host start i t).errors = t.errors ∧
    (mon_test_ram_step host start i t).ok = (t.ok + 1) % 65536 ∧
    (mon_test_ram_step host start i t).out = t.out ∧
    ∀ x, mon_read_byte host (mon_test_ram_step host start i t).mem x =
      mon_read_byte host t.mem x := by
  have h55 : mon_read_byte host (mon_write_byte host t.mem ((start + i) % 65536) 0x55)
      ((start + i) % 65536) = 0x55 := by
    rw [mon_read_write host hs]; simp
  have hAA : mon_read_byte host
      (mon_write_byte host (mon_write_byte host t.mem ((start + i) % 65536) 0x55)
        ((start + i) % 65536) 0xAA) ((start + i) % 65536) = 0xAA := by
    rw [mon_read_write host hs]; simp
  simp only [mon_test_ram_step, h55, hAA, ne_eq, not_true_eq_false, if_false, true_and]
  intro x
  rw [mon_read_write host hs, mon_read_write host hs, mon_read_write host hs]
  by_cases hx : x % 65536 = (start + i) % 65536 % 65536
  · rw [if_pos hx]
    rw [Nat.mod_eq_of_lt (mon_read_byte_lt host t.mem _)]
    apply mon_read_byte_congr
    omega
  · rw [if_neg hx, if_neg hx, if_neg hx]

theorem test_loop_working {M : Type} (host : Host M) (hs : StoresWrites host) (start : Nat) :
    ∀ n i (t : TestState M), t.ok = i → i + n < 65536 →
    (mon_test_ram_loop host start n i t).errors = t.errors ∧
    (mon_test_ram_loop host start n i t).ok = i + n ∧
    (mon_test_ram_loop host start n i t).out = t.out ∧
    ∀ x, mon_read_byte host (mon_test_ram_loop host start n i t).mem x =
      mon_read_byte host t.mem x := by
  intro n
  induction n with
  | zero => intro i t hok _; exact ⟨rfl, hok, rfl, fun _ => rfl⟩
  | succ n ih =>
    intro i t hok hi
    obtain ⟨h1, h2, h3, h4⟩ := test_step_working host hs start i t
    rw [mon_test_ram_loop]
    obtain ⟨g1, g2, g3, g4⟩ := ih (i + 1) (mon_test_ram_step host start i t)
      (by rw [h2, hok]; exact Nat.mod_eq_of_lt (by omega)) (by omega)
    refine ⟨by rw [g1, h1], by rw [g2]; omega, by rw [g3, h3], ?_⟩
    intro x
    rw [g4 x, h4 x]

/-- On any memory, one step of the RAM test adds exactly one to the error counter
or to the ok counter. -/
theorem test_step_counts {M : Type} (host : Host M) (start i : Nat) (t : TestState M) :
    ((mon_test_ram_step host start i t).errors = (t.errors + 1) % 65536 ∧
      (mon_test_ram_step host start i t).ok = t.ok) ∨
    ((mon_test_ram_step host start i t).errors = t.errors ∧
      (mon_test_ram_step host start i t).ok = (t.ok + 1) % 65536) := by
  unfold mon_test_ram_step
  simp only []
  split_ifs <;> simp

theorem test_loop_counts {M : Type} (host : Host M) (start : Nat) :
    ∀ n i (t : TestState M), t.errors + t.ok = i → i + n < 65536 →
    (mon_test_ram_loop host start n i t).errors +
      (mon_test_ram_loop host start n i t).ok = i + n := by
  intro n
  induction n with
  | zero => intro i t h _; exact h
  | succ n ih =>
    intro i t h hi
    rw [mon_test_ram_loop]
    have hstep : (mon_test_ram_step host start i t).errors +
        (mon_test_ram_step host start i t).ok = i + 1 := by
      rcases test_step_counts host start i t with ⟨h1, h2⟩ | ⟨h1, h2⟩
      · rw [h1, h2, Nat.mod_eq_of_lt (by omega)]; omega
      · rw [h1, h2, Nat.mod_eq_of_lt (by omega)]; omega
    rw [ih (i + 1) _ hstep (by omega)]
    omega

/-- C20: on a memory where every address stores what is written to it, after
`mon_test_ram(start, len)` every address reads the value it read before, the
error counter is 0, the ok counter is `len` and the report is `OK: <len> bytes`;
on any memory at all the two counters add up to `len`. -/
theorem mon_test_ram_working {M : Type} (host : Host M) (m : M) (start len : Nat)
    (hlen : len < 65536) :
    (mon_test_ram_run host m start len).errors + (mon_test_ram_run host m start len).ok = len ∧
    (StoresWrites host →
      (mon_test_ram_run host m start len).errors = 0 ∧
      (mon_test_ram_run host m start len).ok = len ∧
      (mon_test_ram host m start len).2 =
        "Test RAM $".toList ++ mon_print_hex16 start ++ "-$".toList ++
        mon_print_hex16 ((start + len + 65535) % 65536) ++ "\r\n".toList ++
        "\r\n".toList ++ "OK: ".toList ++ mon_print_dec len ++ " bytes".toList ++
        "\r\n".toList ∧
      ∀ x, mon_read_byte host (mon_test_ram host m start len).1 x = mon_read_byte host m x) := by
  constructor
  · have h := test_loop_counts host start len 0
      { mem := m, errors := 0, ok := 0,
        out := "Test RAM $".toList ++ mon_print_hex16 start ++ "-$".toList ++
          mon_print_hex16 ((start + len + 65535) % 65536) ++ mon_newline } rfl (by omega)
    simpa [mon_test_ram_run] using h
  · intro hs
    obtain ⟨h1, h2, h3, h4⟩ := test_loop_working host hs start len 0
      { mem := m, errors := 0, ok := 0,
        out := "Test RAM $".toList ++ mon_print_hex16 start ++ "-$".toList ++
          mon_print_hex16 ((start + len + 65535) % 65536) ++ mon_newline } rfl (by omega)
    have hrun : mon_test_ram_run host m start len =
        mon_test_ram_loop host start len 0
          { mem := m, errors := 0, ok := 0,
            out := "Test RAM $".toList ++ mon_print_hex16 start ++ "-$".toList ++
              mon_print_hex16 ((start + len + 65535) % 65536) ++ mon_newline } := rfl
    simp only [Nat.zero_add] at h2
    refine ⟨by rw [hrun, h1], by rw [hrun, h2], ?_, ?_⟩
    · simp only [mon_test_ram, hrun, h1, h2, h3]
      simp [mon_newline, List.append_assoc]
    · intro x
      simp only [mon_test_ram, hrun]
      exact h4 x

theorem ram_stores_writes : StoresWrites ram := by
  intro m a v x _ _
  rfl

/-- Witness of `mon_test_ram_working`: 256 bytes from 0x0200 of the example
memory. -/
theorem mon_test_ram_working_witness :
    0x100 < 65536 ∧ StoresWrites ram ∧
    (mon_test_ram_run ram exampleProgram 0x0200 0x100).errors = 0 ∧
    (mon_test_ram_run ram exampleProgram 0x0200 0x100).ok = 0x100 :=
  ⟨by decide, ram_stores_writes,
   ((mon_test_ram_working ram exampleProgram 0x0200 0x100 (by decide)).2 ram_stores_writes).1,
   ((mon_test_ram_working ram exampleProgram 0x0200 0x100 (by decide)).2 ram_stores_writes).2.1⟩

/-! ## Load mode -/

theorem writeBytes_congr {M : Type} (host : Host M) : ∀ (bs : List Nat) (mem : M) (a b : Nat),
    a % 65536 = b % 65536 → writeBytes host mem a bs = writeBytes host mem b bs := by
  intro bs
  induction bs with
  | nil => intro mem a b _; rfl
  | cons x rest ih =>
    intro mem a b h
    have hw : mon_write_byte host mem a x = mon_write_byte host mem b x := by
      unfold mon_write_byte; rw [h]
    rw [writeBytes, writeBytes, hw]
    exact ih _ _ _ (by omega)

theorem pairBytes_length : ∀ n (ds : List Char), ds.length ≤ n →
    (pairBytes ds).length = ds.length / 2 := by
  intro n
  induction n using Nat.strong_induction_on with
  | _ n ih =>
    intro ds hn
    match ds with
    | [] => rfl
    | [_] => simp [pairBytes]
    | h1 :: h2 :: rest =>
      simp only [pairBytes, List.length_cons]
      rw [ih rest.length (by simp only [List.length_cons] at hn; omega) rest (le_refl _)]
      omega

/-- The load loop, run on characters without a dot followed by a dot: it stops at
the dot, having written the paired hex digits from the current address on. -/
theorem mon_load_loop_eq {M : Type} (host : Host M) (rest : List Char) :
    ∀ (pre : List Char), '.' ∉ pre → ∀ (s : LoadState M) (p : Option Char),
    LoadPending s p → s.addr < 65536 → s.bytes_loaded < 65536 →
    ∃ bv nc, mon_load_loop host (pre ++ '.' :: rest) s =
      some ({ addr := (s.addr + (p.toList ++ hexDigitsOf pre).length / 2) % 65536
              byte_val := bv
              nibble_count := nc
              bytes_loaded := (s.bytes_loaded + (p.toList ++ hexDigitsOf pre).length / 2) % 65536
              mem := writeBytes host s.mem s.addr (pairBytes (p.toList ++ hexDigitsOf pre))
              out := s.out ++ loadEcho pre }, rest) := by
  intro pre
  induction pre with
  | nil =>
    intro _ s p hp ha hb
    refine ⟨s.byte_val, s.nibble_count, ?_⟩
    cases p with
    | none =>
      simp [mon_load_loop, hexDigitsOf, pairBytes, writeBytes, loadEcho,
        Nat.mod_eq_of_lt ha, Nat.mod_eq_of_lt hb]
    | some h =>
      simp [mon_load_loop, hexDigitsOf, pairBytes, writeBytes, loadEcho,
        Nat.mod_eq_of_lt ha, Nat.mod_eq_of_lt hb]
  | cons c pre ih =>
    intro hdot s p hp ha hb
    have hc : c ≠ '.' := fun h => hdot (by simp [h])
    have hdot2 : '.' ∉ pre := fun h => hdot (List.mem_cons_of_mem _ h)
    rw [List.cons_append, mon_load_loop, if_neg hc]
    by_cases hnl : c = '\r' ∨ c = '\n'
    · have hx : is_hex_char c = false := by
        rcases hnl with h | h <;> subst h <;> decide
      rw [if_pos hnl]
      obtain ⟨bv, nc, h⟩ := ih hdot2 { s with out := s.out ++ mon_newline ++ [':'] } p hp ha hb
      refine ⟨bv, nc, ?_⟩
      rw [h]
      simp [hexDigitsOf, List.filter, hx, loadEcho, hnl, mon_newline]
    · rw [if_neg hnl]
      by_cases hsp : c = ' '
      · have hx : is_hex_char c = false := by subst hsp; decide
        rw [if_pos hsp]
        obtain ⟨bv, nc, h⟩ := ih hdot2 { s with out := s.out ++ [' '] } p hp ha hb
        refine ⟨bv, nc, ?_⟩
        rw [h]
        subst hsp
        simp [hexDigitsOf, List.filter, hx, loadEcho]
      · rw [if_neg hsp]
        by_cases hx : is_hex_char c = true
        · rw [if_pos hx]
          have hv := hex_char_to_val_lt c hx
          cases p with
          | none =>
            obtain ⟨h1, h2⟩ := hp
            have e1 : ((s.byte_val <<< 4) ||| hex_char_to_val c) % 256 = hex_char_to_val c := by
              rw [h2, shl4_or _ _ hv]; omega
            have e2 : (s.nibble_count + 1) % 256 = 1 := by rw [h1]
            simp only [e1, e2, show ¬ (1 = 2) by decide, if_false]
            obtain ⟨bv, nc, h⟩ := ih hdot2
              { s with byte_val := hex_char_to_val c, nibble_count := 1, out := s.out ++ [c] }
              (some c) ⟨hx, rfl, rfl⟩ ha hb
            refine ⟨bv, nc, ?_⟩
            rw [h]
            simp [hexDigitsOf, List.filter, hx, loadEcho, hnl, hsp]
          | some h0 =>
            obtain ⟨h0x, h1, h2⟩ := hp
            have hv0 := hex_char_to_val_lt h0 h0x
            have e1 : ((s.byte_val <<< 4) ||| hex_char_to_val c) % 256 =
                16 * hex_char_to_val h0 + hex_char_to_val c := by
              rw [h2, shl4_or _ _ hv]; omega
            have e2 : (s.nibble_count + 1) % 256 = 2 := by rw [h1]
            simp only [e1, e2, if_true]
            obtain ⟨bv, nc, h⟩ := ih hdot2
              { addr := (s.addr + 1) % 65536
                byte_val := 0
                nibble_count := 0
                bytes_loaded := (s.bytes_loaded + 1) % 65536
                mem := mon_write_byte host s.mem s.addr
                  (16 * hex_char_to_val h0 + hex_char_to_val c)
                out := s.out ++ [c] }
              none ⟨rfl, rfl⟩ (Nat.mod_lt _ (by norm_num)) (Nat.mod_lt _ (by norm_num))
            refine ⟨bv, nc, ?_⟩
            rw [h]
            have hd : hexDigitsOf (c :: pre) = c :: hexDigitsOf pre := by
              simp [hexDigitsOf, List.filter, hx]
            have hk : ((some h0).toList ++ hexDigitsOf (c :: pre)).length / 2 =
                1 + ((none : Option Char).toList ++ hexDigitsOf pre).length / 2 := by
              rw [hd]
              simp only [Option.toList, List.cons_append, List.nil_append, List.length_cons]
              omega
            have hw : writeBytes host s.mem s.addr
                (pairBytes ((some h0).toList ++ hexDigitsOf (c :: pre))) =
                writeBytes host
                  (mon_write_byte host s.mem s.addr
                    (16 * hex_char_to_val h0 + hex_char_to_val c))
                  ((s.addr + 1) % 65536)
                  (pairBytes ((none : Option Char).toList ++ hexDigitsOf pre)) := by
              rw [hd]
              simp only [Option.toList, List.cons_append, List.nil_append, pairBytes, writeBytes]
              exact writeBytes_congr host _ _ _ _ (by omega)
            rw [hk, hw]
            simp only [LoadState.mk.injEq, Option.some.injEq, Prod.mk.injEq, and_true, true_and]
            refine ⟨by omega, by omega, ?_⟩
            simp [loadEcho, hnl, hsp, hx]
        · have hx2 : is_hex_char c = false := by simpa using hx
          rw [if_neg hx]
          obtain ⟨bv, nc, h⟩ := ih hdot2 s p hp ha hb
          refine ⟨bv, nc, ?_⟩
          rw [h]
          simp [hexDigitsOf, List.filter, hx2, loadEcho, hnl, hsp]

/-- Result of load mode on an input whose first dot comes after the characters
`pre`. -/
theorem mon_load_mode_eq {M : Type} (host : Host M) (st : Mon M) (a : Nat)
    (pre rest : List Char) (ha : a < 65536) (hdot : '.' ∉ pre)
    (hinp : st.inp = pre ++ '.' :: rest) :
    mon_load_mode host st a =
      some { st with
        mem := writeBytes host st.mem a (pairBytes (hexDigitsOf pre))
        inp := rest
        out := st.out ++ "Modo carga en $".toList ++ mon_print_hex16 a ++
          " (terminar con '.')".toList ++ "\r\n:".toList ++ loadEcho pre ++ "\r\n".toList ++
          "Cargados ".toList ++ mon_print_hex16 ((hexDigitsOf pre).length / 2 % 65536) ++
          " bytes\r\n".toList
        last_addr := (a + (hexDigitsOf pre).length / 2) % 65536 } := by
  obtain ⟨bv, nc, h⟩ := mon_load_loop_eq host rest pre hdot
    { addr := a, byte_val := 0, nibble_count := 0, bytes_loaded := 0, mem := st.mem,
      out := st.out ++ "Modo carga en $".toList ++ mon_print_hex16 a ++
        " (terminar con '.')".toList ++ mon_newline ++ [':'] }
    none ⟨rfl, rfl⟩ ha (by norm_num)
  unfold mon_load_mode
  simp only [hinp, h, Option.toList, List.nil_append, Nat.zero_add]
  simp [mon_newline, List.append_assoc]

/-- C18 (amended): for every start address `a` and every input whose first dot
comes after the characters `pre`, with `h_1 .. h_m` the hex digits of `pre` in
order, load mode returns having written exactly `floor(m/2)` bytes, byte `i`
having value `16*val(h_(2i+1)) + val(h_(2i+2))` and being written to address
`a + i` modulo 2^16; other characters change neither address nor bytes and a
trailing unpaired digit is written nowhere; Last Address becomes
`a + floor(m/2)` modulo 2^16 and the count reported, a 16-bit counter printed as
four hex digits, is `floor(m/2)` modulo 2^16. -/
theorem mon_load_mode_spec {M : Type} (host : Host M) (st : Mon M) (a : Nat)
    (pre rest : List Char) (ha : a < 65536) (hdot : '.' ∉ pre)
    (hinp : st.inp = pre ++ '.' :: rest) :
    mon_load_mode host st a =
      some { st with
        mem := writeBytes host st.mem a (pairBytes (hexDigitsOf pre))
        inp := rest
        out := st.out ++ "Modo carga en $".toList ++ mon_print_hex16 a ++
          " (terminar con '.')".toList ++ "\r\n:".toList ++ loadEcho pre ++ "\r\n".toList ++
          "Cargados ".toList ++ mon_print_hex16 ((hexDigitsOf pre).length / 2 % 65536) ++
          " bytes\r\n".toList
        last_addr := (a + (hexDigitsOf pre).length / 2) % 65536 } ∧
    (pairBytes (hexDigitsOf pre)).length = (hexDigitsOf pre).length / 2 :=
  ⟨mon_load_mode_eq host st a pre rest ha hdot hinp,
   pairBytes_length _ (hexDigitsOf pre) (le_refl _)⟩

/-- Witness of `mon_load_mode_spec`: typing `A9 0`, Enter, `5 8`, a dot and `x` at
0x0300 writes the bytes A9 and 05 and leaves the unpaired 8 out. -/
theorem mon_load_mode_spec_witness :
    (0x0300 < 65536 ∧ '.' ∉ "A9 0\r5 8".toList ∧
      (boot 8 exampleProgram "A9 0\r5 8.x".toList).inp = "A9 0\r5 8".toList ++ '.' :: ['x']) ∧
    (mon_load_mode ram (boot 8 exampleProgram "A9 0\r5 8.x".toList) 0x0300).map
        (fun r => (r.mem 0x0300, r.mem 0x0301, r.mem 0x0302, r.last_addr, r.inp)) =
      some (0xA9, 0x05, 0, 0x0302, ['x']) ∧
    (pairBytes (hexDigitsOf "A9 0\r5 8".toList)).length = 2 := by
  have h := mon_load_mode_spec ram (boot 8 exampleProgram "A9 0\r5 8.x".toList) 0x0300
    "A9 0\r5 8".toList ['x'] (by decide) (by decide) rfl
  refine ⟨⟨by decide, by decide, rfl⟩, ?_, h.2.trans (by decide)⟩
  rw [h.1]
  decide

/-- C18 as stated fails on the reported count: after 131072 hex digits and a dot,
`floor(m/2)` is 65536 and load mode reports `0000`. -/
theorem load_count_wraps :
    (hexDigitsOf (List.replicate 131072 '0')).length / 2 = 65536 ∧
    ∃ st1 text,
      mon_load_mode ram (boot 8 (fun _ => 0) (List.replicate 131072 '0' ++ ['.'])) 0x0200 =
        some st1 ∧
      st1.out = text ++ "Cargados 0000 bytes\r\n".toList := by
  have hd : hexDigitsOf (List.replicate 131072 '0') = List.replicate 131072 '0' := by
    unfold hexDigitsOf
    exact List.filter_replicate_of_pos (by decide)
  have hk : (hexDigitsOf (List.replicate 131072 '0')).length / 2 = 65536 := by
    rw [hd, List.length_replicate]
  have hdot : '.' ∉ List.replicate 131072 '0' := by
    intro h
    have := List.eq_of_mem_replicate h
    revert this
    decide
  have h := mon_load_mode_eq ram (boot 8 (fun _ => 0) (List.replicate 131072 '0' ++ ['.']))
    0x0200 (List.replicate 131072 '0') [] (by decide) hdot rfl
  refine ⟨hk, _,
    (boot 8 (fun _ => 0) (List.replicate 131072 '0' ++ ['.'])).out ++
      "Modo carga en $".toList ++ mon_print_hex16 0x0200 ++ " (terminar con '.')".toList ++
      "\r\n:".toList ++ loadEcho (List.replicate 131072 '0') ++ "\r\n".toList, h, ?_⟩
  have h0 : mon_print_hex16 (65536 % 65536) = "0000".toList := by decide
  simp only [hk, h0]
  rw [List.append_assoc, List.append_assoc]
  rfl

/-! ## Free runs reported by the scan -/

theorem mon_scan_report_split (start last : Nat) (s : ScanState) :
    mon_scan_report start last s = scanBlocksOut last s ++ scanSummary start last s := by
  unfold mon_scan_report scanBlocksOut scanSummary
  simp only []
  split_ifs <;> simp [List.append_assoc]

/-- Step of the scan on a free byte: nothing is printed, and a block opens at
`addr` unless one is open already. -/
theorem mon_scan_step_free (v addr : Nat) (s : ScanState) (hv : isFreeByte v = true) :
    (mon_scan_step v addr s).out = s.out ∧
    (mon_scan_step v addr s).blocks_shown = s.blocks_shown ∧
    (mon_scan_step v addr s).in_free_block = true ∧
    (mon_scan_step v addr s).block_start =
      (if s.in_free_block = true then s.block_start else addr) := by
  simp only [isFreeByte, decide_eq_true_eq] at hv
  unfold mon_scan_step
  rcases hv with h | h
  · subst h
    cases hb : s.in_free_block <;> simp [hb]
  · subst h
    cases hb : s.in_free_block <;> simp [hb]

/-- Step of the scan on a used byte outside a free block: nothing changes but the
count of used bytes. -/
theorem mon_scan_step_used_closed (v addr : Nat) (s : ScanState) (hv : isFreeByte v = false)
    (hb : s.in_free_block = false) :
    (mon_scan_step v addr s).out = s.out ∧
    (mon_scan_step v addr s).blocks_shown = s.blocks_shown ∧
    (mon_scan_step v addr s).in_free_block = false := by
  simp only [isFreeByte, decide_eq_false_iff_not, not_or] at hv
  unfold mon_scan_step
  simp [hv.1, hv.2, hb]

/-- Step of the scan on a used byte that ends the open block: the block is printed
when it has at least 16 bytes and fewer than 8 blocks were printed. -/
theorem mon_scan_step_used_open (v addr : Nat) (s : ScanState) (hv : isFreeByte v = false)
    (hb : s.in_free_block = true) (hp : s.block_start < addr) (ha : addr < 65536)
    (hshown : s.blocks_shown ≤ 8) :
    (mon_scan_step v addr s).in_free_block = false ∧
    (mon_scan_step v addr s).out =
      (if 16 ≤ addr - s.block_start ∧ s.blocks_shown < 8
       then s.out ++ mon_scan_block s.block_start (addr - 1) (addr - s.block_start)
       else s.out) ∧
    (mon_scan_step v addr s).blocks_shown =
      (if 16 ≤ addr - s.block_start ∧ s.blocks_shown < 8
       then s.blocks_shown + 1 else s.blocks_shown) := by
  simp only [isFreeByte, decide_eq_false_iff_not, not_or] at hv
  have e1 : (addr + 65536 - s.block_start) % 65536 = addr - s.block_start := by omega
  have e2 : (addr + 65535) % 65536 = addr - 1 := by omega
  unfold mon_scan_step
  simp only [hv.1, hv.2, if_false, hb, true_and, e1, e2, ge_iff_le]
  by_cases h16 : 16 ≤ addr - s.block_start
  · by_cases h8 : s.blocks_shown < 8
    · have e3 : (s.blocks_shown + 1) % 256 = s.blocks_shown + 1 := by omega
      simp [h16, h8, e3]
    · simp [h16, h8]
  · simp [h16]

theorem freeRunLen_free {M : Type} (host : Host M) (mem : M) (last a : Nat) (ha : a ≤ last)
    (hf : freeAt host mem a = true) :
    freeRunLen host mem last a = 1 + freeRunLen host mem last (a + 1) := by
  unfold freeRunLen
  have h : last + 1 - a = (last + 1 - (a + 1)) + 1 := by omega
  rw [h, List.range', List.takeWhile_cons, hf]
  simp only [if_true, List.length_cons]
  omega

theorem freeRunLen_used {M : Type} (host : Host M) (mem : M) (last a : Nat) (ha : a ≤ last)
    (hf : freeAt host mem a = false) : freeRunLen host mem last a = 0 := by
  unfold freeRunLen
  have h : last + 1 - a = (last + 1 - (a + 1)) + 1 := by omega
  rw [h, List.range', List.takeWhile_cons, hf]
  rfl

theorem freeRunLen_end {M : Type} (host : Host M) (mem : M) (last a : Nat) (ha : last < a) :
    freeRunLen host mem last a = 0 := by
  unfold freeRunLen
  have h : last + 1 - a = 0 := by omega
  rw [h]
  rfl

/-- From any point of the scan on, the free-block lines still printed are those of
the pending maximal runs of at least 16 bytes, as far as the limit of 8 allows. -/
theorem scan_fold_runs {M : Type} (host : Host M) (mem : M) (start last : Nat)
    (hlast : last < 65536) (hsize : last + 1 - start ≤ 65535) :
    ∀ n a (s : ScanState), a + n = last + 1 → start ≤ a → s.blocks_shown ≤ 8 →
    (s.in_free_block = false ∧ (a = start ∨ freeAt host mem (a - 1) = false) ∨
     s.in_free_block = true ∧ start ≤ s.block_start ∧ s.block_start < a ∧
       freeAt host mem (a - 1) = true) →
    scanBlocksOut last
        ((List.range' a n).foldl (fun t x => mon_scan_step (mon_read_byte host mem x) x t) s) =
      s.out ++
        (((pendingRuns host mem start last
            (if s.in_free_block = true then some s.block_start else none) a n).filter
              isBigRun).take (8 - s.blocks_shown)).flatMap runLine := by
  intro n
  induction n with
  | zero =>
    intro a s han hsa hshown hst
    have hfr : freeRunLen host mem last a = 0 := freeRunLen_end host mem last a (by omega)
    simp only [List.range', List.foldl_nil]
    rcases hst with ⟨hb, _⟩ | ⟨hb, hp1, hp2, _⟩
    · simp [scanBlocksOut, pendingRuns, hb]
    · have e1 : (last + 65536 - s.block_start + 1) % 65536 = last - s.block_start + 1 := by
        omega
      have e2 : a + 0 - 1 = last := by omega
      simp only [scanBlocksOut, pendingRuns, hb, if_true, true_and, e1, hfr, e2,
        List.filter_nil, List.map_nil, List.append_nil, ge_iff_le]
      by_cases h16 : 16 ≤ last - s.block_start + 1
      · have hbig : isBigRun (s.block_start, last) = true := by
          simp [isBigRun, h16]
        by_cases h8 : s.blocks_shown < 8
        · obtain ⟨k, hk⟩ : ∃ k, 8 - s.blocks_shown = k + 1 := ⟨8 - s.blocks_shown - 1, by omega⟩
          simp [h16, h8, hbig, hk, runLine, List.filter_cons]
        · have hk : 8 - s.blocks_shown = 0 := by omega
          simp [h16, h8, hk]
      · have hbig : isBigRun (s.block_start, last) = false := by
          simp [isBigRun, h16]
        simp [h16, hbig, List.filter_cons]
  | succ n ih =>
    intro a s han hsa hshown hst
    have hal : a ≤ last := by omega
    simp only [List.range', List.foldl_cons]
    by_cases hf : freeAt host mem a = true
    · -- a free byte
      obtain ⟨h1, h2, h3, h4⟩ := mon_scan_step_free _ a s hf
      have hfr := freeRunLen_free host mem last a hal hf
      have hprev1 : freeAt host mem (a + 1 - 1) = true := by simpa using hf
      have e : a + 1 + freeRunLen host mem last (a + 1) - 1 =
          a + freeRunLen host mem last a - 1 := by omega
      rcases hst with ⟨hb, hprev⟩ | ⟨hb, hp1, hp2, hprev⟩
      · have h4a : (mon_scan_step (mon_read_byte host mem a) a s).block_start = a := by
          rw [h4, hb]; rfl
        have hstart : isRunStart host mem start a = true := by
          rw [isRunStart, hf]
          rcases hprev with h | h
          · simp [h]
          · simp [h]
        have hpend : pendingRuns host mem start last (some a) (a + 1) n =
            pendingRuns host mem start last none a (n + 1) := by
          simp [pendingRuns, List.range', List.filter_cons, hstart, runFrom, e]
        rw [ih (a + 1) _ (by omega) (by omega) (by rw [h2]; exact hshown)
          (Or.inr ⟨h3, by rw [h4a]; exact hsa, by rw [h4a]; omega, hprev1⟩), h1, h2, h3, h4a]
        simp only [if_true, hb, Bool.false_eq_true, if_false, hpend]
      · have h4a : (mon_scan_step (mon_read_byte host mem a) a s).block_start =
            s.block_start := by
          rw [h4, hb]; rfl
        have hstart : isRunStart host mem start a = false := by
          have hne : a ≠ start := by omega
          rw [isRunStart, hf]
          simp [hprev, hne]
        have hpend : pendingRuns host mem start last (some s.block_start) (a + 1) n =
            pendingRuns host mem start last (some s.block_start) a (n + 1) := by
          simp [pendingRuns, List.range', List.filter_cons, hstart, e]
        rw [ih (a + 1) _ (by omega) (by omega) (by rw [h2]; exact hshown)
          (Or.inr ⟨h3, by rw [h4a]; exact hp1, by rw [h4a]; omega, hprev1⟩), h1, h2, h3, h4a]
        simp only [if_true, hb, hpend]
    · -- a used byte
      have hf2 : freeAt host mem a = false := by simpa using hf
      have hprev1 : freeAt host mem (a + 1 - 1) = false := by simpa using hf2
      have hstart : isRunStart host mem start a = false := by
        rw [isRunStart, hf2]; rfl
      have hfr := freeRunLen_used host mem last a hal hf2
      have hpend0 : pendingRuns host mem start last none (a + 1) n =
          pendingRuns host mem start last none a (n + 1) := by
        simp [pendingRuns, List.range', List.filter_cons, hstart]
      rcases hst with ⟨hb, hprev⟩ | ⟨hb, hp1, hp2, hprev⟩
      · obtain ⟨h1, h2, h3⟩ := mon_scan_step_used_closed _ a s hf2 hb
        rw [ih (a + 1) _ (by omega) (by omega) (by rw [h2]; exact hshown)
          (Or.inl ⟨h3, Or.inr hprev1⟩), h1, h2, h3]
        simp only [hb, Bool.false_eq_true, if_false, hpend0]
      · obtain ⟨h1, h2, h3⟩ := mon_scan_step_used_open _ a s hf2 hb hp2 (by omega) hshown
        have hsh : (mon_scan_step (mon_read_byte host mem a) a s).blocks_shown ≤ 8 := by
          rw [h3]; split_ifs <;> omega
        have hpend : pendingRuns host mem start last (some s.block_start) a (n + 1) =
            (s.block_start, a - 1) :: pendingRuns host mem start last none (a + 1) n := by
          have e : a + 0 - 1 = a - 1 := by omega
          simp [pendingRuns, List.range', List.filter_cons, hstart, hfr, e]
        rw [ih (a + 1) _ (by omega) (by omega) hsh (Or.inl ⟨h1, Or.inr hprev1⟩), h1, h2, h3]
        simp only [hb, if_true, Bool.false_eq_true, if_false, hpend, List.filter_cons]
        by_cases h16 : 16 ≤ a - s.block_start
        · have hbig : isBigRun (s.block_start, a - 1) = true := by
            simp only [isBigRun, decide_eq_true_eq]; omega
          by_cases h8 : s.blocks_shown < 8
          · obtain ⟨k, hk⟩ : ∃ k, 8 - s.blocks_shown = k + 1 :=
              ⟨8 - s.blocks_shown - 1, by omega⟩
            have hk2 : 8 - (s.blocks_shown + 1) = k := by omega
            have e3 : a - 1 - s.block_start + 1 = a - s.block_start := by omega
            simp [h16, h8, hbig, hk, hk2, runLine, e3, List.append_assoc]
          · have hk : 8 - s.blocks_shown = 0 := by omega
            simp [h16, h8, hk]
        · have hbig : isBigRun (s.block_start, a - 1) = false := by
            simp only [isBigRun, decide_eq_false_iff_not]; omega
          simp [h16, hbig]

/-- The free bytes counted from `p` are free, stay inside the range, and are
followed by a used byte or by the end of the range. -/
theorem freeRunLen_spec {M : Type} (host : Host M) (mem : M) (last : Nat) :
    ∀ d p, last + 1 - p = d →
    p + freeRunLen host mem last p ≤ max p (last + 1) ∧
    (∀ x, p ≤ x → x < p + freeRunLen host mem last p → freeAt host mem x = true) ∧
    (p + freeRunLen host mem last p ≤ last →
      freeAt host mem (p + freeRunLen host mem last p) = false) := by
  intro d
  induction d with
  | zero =>
    intro p hd
    have h0 := freeRunLen_end host mem last p (by omega)
    rw [h0]
    refine ⟨by omega, fun x h1 h2 => by omega, fun h => by omega⟩
  | succ d ih =>
    intro p hd
    have hp : p ≤ last := by omega
    by_cases hf : freeAt host mem p = true
    · obtain ⟨i1, i2, i3⟩ := ih (p + 1) (by omega)
      have h1 := freeRunLen_free host mem last p hp hf
      rw [h1]
      refine ⟨by omega, ?_, ?_⟩
      · intro x hx1 hx2
        by_cases hxp : x = p
        · rw [hxp]; exact hf
        · exact i2 x (by omega) (by omega)
      · intro h
        have e : p + (1 + freeRunLen host mem last (p + 1)) =
            p + 1 + freeRunLen host mem last (p + 1) := by omega
        rw [e]
        exact i3 (by omega)
    · have hf2 : freeAt host mem p = false := by simpa using hf
      have h0 := freeRunLen_used host mem last p hp hf2
      rw [h0]
      refine ⟨by omega, fun x h1 h2 => by omega, fun _ => hf2⟩

/-- The runs of `maxFreeRuns` are exactly the maximal runs of consecutive free
bytes of the range. -/
theorem mem_maxFreeRuns {M : Type} (host : Host M) (mem : M) (start last : Nat) (r : Nat × Nat) :
    r ∈ maxFreeRuns host mem start last ↔
      (start ≤ r.1 ∧ r.1 ≤ r.2 ∧ r.2 ≤ last ∧
       (∀ x, r.1 ≤ x → x ≤ r.2 → freeAt host mem x = true) ∧
       (r.1 = start ∨ freeAt host mem (r.1 - 1) = false) ∧
       (r.2 = last ∨ freeAt host mem (r.2 + 1) = false)) := by
  obtain ⟨p, q⟩ := r
  simp only [maxFreeRuns, List.mem_map, List.mem_filter, List.mem_range'_1, runFrom,
    Prod.mk.injEq]
  constructor
  · rintro ⟨a, ⟨⟨ha1, ha2⟩, hst⟩, rfl, rfl⟩
    obtain ⟨s1, s2, s3⟩ := freeRunLen_spec host mem last _ a rfl
    have hfa : freeAt host mem a = true := by
      simp only [isRunStart, Bool.and_eq_true] at hst
      exact hst.1
    have hk : 1 ≤ freeRunLen host mem last a := by
      rw [freeRunLen_free host mem last a (by omega) hfa]; omega
    have hprev : a = start ∨ freeAt host mem (a - 1) = false := by
      simp only [isRunStart, Bool.and_eq_true, Bool.or_eq_true, decide_eq_true_eq,
        Bool.not_eq_true'] at hst
      exact hst.2
    refine ⟨ha1, by omega, by omega, fun x h1 h2 => s2 x h1 (by omega), hprev, ?_⟩
    by_cases hend : a + freeRunLen host mem last a ≤ last
    · right
      have e : a + freeRunLen host mem last a - 1 + 1 = a + freeRunLen host mem last a := by
        omega
      rw [e]
      exact s3 hend
    · left; omega
  · rintro ⟨h1, h2, h3, hfree, hprev, hnext⟩
    obtain ⟨s1, s2, s3⟩ := freeRunLen_spec host mem last _ p rfl
    have hfp : freeAt host mem p = true := hfree p (le_refl _) h2
    have hst : isRunStart host mem start p = true := by
      rw [isRunStart, hfp]
      rcases hprev with h | h
      · simp [h]
      · simp [h]
    refine ⟨p, ⟨⟨h1, by omega⟩, hst⟩, rfl, ?_⟩
    -- the counted run ends at q
    have hge : q + 1 ≤ p + freeRunLen host mem last p := by
      by_contra hcon
      have hlt : p + freeRunLen host mem last p ≤ q := by omega
      have hu := s3 (by omega)
      have hf := hfree (p + freeRunLen host mem last p) (by omega) hlt
      rw [hf] at hu
      exact Bool.noConfusion hu
    have hle : p + freeRunLen host mem last p ≤ q + 1 := by
      rcases hnext with h | h
      · omega
      · by_contra hcon
        have hf := s2 (q + 1) (by omega) (by omega)
        rw [hf] at h
        exact Bool.noConfusion h
    omega

/-- The runs of `maxFreeRuns` come in ascending address order. -/
theorem maxFreeRuns_sorted {M : Type} (host : Host M) (mem : M) (start last : Nat) :
    (maxFreeRuns host mem start last).Pairwise (fun r1 r2 => r1.1 < r2.1) := by
  unfold maxFreeRuns
  rw [List.pairwise_map]
  apply List.Pairwise.filter
  simp only [runFrom]
  exact List.pairwise_lt_range' _ _

theorem reportedRuns_length {M : Type} (host : Host M) (mem : M) (start last : Nat) :
    (reportedRuns host mem start last).length ≤ 8 := by
  unfold reportedRuns
  rw [List.length_take]
  exact Nat.min_le_left _ _

theorem reportedRuns_big {M : Type} (host : Host M) (mem : M) (start last : Nat) :
    ∀ r ∈ reportedRuns host mem start last, 16 ≤ r.2 - r.1 + 1 := by
  intro r hr
  have h1 := List.mem_of_mem_take hr
  have h2 := (List.mem_filter.mp h1).2
  simpa [isBigRun] using h2

/-- Text of a scan: the heading, the lines of the reported runs, the totals. -/
theorem mon_scan_eq {M : Type} (host : Host M) (mem : M) (start last : Nat)
    (hlast : last < 65536) (hle : start ≤ last) (hsize : last - start + 1 ≤ 65535) :
    ∃ s, mon_scan_loop host mem last 65536 start (mon_scan_init start last) = some s ∧
      mon_scan host mem start last = some (
        "Escaneando $".toList ++ mon_print_hex16 start ++ "-$".toList ++
        mon_print_hex16 last ++ "...\r\n".toList ++
        (reportedRuns host mem start last).flatMap runLine ++ scanSummary start last s) := by
  have hloop := mon_scan_loop_eq host mem last hlast (last + 1 - start) 65536 start
    (mon_scan_init start last) rfl (by omega) (by omega) (by omega)
  have hruns := scan_fold_runs host mem start last hlast (by omega) (last + 1 - start) start
    (mon_scan_init start last) (by omega) (le_refl _) (by simp [mon_scan_init])
    (Or.inl ⟨rfl, Or.inl rfl⟩)
  refine ⟨_, hloop, ?_⟩
  unfold mon_scan
  rw [hloop]
  simp only []
  rw [mon_scan_report_split, hruns]
  simp [mon_scan_init, pendingRuns, reportedRuns, maxFreeRuns, mon_newline, List.append_assoc]

/-- C16: for every memory content and every range `[start, last]` with
`start <= last` and at most 65535 bytes, `mon_scan` returns, and the runs it
reports, between the heading and the totals, are exactly the first `min(8, m)` of
the `m` maximal runs of consecutive free bytes of the range that have at least 16
bytes, in ascending address order, each with its first address, last address and
length; no shorter run is reported and never more than 8.  The maximal runs
are the runs of free bytes (0x00 or 0xFF) that cannot be extended inside the
range. -/
theorem mon_scan_reports_runs {M : Type} (host : Host M) (mem : M) (start last : Nat)
    (hlast : last < 65536) (hle : start ≤ last) (hsize : last - start + 1 ≤ 65535) :
    (∃ s, mon_scan_loop host mem last 65536 start (mon_scan_init start last) = some s ∧
      mon_scan host mem start last = some (
        "Escaneando $".toList ++ mon_print_hex16 start ++ "-$".toList ++
        mon_print_hex16 last ++ "...\r\n".toList ++
        (reportedRuns host mem start last).flatMap runLine ++ scanSummary start last s)) ∧
    reportedRuns host mem start last =
      ((maxFreeRuns host mem start last).filter (fun r => decide (16 ≤ r.2 - r.1 + 1))).take 8 ∧
    (reportedRuns host mem start last).length =
      min 8 ((maxFreeRuns host mem start last).filter
        (fun r => decide (16 ≤ r.2 - r.1 + 1))).length ∧
    (∀ r ∈ reportedRuns host mem start last, 16 ≤ r.2 - r.1 + 1) ∧
    (∀ r : Nat × Nat, r ∈ maxFreeRuns host mem start last ↔
      (start ≤ r.1 ∧ r.1 ≤ r.2 ∧ r.2 ≤ last ∧
       (∀ x, r.1 ≤ x → x ≤ r.2 → freeAt host mem x = true) ∧
       (r.1 = start ∨ freeAt host mem (r.1 - 1) = false) ∧
       (r.2 = last ∨ freeAt host mem (r.2 + 1) = false))) ∧
    (maxFreeRuns host mem start last).Pairwise (fun r1 r2 => r1.1 < r2.1) :=
  ⟨mon_scan_eq host mem start last hlast hle hsize, rfl,
   by unfold reportedRuns; rw [List.length_take]; rfl,
   reportedRuns_big host mem start last,
   mem_maxFreeRuns host mem start last,
   maxFreeRuns_sorted host mem start last⟩

/-- Witness of `mon_scan_reports_runs`: in 0x0200..0x0260 of the example memory the
maximal free runs have 16, 14, 32 and 32 bytes, and the three of at least 16
bytes are reported. -/
theorem mon_scan_reports_runs_witness :
    (0x0260 < 65536 ∧ 0x0200 ≤ 0x0260 ∧ 0x0260 - 0x0200 + 1 ≤ 65535) ∧
    maxFreeRuns ram exampleRuns 0x0200 0x0260 =
      [(0x0200, 0x020F), (0x0211, 0x021E), (0x0220, 0x023F), (0x0241, 0x0260)] ∧
    reportedRuns ram exampleRuns 0x0200 0x0260 =
      [(0x0200, 0x020F), (0x0220, 0x023F), (0x0241, 0x0260)] ∧
    ∃ s, mon_scan ram exampleRuns 0x0200 0x0260 = some (
      "Escaneando $0200-$0260...\r\n".toList ++
      ("  Libre: $0200-$020F (16 bytes)\r\n" ++ "  Libre: $0220-$023F (32 bytes)\r\n" ++
       "  Libre: $0241-$0260 (32 bytes)\r\n").toList ++ scanSummary 0x0200 0x0260 s) := by
  have h := mon_scan_reports_runs ram exampleRuns 0x0200 0x0260 (by decide) (by decide)
    (by decide)
  have hm : maxFreeRuns ram exampleRuns 0x0200 0x0260 =
      [(0x0200, 0x020F), (0x0211, 0x021E), (0x0220, 0x023F), (0x0241, 0x0260)] := by decide
  have hr : reportedRuns ram exampleRuns 0x0200 0x0260 =
      [(0x0200, 0x020F), (0x0220, 0x023F), (0x0241, 0x0260)] := by decide
  refine ⟨⟨by decide, by decide, by decide⟩, hm, hr, ?_⟩
  obtain ⟨s, _, hs⟩ := h.1
  refine ⟨s, ?_⟩
  rw [hs, hr]
  have ht : ([(0x0200, 0x020F), (0x0220, 0x023F), (0x0241, 0x0260)] : List (Nat × Nat)).flatMap
      runLine =
      ("  Libre: $0200-$020F (16 bytes)\r\n" ++ "  Libre: $0220-$023F (32 bytes)\r\n" ++
       "  Libre: $0241-$0260 (32 bytes)\r\n").toList := by decide
  rw [ht]
  rfl

/-! ## Default range of the S command -/

theorem scan_fold_congr {M : Type} (host : Host M) (mem1 mem2 : M) : ∀ (l : List Nat)
    (s : ScanState), (∀ a ∈ l, mon_read_byte host mem1 a = mon_read_byte host mem2 a) →
    l.foldl (fun t a => mon_scan_step (mon_read_byte host mem1 a) a t) s =
      l.foldl (fun t a => mon_scan_step (mon_read_byte host mem2 a) a t) s := by
  intro l
  induction l with
  | nil => intro s _; rfl
  | cons a rest ih =>
    intro s h
    simp only [List.foldl_cons]
    rw [h a (List.mem_cons_self _ _)]
    exact ih _ (fun x hx => h x (List.mem_cons_of_mem _ hx))

/-- The scan reads the bytes of its range only. -/
theorem mon_scan_congr {M : Type} (host : Host M) (mem1 mem2 : M) (start last : Nat)
    (hlast : last < 65536) (hle : start ≤ last) (hsize : last - start + 1 ≤ 65535)
    (h : ∀ a, start ≤ a → a ≤ last → mon_read_byte host mem1 a = mon_read_byte host mem2 a) :
    mon_scan host mem1 start last = mon_scan host mem2 start last := by
  have h1 := mon_scan_loop_eq host mem1 last hlast (last + 1 - start) 65536 start
    (mon_scan_init start last) rfl (by omega) (by omega) (by omega)
  have h2 := mon_scan_loop_eq host mem2 last hlast (last + 1 - start) 65536 start
    (mon_scan_init start last) rfl (by omega) (by omega) (by omega)
  unfold mon_scan
  rw [h1, h2, scan_fold_congr host mem1 mem2 _ _ (fun a ha => by
    have := List.mem_range'_1.mp ha
    exact h a this.1 (by omega))]

/-- C19 fails on the code: the bare line `S` takes the default length 0x3BFF and
calls the scan on 0x0200..0x3DFE; the total it prints is 15359, not 15360, and
the byte at 0x3DFF is not read (a used byte there leaves the report of a memory
of zeros unchanged). -/
theorem S_default_stops_at_3DFE {M : Type} (host : Host M) (st : Mon M) :
    scanArgs 0 0 = (0x0200, 0x3DFE) ∧
    monitor_process_cmd host st ['S'] =
      (mon_scan host st.mem 0x0200 0x3DFE).map
        (fun printed => (emit st printed, MonResult.MON_OK)) ∧
    (∃ s, mon_scan host st.mem 0x0200 0x3DFE = some (
        "Escaneando $0200-$3DFE...\r\n".toList ++
        (reportedRuns host st.mem 0x0200 0x3DFE).flatMap runLine ++
        scanSummary 0x0200 0x3DFE s) ∧
      ∃ body, scanSummary 0x0200 0x3DFE s = body ++ " / 15359\r\n".toList) ∧
    mon_scan ram (fun a => if a = 0x3DFF then 0x42 else 0) 0x0200 0x3DFE =
      mon_scan ram (fun _ => 0) 0x0200 0x3DFE := by
  refine ⟨by decide, (process_cmd_S host st []).trans rfl, ?_, ?_⟩
  · obtain ⟨s, _, hs⟩ := mon_scan_eq host st.mem 0x0200 0x3DFE (by decide) (by decide)
      (by decide)
    refine ⟨s, ?_, ?_⟩
    · rw [hs]
      have hh : "Escaneando $".toList ++ mon_print_hex16 0x0200 ++ "-$".toList ++
          mon_print_hex16 0x3DFE ++ "...\r\n".toList = "Escaneando $0200-$3DFE...\r\n".toList := by
        decide
      rw [hh]
    · refine ⟨mon_newline ++ "Resultados:".toList ++ mon_newline ++
        "  Bytes $00: ".toList ++ mon_print_dec s.free_00 ++ mon_newline ++
        "  Bytes $FF: ".toList ++ mon_print_dec s.free_ff ++ mon_newline ++
        "  Bytes usados: ".toList ++ mon_print_dec s.used ++ mon_newline ++
        "  Total libre: ".toList ++ mon_print_dec ((s.free_00 + s.free_ff) % 65536), ?_⟩
      have hd : mon_print_dec ((0x3DFE + 65536 - 0x0200 + 1) % 65536) = "15359".toList := by
        decide
      unfold scanSummary
      rw [hd]
      simp [mon_newline, List.append_assoc]
  · apply mon_scan_congr ram _ _ 0x0200 0x3DFE (by decide) (by decide) (by decide)
    intro a h1 h2
    have hne : a % 65536 ≠ 0x3DFF := by omega
    simp [mon_read_byte, ram, hne]

/-! ## Handlers that return -/

theorem parse_hex_token_lt (s : List Char) : (parse_hex_token s).1 < 65536 := by
  rw [parse_hex_token_eq]
  exact Nat.mod_lt _ (by norm_num)

/-- The scan returns for every range whose start is not address 0. -/
theorem mon_scan_returns {M : Type} (host : Host M) (mem : M) (start last : Nat)
    (h1 : 1 ≤ start) (h2 : start < 65536) (h3 : last < 65536) :
    (mon_scan host mem start last).isSome = true := by
  unfold mon_scan
  by_cases hle : start ≤ last
  · rw [mon_scan_loop_eq host mem last h3 (last + 1 - start) 65536 start
      (mon_scan_init start last) rfl (by omega) (by omega) (by omega)]
    rfl
  · have h : mon_scan_loop host mem last (65535 + 1) start (mon_scan_init start last) =
        some (mon_scan_init start last) := by
      rw [mon_scan_loop, if_neg hle]
    have e : (65536 : Nat) = 65535 + 1 := rfl
    rw [e, h]
    rfl

/-- Every case of the `switch` other than L, G and D returns. -/
theorem monitor_switch_returns {M : Type} (host : Host M) (st : Mon M) (command : Char)
    (ptr : List Char) (hL : command ≠ 'L') (hG : command ≠ 'G') (hD : command ≠ 'D') :
    (monitor_switch host st command ptr).isSome = true := by
  unfold monitor_switch
  split
  case h_9 =>
    simp only [Option.isSome_map']
    apply mon_scan_returns
    · split_ifs <;> omega
    · have := parse_hex_token_lt ptr
      split_ifs <;> omega
    · exact Nat.mod_lt _ (by norm_num)
  all_goals first
    | rfl
    | exact absurd rfl hL
    | exact absurd rfl hG
    | exact absurd rfl hD

/-- Every command line whose command letter is not L, G or D is processed to the
end: the dispatcher returns. -/
theorem process_cmd_returns {M : Type} (host : Host M) (st : Mon M) (cmd : List Char)
    (hL : commandLetter cmd ≠ 'L') (hG : commandLetter cmd ≠ 'G')
    (hD : commandLetter cmd ≠ 'D') :
    (monitor_process_cmd host st cmd).isSome = true := by
  unfold monitor_process_cmd
  rw [skip_spaces_eq]
  unfold commandLetter firstNonSpace at hL hG hD
  cases hs : afterSpaces cmd with
  | nil => rfl
  | cons c ptr =>
    rw [hs] at hL hG hD
    simp only [List.headD_cons] at hL hG hD
    simp only []
    by_cases h0 : c = '\x00'
    · rw [if_pos h0]; rfl
    · rw [if_neg h0]
      exact monitor_switch_returns host st _ ptr hL hG hD

/-- The dump returns exactly for the lengths up to 0xFFF0. -/
theorem mon_dump_returns_iff {M : Type} (host : Host M) (st : Mon M) (addr len : Nat) :
    (mon_dump host st addr len).isSome = true ↔ len ≤ 0xFFF0 := by
  unfold mon_dump
  constructor
  · intro h
    by_contra hcon
    rw [mon_dump_loop_never_returns host st.mem addr len (by omega) 4097 0 _ _ rfl
      (by decide)] at h
    exact Bool.noConfusion h
  · intro h
    have hl := mon_dump_loop_eq host st.mem addr len h ((len + 15) / 16) 0 4097
      (List.replicate 16 0) [] (by omega) (by omega) (by simp)
    rw [Nat.mul_zero] at hl
    rw [hl]
    rfl

/-! ## Mnemonic table against the length classifier -/

/-- The source classifier is the one that tries its three rules in the order of
the source. -/
theorem get_instruction_len_rules (b : Nat) :
    get_instruction_len b =
      classifyIn [(lenOneRule, 1), (lenTwoRule, 2), (lenThreeRule, 3)] b := by
  unfold get_instruction_len classifyIn lenOneRule lenTwoRule lenThreeRule
  simp only [List.find?]
  split_ifs <;> simp_all

set_option maxRecDepth 1000000 in
set_option maxHeartbeats 4000000 in
/-- C24: there are 52 named opcodes and 24 implied mnemonics; for every opcode
byte `b` whose mnemonic is not `???`, `get_instruction_len(b)` is 1 when the
mnemonic is one of the 24 implied ones, 2 when it ends in `#` or `zp` or is a
branch, 3 when it is `JSR`, `JMP`, `JMP()` or ends in `ab`, and one of the three
cases applies; for every opcode byte no two of the three rules of the classifier
hold together, and trying the rules in any of the six orders gives the length
that `get_instruction_len` returns. -/
theorem mnemonic_table_agrees :
    namedOpcodes.length = 52 ∧ impliedMnemonics.length = 24 ∧
    ∀ b, b < 256 →
      (get_mnemonic b ≠ "???" →
        (isImpliedName (get_mnemonic b) = true → get_instruction_len b = 1) ∧
        (isShortOperandName (get_mnemonic b) = true → get_instruction_len b = 2) ∧
        (isLongOperandName (get_mnemonic b) = true → get_instruction_len b = 3) ∧
        (isImpliedName (get_mnemonic b) = true ∨ isShortOperandName (get_mnemonic b) = true ∨
          isLongOperandName (get_mnemonic b) = true)) ∧
      ¬ (lenOneRule b = true ∧ lenTwoRule b = true) ∧
      ¬ (lenOneRule b = true ∧ lenThreeRule b = true) ∧
      ¬ (lenTwoRule b = true ∧ lenThreeRule b = true) ∧
      ∀ rules ∈ ruleOrders, classifyIn rules b = get_instruction_len b := by
  decide

/-- Witness of `mnemonic_table_agrees`: opcode 0x84 is `STYzp`, no rule of the
classifier names it and its length is 2. -/
theorem mnemonic_table_agrees_witness :
    0x84 < 256 ∧ get_mnemonic 0x84 = "STYzp" ∧ lenTwoRule 0x84 = false ∧
      get_instruction_len 0x84 = 2 :=
  ⟨by decide, by decide, by decide,
    ((mnemonic_table_agrees.2.2 0x84 (by decide)).1 (by decide)).2.1 (by decide)⟩

/-! ## Accesses to the instruction buffer -/

/-- The checked body of the disassembly loop never fails: it prints the line of
the instruction at `addr` and yields its length. -/
theorem mon_disassemble_line_checked_eq {M : Type} (host : Host M) (mem : M) (addr : Nat) :
    mon_disassemble_line_checked host mem addr =
      some (disasmLine host mem addr, get_instruction_len (mon_read_byte host mem addr)) := by
  rcases get_instruction_len_cases (mon_read_byte host mem addr) with h | h | h
  · simp [mon_disassemble_line_checked, disasmLine, disasmRaw, disasmOperand, h,
      mon_disassemble_read_checked, mon_disassemble_hex_checked, checked_store, checked_load,
      List.range, List.range.loop, mon_print_space, mon_newline]
  · simp [mon_disassemble_line_checked, disasmLine, disasmRaw, disasmOperand, h,
      mon_disassemble_read_checked, mon_disassemble_hex_checked, checked_store, checked_load,
      List.range, List.range.loop, mon_print_space, mon_newline]
  · simp [mon_disassemble_line_checked, disasmLine, disasmRaw, disasmOperand, h,
      mon_disassemble_read_checked, mon_disassemble_hex_checked, checked_store, checked_load,
      List.range, List.range.loop, mon_print_space, mon_newline]

/-- The checked disassembly loop never fails and does what the loop of the source
does. -/
theorem mon_disassemble_loop_checked_eq {M : Type} (host : Host M) (mem : M) :
    ∀ n addr bytes out, bytes.length = 3 →
    mon_disassemble_loop_checked host mem n addr out =
      some (mon_disassemble_loop host mem n addr bytes out) := by
  intro n
  induction n with
  | zero => intro addr bytes out _; rfl
  | succ n ih =>
    intro addr bytes out hb
    have hl := mon_disassemble_line_eq host mem addr bytes hb
    have hlen := mon_disassemble_line_length host mem addr bytes
    have h1 : (mon_disassemble_line host mem addr bytes).2.1 = disasmLine host mem addr := by
      rw [hl]
    have h2 : (mon_disassemble_line host mem addr bytes).2.2 =
        get_instruction_len (mon_read_byte host mem addr) := by rw [hl]
    rw [mon_disassemble_loop_checked, mon_disassemble_line_checked_eq, mon_disassemble_loop]
    simp only [h1, h2]
    exact ih _ _ _ (by rw [hlen, hb])

/-- C21: `get_instruction_len(b)` is 1, 2 or 3 for every opcode byte `b`; the
body of the loop of `mon_disassemble` run with checked accesses to `bytes[3]`
(a store fails outside the array, a load fails outside the array and on a cell
that the same iteration has not written) never fails and gives the line and the
length that the source body gives, whatever the buffer held before; hence the
checked `mon_disassemble` never fails and does what `mon_disassemble` does. -/
theorem mon_disassemble_buffer_safe {M : Type} (host : Host M) :
    (∀ b, get_instruction_len b = 1 ∨ get_instruction_len b = 2 ∨ get_instruction_len b = 3) ∧
    (∀ (mem : M) addr x y z,
      mon_disassemble_line_checked host mem addr =
        some (mon_disassemble_line host mem addr [x, y, z]).2) ∧
    (∀ (st : Mon M) addr lines,
      mon_disassemble_checked host st addr lines = some (mon_disassemble host st addr lines)) := by
  refine ⟨get_instruction_len_cases, ?_, ?_⟩
  · intro mem addr x y z
    rw [mon_disassemble_line_checked_eq, mon_disassemble_line_eq host mem addr [x, y, z] rfl]
  · intro st addr lines
    unfold mon_disassemble_checked mon_disassemble
    rw [mon_disassemble_loop_checked_eq host st.mem lines addr [0, 0, 0] [] rfl]

/-- The checks are effective: a fourth store leaves the array, and a load fails on
a cell that has not been written and outside the array. -/
theorem checked_accesses_fail :
    mon_disassemble_read_checked ram exampleProgram 0x200 4 0 [none, none, none] = none ∧
    checked_load [some 0xA9, some 0x05, none] 2 = none ∧
    checked_load [some 0x4C, some 0x00, some 0x80] 3 = none := by
  decide

/-! ## Memory map -/

/-- Address of sample `i` of page `page`. -/
theorem memmap_addr (page i : Nat) (hp : page < 256) (hi : i < 64) :
    ((page <<< 8) ||| (i <<< 2)) % 65536 = 256 * page + 4 * i := by
  have h2 := Nat.mul_add_lt_is_or (i := 8) (b := i <<< 2)
    (by rw [Nat.shiftLeft_eq]; norm_num; omega) page
  rw [Nat.shiftLeft_eq, Nat.mul_comm page, ← h2, Nat.shiftLeft_eq]
  norm_num
  omega

/-- The sample loop counts the samples in use from index `i` on. -/
theorem mon_memmap_count_eq {M : Type} (host : Host M) (mem : M) (page : Nat) (hp : page < 256) :
    ∀ n i used_count, i + n ≤ 64 → used_count ≤ i →
    mon_memmap_count host mem page n i used_count =
      used_count + ((List.range' i n).filter (fun i =>
        decide (mon_read_byte host mem (256 * page + 4 * i) ≠ 0x00 ∧
          mon_read_byte host mem (256 * page + 4 * i) ≠ 0xFF))).length := by
  intro n
  induction n with
  | zero => intro i used_count _ _; simp [mon_memmap_count]
  | succ n ih =>
    intro i used_count hin hu
    rw [mon_memmap_count]
    simp only [memmap_addr page i hp (by omega)]
    rw [List.range'_succ, List.filter_cons]
    by_cases hc : mon_read_byte host mem (256 * page + 4 * i) ≠ 0x00 ∧
        mon_read_byte host mem (256 * page + 4 * i) ≠ 0xFF
    · rw [if_pos hc, ih _ _ (by omega) (by omega)]
      have hd : decide (mon_read_byte host mem (256 * page + 4 * i) ≠ 0x00 ∧
          mon_read_byte host mem (256 * page + 4 * i) ≠ 0xFF) = true := decide_eq_true hc
      rw [hd]
      simp only [if_true, List.length_cons]
      omega
    · rw [if_neg hc, ih _ _ (by omega) (by omega)]
      have hd : decide (mon_read_byte host mem (256 * page + 4 * i) ≠ 0x00 ∧
          mon_read_byte host mem (256 * page + 4 * i) ≠ 0xFF) = false := decide_eq_false hc
      rw [hd]
      simp only [Bool.false_eq_true, if_false]

theorem mon_memmap_count_used {M : Type} (host : Host M) (mem : M) (page : Nat)
    (hp : page < 256) : mon_memmap_count host mem page 64 0 0 = pageUsed host mem page := by
  rw [mon_memmap_count_eq host mem page hp 64 0 0 (by omega) (by omega), pageUsed,
    List.range_eq_range', Nat.zero_add]

/-- Text printed for one page: label, symbol, line end. -/
theorem mon_memmap_page_eq {M : Type} (host : Host M) (mem : M) (page : Nat) (hp : page < 256) :
    mon_memmap_page host mem page =
      (if (page &&& 0x0F) = 0x01 then "$".toList ++ mon_print_hex8 page ++ ": ".toList else []) ++
      [pageSymbol (pageUsed host mem page)] ++
      (if (page &&& 0x0F) = 0x00 ∨ page = 0x3D then ['\r', '\n'] else []) := by
  simp only [mon_memmap_page, mon_memmap_count_used host mem page hp, pageSymbol,
    Nat.mod_eq_of_lt hp, mon_newline]

theorem pageUsed_le {M : Type} (host : Host M) (mem : M) (p : Nat) : pageUsed host mem p ≤ 64 := by
  unfold pageUsed
  exact (List.length_filter_le _ _).trans (by simp)

theorem mon_memmap_loop_eq {M : Type} (host : Host M) (mem : M) : ∀ n page,
    mon_memmap_loop host mem n page = (List.range' page n).flatMap (mon_memmap_page host mem) := by
  intro n
  induction n with
  | zero => intro page; rfl
  | succ n ih => intro page; rw [mon_memmap_loop, ih, List.range'_succ, List.flatMap_cons]

set_option maxRecDepth 100000 in
/-- The text of `mon_memmap` is the heading, the four rows and the footer. -/
theorem mon_memmap_eq {M : Type} (host : Host M) (mem : M) :
    mon_memmap host mem = memmapText host mem := by
  have hr : List.range' 1 61 = List.range' 0x01 16 ++ List.range' 0x11 16 ++
      List.range' 0x21 16 ++ List.range' 0x31 13 := by decide
  unfold mon_memmap memmapText memmapRow memmapSymbols
  rw [mon_memmap_loop_eq, hr]
  simp [List.range', mon_memmap_page_eq, mon_newline, and_0F]

/-- The count of a mapped page depends only on the bytes at 0x0100..0x3DFF. -/
theorem pageUsed_congr {M : Type} (host : Host M) (mem mem' : M)
    (h : ∀ a, 0x0100 ≤ a → a ≤ 0x3DFF → host.read mem' a = host.read mem a)
    (p : Nat) (h1 : 1 ≤ p) (h2 : p ≤ 0x3D) : pageUsed host mem' p = pageUsed host mem p := by
  unfold pageUsed
  congr 1
  apply List.filter_congr
  intro i hi
  have hi' : i < 64 := List.mem_range.mp hi
  have hr : mon_read_byte host mem' (256 * p + 4 * i) = mon_read_byte host mem (256 * p + 4 * i) := by
    have hm : (256 * p + 4 * i) % 65536 = 256 * p + 4 * i := Nat.mod_eq_of_lt (by omega)
    unfold mon_read_byte
    rw [hm, h _ (by omega) (by omega)]
  rw [hr]

theorem memmapSymbols_congr {M : Type} (host : Host M) (mem mem' : M)
    (h : ∀ a, 0x0100 ≤ a → a ≤ 0x3DFF → host.read mem' a = host.read mem a)
    (first n : Nat) (h1 : 1 ≤ first) (h2 : first + n ≤ 0x3E) :
    memmapSymbols host mem' first n = memmapSymbols host mem first n := by
  unfold memmapSymbols
  apply List.map_congr_left
  intro p hp
  rw [List.mem_range'_1] at hp
  rw [pageUsed_congr host mem mem' h p (by omega) (by omega)]

/-- The text of the map depends only on the bytes at 0x0100..0x3DFF. -/
theorem memmapText_congr {M : Type} (host : Host M) (mem mem' : M)
    (h : ∀ a, 0x0100 ≤ a → a ≤ 0x3DFF → host.read mem' a = host.read mem a) :
    memmapText host mem' = memmapText host mem := by
  unfold memmapText memmapRow
  rw [memmapSymbols_congr host mem mem' h 0x01 16 (by omega) (by omega),
    memmapSymbols_congr host mem mem' h 0x11 16 (by omega) (by omega),
    memmapSymbols_congr host mem mem' h 0x21 16 (by omega) (by omega),
    memmapSymbols_congr host mem mem' h 0x31 13 (by omega) (by omega)]

theorem pageSymbol_cases (u : Nat) :
    (u = 0 → pageSymbol u = '.') ∧ (u ≥ 60 → pageSymbol u = '#') ∧
      (1 ≤ u → u ≤ 59 → pageSymbol u = 'X') := by
  unfold pageSymbol
  refine ⟨fun h => by simp [h], fun h => ?_, fun h1 h2 => ?_⟩
  · rw [if_neg (by omega), if_pos h]
  · rw [if_neg (by omega), if_neg (by omega)]

/-- C22: for every memory content, the text of `mon_memmap` is the heading, four
rows of 16, 16, 16 and 13 symbols labelled `$01`, `$11`, `$21`, `$31`, and the
footer; the symbols of the rows are, in order, those of the 61 pages 0x01..0x3D;
with `u(p)` the number of `i` in 0..63 such that the byte at `256 * p + 4 * i` is
neither 0x00 nor 0xFF, the symbol of page `p` is `.` when `u(p) = 0`, `#` when
`u(p) >= 60` and `X` when `1 <= u(p) <= 59`; and the text is the same for every
memory that holds the same bytes at 0x0100..0x3DFF, so no address outside that
range is read. -/
theorem mon_memmap_spec {M : Type} (host : Host M) (mem : M) :
    mon_memmap host mem = memmapText host mem ∧
    memmapSymbols host mem 0x01 16 ++ memmapSymbols host mem 0x11 16 ++
      memmapSymbols host mem 0x21 16 ++ memmapSymbols host mem 0x31 13 =
        memmapSymbols host mem 0x01 61 ∧
    (memmapSymbols host mem 0x01 61).length = 61 ∧
    (∀ p, pageUsed host mem p ≤ 64 ∧
      (pageUsed host mem p = 0 → pageSymbol (pageUsed host mem p) = '.') ∧
      (pageUsed host mem p ≥ 60 → pageSymbol (pageUsed host mem p) = '#') ∧
      (1 ≤ pageUsed host mem p → pageUsed host mem p ≤ 59 →
        pageSymbol (pageUsed host mem p) = 'X')) ∧
    (∀ mem', (∀ a, 0x0100 ≤ a → a ≤ 0x3DFF → host.read mem' a = host.read mem a) →
      mon_memmap host mem' = mon_memmap host mem) := by
  refine ⟨mon_memmap_eq host mem, ?_, ?_, ?_, ?_⟩
  · unfold memmapSymbols
    rw [← List.map_append, ← List.map_append, ← List.map_append]
    rfl
  · simp [memmapSymbols]
  · intro p
    exact ⟨pageUsed_le host mem p, pageSymbol_cases _⟩
  · intro mem' h
    rw [mon_memmap_eq, mon_memmap_eq, memmapText_congr host mem mem' h]

/-- Witness of `mon_memmap_spec`: a byte stored at 0x4000 does not change the map
of the memory holding the example program. -/
theorem mon_memmap_spec_witness :
    (∀ a, 0x0100 ≤ a → a ≤ 0x3DFF → ram.read exampleAbove a = ram.read exampleProgram a) ∧
    mon_memmap ram exampleAbove = mon_memmap ram exampleProgram :=
  ⟨fun a _ h2 => if_neg (by omega),
   (mon_memmap_spec ram exampleProgram).2.2.2.2 exampleAbove
     (fun a _ h2 => if_neg (by omega))⟩

set_option maxRecDepth 1000000 in
/-- Map of the memory holding the example program: page 0x02 has 1 of its 64
sampled bytes in use (0x4C at 0x0203 is not sampled; 0xEA at 0x0200 is), every
other page has none. -/
theorem mon_memmap_example :
    mon_memmap ram exampleProgram =
      ("Mapa de RAM (. = libre, # = usada, X = mixta)\r\n" ++
       "Cada caracter = 256 bytes (1 pagina)\r\n\r\n" ++
       "     0123456789ABCDEF\r\n" ++
       "$01: .X..............\r\n" ++
       "$11: ................\r\n" ++
       "$21: ................\r\n" ++
       "$31: .............\r\n" ++
       "\r\nZP=$02-$FF  Stack=$3E-$3F\r\n").toList := by
  decide

/-! ## Line editor -/

theorem lineStep_printable (N : Nat) (line : List Char) (c : Char)
    (h : ∀ x ∈ line, isPrintable x = true) : ∀ x ∈ lineStep N line c, isPrintable x = true := by
  unfold lineStep
  split_ifs with h1 h2
  · intro x hx
    exact h x (List.mem_of_mem_dropLast hx)
  · intro x hx
    rcases List.mem_append.mp hx with hx | hx
    · exact h x hx
    · rw [List.mem_singleton.mp hx]
      exact h2.1
  · exact h

theorem foldl_lineStep_printable (N : Nat) : ∀ (typed line : List Char),
    (∀ x ∈ line, isPrintable x = true) →
    ∀ x ∈ typed.foldl (lineStep N) line, isPrintable x = true := by
  intro typed
  induction typed with
  | nil => intro line h; exact h
  | cons c typed ih =>
    intro line h
    exact ih _ (lineStep_printable N line c h)

theorem typedLine_printable (N : Nat) (typed : List Char) :
    ∀ x ∈ typedLine N typed, isPrintable x = true :=
  foldl_lineStep_printable N typed [] (fun _ hx => absurd hx (List.not_mem_nil _))

theorem take_set_self {α : Type} : ∀ (l : List α) (n : Nat) (a : α),
    (l.set n a).take n = l.take n := by
  intro l
  induction l with
  | nil => intro n a; rfl
  | cons x l ih =>
    intro n a
    cases n with
    | zero => rfl
    | succ n => simp [List.set, ih]

/-- One key that does not end the line: the buffer holds the line of `lineStep`
in its first `input_pos` cells, and `input_pos` stays below the capacity. -/
theorem mon_read_line_loop_step (N : Nat) (hN : N ≤ 256) (c : Char) (rest buf : List Char)
    (pos : Nat) (out : List Char) (hc : isLineEnd c = false) (hb : buf.length = N)
    (hp : pos < N) :
    ∃ buf' pos' out', mon_read_line_loop N (c :: rest) buf pos out =
        mon_read_line_loop N rest buf' pos' out' ∧
      buf'.length = N ∧ pos' < N ∧ buf'.take pos' = lineStep N (buf.take pos) c := by
  have hc' : ¬ (c = '\r' ∨ c = '\n' ∨ c.toNat = 0x1B) := by
    simpa [isLineEnd] using hc
  have hne : ¬ (c = '\r' ∨ c = '\n') := fun h => hc' (h.elim Or.inl (fun h => Or.inr (Or.inl h)))
  have hesc : ¬ c.toNat = 0x1B := fun h => hc' (Or.inr (Or.inr h))
  have hlen : (buf.take pos).length = pos := by
    rw [List.length_take]; omega
  rw [mon_read_line_loop, if_neg hne]
  by_cases hbs : c.toNat = 0x08 ∨ c.toNat = 0x7F
  · have hl : lineStep N (buf.take pos) c = (buf.take pos).dropLast := by
      unfold lineStep isBackspace
      rw [if_pos (decide_eq_true hbs)]
    rw [if_pos hbs, hl]
    by_cases hpos : pos > 0
    · rw [if_pos hpos]
      refine ⟨buf, pos - 1, _, rfl, hb, by omega, ?_⟩
      rw [List.dropLast_eq_take, hlen, List.take_take]
      congr 1
      omega
    · rw [if_neg hpos]
      refine ⟨buf, pos, _, rfl, hb, hp, ?_⟩
      have h0 : pos = 0 := by omega
      subst h0
      rfl
  · have hnb : isBackspace c = false := by
      unfold isBackspace
      exact decide_eq_false hbs
    rw [if_neg hbs, if_neg hesc]
    by_cases hst : pos < N - 1 ∧ c.toNat ≥ 0x20 ∧ c.toNat < 0x7F
    · have hl : lineStep N (buf.take pos) c = buf.take pos ++ [c] := by
        unfold lineStep
        rw [hnb, if_neg (by simp), if_pos]
        refine ⟨?_, by rw [hlen]; exact hst.1⟩
        unfold isPrintable
        exact decide_eq_true ⟨hst.2.1, by omega⟩
      rw [if_pos hst, hl]
      refine ⟨buf.set pos c, (pos + 1) % 256, _, rfl, by rw [List.length_set, hb], ?_, ?_⟩
      · rw [Nat.mod_eq_of_lt (by omega)]; omega
      · rw [Nat.mod_eq_of_lt (by omega), List.take_succ, take_set_self]
        simp [hb, hp]
    · have hl : lineStep N (buf.take pos) c = buf.take pos := by
        unfold lineStep
        rw [hnb, if_neg (by simp), if_neg]
        rintro ⟨h1, h2⟩
        rw [hlen] at h2
        have h3 : 0x20 ≤ c.toNat ∧ c.toNat ≤ 0x7E := by
          simpa [isPrintable] using h1
        exact hst ⟨h2, h3.1, by omega⟩
      rw [if_neg hst, hl]
      exact ⟨buf, pos, _, rfl, hb, hp, rfl⟩

/-- Keys that do not end the line: after them the buffer holds, in its first
`input_pos` cells, the line the keys build, and `input_pos` is below the
capacity. -/
theorem mon_read_line_loop_prefix (N : Nat) (hN : N ≤ 256) : ∀ (pre rest buf : List Char)
    (pos : Nat) (out : List Char), (∀ c ∈ pre, isLineEnd c = false) → buf.length = N → pos < N →
    ∃ buf' pos' out', mon_read_line_loop N (pre ++ rest) buf pos out =
        mon_read_line_loop N rest buf' pos' out' ∧
      buf'.length = N ∧ pos' < N ∧ buf'.take pos' = pre.foldl (lineStep N) (buf.take pos) := by
  intro pre
  induction pre with
  | nil => intro rest buf pos out _ hb hp; exact ⟨buf, pos, out, rfl, hb, hp, rfl⟩
  | cons c pre ih =>
    intro rest buf pos out hpre hb hp
    obtain ⟨buf1, pos1, out1, h1, hb1, hp1, ht1⟩ :=
      mon_read_line_loop_step N hN c (pre ++ rest) buf pos out
        (hpre c (List.mem_cons_self _ _)) hb hp
    obtain ⟨buf2, pos2, out2, h2, hb2, hp2, ht2⟩ :=
      ih rest buf1 pos1 out1 (fun x hx => hpre x (List.mem_cons_of_mem _ hx)) hb1 hp1
    refine ⟨buf2, pos2, out2, ?_, hb2, hp2, ?_⟩
    · rw [List.cons_append, h1, h2]
    · rw [ht2, ht1, List.foldl_cons]

/-- The C string of a buffer closed by a NUL at `pos`, when no NUL comes before. -/
theorem cString_set : ∀ (buf : List Char) (pos : Nat), pos < buf.length →
    (∀ x ∈ buf.take pos, x ≠ '\x00') → cString (buf.set pos '\x00') = buf.take pos := by
  intro buf
  induction buf with
  | nil => intro pos h; simp at h
  | cons x buf ih =>
    intro pos h hx
    cases pos with
    | zero => simp [cString]
    | succ pos =>
      have hx0 : x ≠ '\x00' := hx x (by simp)
      have ih' := ih pos (by simpa using h) (fun y hy => hx y (by simp [hy]))
      unfold cString at ih' ⊢
      rw [List.set_cons_succ, List.takeWhile_cons, if_pos (decide_eq_true hx0), ih',
        List.take_succ_cons]

theorem isPrintable_ne_nul (x : Char) (h : isPrintable x = true) : x ≠ '\x00' := by
  intro h0
  subst h0
  exact absurd h (by decide)

/-- An empty line is dispatched without any effect. -/
theorem process_cmd_empty {M : Type} (host : Host M) (st : Mon M) (buf : List Char) :
    monitor_process_cmd host st ('\x00' :: buf) = some (st, MonResult.MON_OK) := by
  simp [monitor_process_cmd, skip_spaces]

/-- C23: with `N = MON_BUFFER_SIZE` cells in the buffer, `2 <= N <= 256`, and the
keys `typed` followed by a line end `t` (Enter or Escape): after every prefix `p`
of `typed`, `mon_read_line` is at an `input_pos` in `0..N-1` with the line
`typedLine N p` in the first `input_pos` cells of the buffer, all printable
ASCII; a backspace turns the line `l` into `l` without its last character, which
is `l` when it is empty; `mon_read_line` returns with `input_pos` in `0..N-1`,
the NUL stored at `input_pos` inside the buffer, and the line `typedLine N typed`
after Enter and the empty line after Escape as the C string of the buffer; after
Escape, dispatching the buffer returns `MON_OK` and changes nothing, Last Address
included. -/
theorem mon_read_line_spec {M : Type} (host : Host M) (N : Nat) (hN1 : 2 ≤ N) (hN2 : N ≤ 256)
    (st : Mon M) (typed rest : List Char) (t : Char)
    (hbuf : st.input_buffer.length = N) (hinp : st.inp = typed ++ t :: rest)
    (htyped : ∀ c ∈ typed, isLineEnd c = false) (ht : isLineEnd t = true) :
    (∀ p q, typed = p ++ q →
      ∃ buf pos out, mon_read_line_loop N st.inp st.input_buffer 0 st.out =
          mon_read_line_loop N (q ++ t :: rest) buf pos out ∧
        buf.length = N ∧ pos ≤ N - 1 ∧ buf.take pos = typedLine N p ∧
        ∀ x ∈ typedLine N p, isPrintable x = true) ∧
    (∀ (l : List Char) c, isBackspace c = true →
      lineStep N l c = l.dropLast ∧ (l = [] → lineStep N l c = l)) ∧
    ∃ st', mon_read_line N st = some st' ∧ st'.inp = rest ∧
      st'.input_buffer.length = N ∧ st'.input_pos ≤ N - 1 ∧
      st'.input_buffer.get? st'.input_pos = some '\x00' ∧
      cString st'.input_buffer = (if t.toNat = 0x1B then [] else typedLine N typed) ∧
      st'.input_pos = (if t.toNat = 0x1B then 0 else (typedLine N typed).length) ∧
      st'.mem = st.mem ∧ st'.last_addr = st.last_addr ∧
      (t.toNat = 0x1B →
        monitor_process_cmd host st' st'.input_buffer = some (st', MonResult.MON_OK)) := by
  have key : ∀ p q, typed = p ++ q →
      ∃ buf pos out, mon_read_line_loop N st.inp st.input_buffer 0 st.out =
          mon_read_line_loop N (q ++ t :: rest) buf pos out ∧
        buf.length = N ∧ pos < N ∧ buf.take pos = typedLine N p := by
    intro p q hpq
    have hp : ∀ c ∈ p, isLineEnd c = false := fun c hc =>
      htyped c (by rw [hpq]; exact List.mem_append_left _ hc)
    obtain ⟨buf, pos, out, h1, h2, h3, h4⟩ :=
      mon_read_line_loop_prefix N hN2 p (q ++ t :: rest) st.input_buffer 0 st.out hp hbuf
        (by omega)
    refine ⟨buf, pos, out, ?_, h2, h3, ?_⟩
    · rw [hinp, hpq, List.append_assoc]
      exact h1
    · rw [h4]
      rfl
  refine ⟨?_, ?_, ?_⟩
  · intro p q hpq
    obtain ⟨buf, pos, out, h1, h2, h3, h4⟩ := key p q hpq
    exact ⟨buf, pos, out, h1, h2, by omega, h4, typedLine_printable N p⟩
  · intro l c hc
    have h : lineStep N l c = l.dropLast := by
      unfold lineStep
      rw [if_pos hc]
    exact ⟨h, fun hl => by rw [h, hl]; rfl⟩
  · obtain ⟨buf, pos, out, h1, h2, h3, h4⟩ := key typed [] (List.append_nil _).symm
    have hlen : (typedLine N typed).length = pos := by
      rw [← h4, List.length_take]; omega
    have ht' : t = '\r' ∨ t = '\n' ∨ t.toNat = 0x1B := by
      simpa [isLineEnd] using ht
    by_cases hesc : t.toNat = 0x1B
    · have hne : ¬ (t = '\r' ∨ t = '\n') := by
        rintro (h | h) <;> subst h <;> exact absurd hesc (by decide)
      have hbs : ¬ (t.toNat = 0x08 ∨ t.toNat = 0x7F) := by omega
      have hrun : mon_read_line_loop N st.inp st.input_buffer 0 st.out =
          some (buf.set 0 '\x00', 0, out ++ " [ESC]".toList ++ mon_newline, rest) := by
        rw [h1, List.nil_append, mon_read_line_loop, if_neg hne, if_neg hbs, if_pos hesc]
      obtain ⟨x, tl, hx⟩ : ∃ x tl, buf = x :: tl := by
        cases buf with
        | nil => simp at h2; omega
        | cons x tl => exact ⟨x, tl, rfl⟩
      subst hx
      refine ⟨{ st with input_buffer := ('\x00' :: tl), input_pos := 0,
                        out := out ++ " [ESC]".toList ++ mon_newline, inp := rest }, ?_, rfl, ?_,
        Nat.zero_le _, rfl, ?_, ?_, rfl, rfl, ?_⟩
      · unfold mon_read_line
        rw [hrun]
        rfl
      · simpa using h2
      · rw [if_pos hesc]
        simp [cString]
      · rw [if_pos hesc]
      · intro _
        exact process_cmd_empty host _ tl
    · have hne : t = '\r' ∨ t = '\n' := by
        rcases ht' with h | h | h
        · exact Or.inl h
        · exact Or.inr h
        · exact absurd h hesc
      have hrun : mon_read_line_loop N st.inp st.input_buffer 0 st.out =
          some (buf.set pos '\x00', pos, out ++ mon_newline, rest) := by
        rw [h1, List.nil_append, mon_read_line_loop, if_pos hne]
      refine ⟨{ st with input_buffer := buf.set pos '\x00', input_pos := pos,
                        out := out ++ mon_newline, inp := rest }, ?_, rfl, ?_,
        by show pos ≤ N - 1; omega, ?_, ?_, ?_, rfl, rfl, fun h => absurd h hesc⟩
      · unfold mon_read_line
        rw [hrun]
      · show (buf.set pos '\x00').length = N
        rw [List.length_set, h2]
      · show (buf.set pos '\x00').get? pos = some '\x00'
        simp [h2, h3]
      · rw [if_neg hesc]
        show cString (buf.set pos '\x00') = typedLine N typed
        rw [cString_set buf pos (by omega), h4]
        intro x hx
        rw [h4] at hx
        exact isPrintable_ne_nul x (typedLine_printable N typed x hx)
      · rw [if_neg hesc]
        exact hlen.symm

/-- Witness of `mon_read_line_spec`: with 4 cells, the keys `R 1 DEL 2 3 x` build
the line `R23` (the `x` finds the buffer full), and Escape then leaves an empty
line whose dispatch changes nothing. -/
theorem mon_read_line_spec_witness :
    2 ≤ 4 ∧ 4 ≤ 256 ∧
    typedLine 4 ['R', '1', Char.ofNat 0x7F, '2', '3', 'x'] = ['R', '2', '3'] ∧
    ∃ st', mon_read_line 4 (boot 4 exampleProgram
        (['R', '1', Char.ofNat 0x7F, '2', '3', 'x'] ++ Char.ofNat 0x1B :: ['Q', '\r'])) =
          some st' ∧
      st'.inp = ['Q', '\r'] ∧ cString st'.input_buffer = [] ∧ st'.last_addr = 0x0200 ∧
      monitor_process_cmd ram st' st'.input_buffer = some (st', MonResult.MON_OK) :=
  ⟨by decide, by decide, by decide,
    match mon_read_line_spec ram 4 (by decide) (by decide)
      (boot 4 exampleProgram
        (['R', '1', Char.ofNat 0x7F, '2', '3', 'x'] ++ Char.ofNat 0x1B :: ['Q', '\r']))
      ['R', '1', Char.ofNat 0x7F, '2', '3', 'x'] ['Q', '\r'] (Char.ofNat 0x1B)
      rfl rfl (by decide) (by decide) with
    | ⟨_, _, st', h1, h2, _, _, _, h6, _, _, h9, h10⟩ =>
      ⟨st', h1, h2, h6.trans (if_pos (by decide)), h9, h10 (by decide)⟩⟩

/-- Example of a line ended by Enter: with 4 cells, the keys `R 1 DEL 2 3 x` and
Enter leave the C string `R23` and `input_pos` 3. -/
theorem mon_read_line_example :
    (mon_read_line 4 (boot 4 exampleProgram
        ['R', '1', Char.ofNat 0x7F, '2', '3', 'x', '\r', 'Q'])).map
      (fun st => (cString st.input_buffer, st.input_pos, st.inp)) =
      some (['R', '2', '3'], 3, ['Q']) := by
  decide

end Monitor
